import Mathlib

/-!
# Verification of the troy-it-portal ingestion-and-resolution engine

Shallow embedding of the schedule-import and lecturer-resolution core:
the assignment resolver (`resolveLecturersForEntry`, fallback override
layering, `computeConflicts`), the workbook parser helpers
(`expandClassGroups`, `normalizeCourseCode`, `parseScheduleCell`, the
row scan of `parseSheet`), the catalog decoder (`decodeCatalogCsv`) and
the entity normalizer (`writeImport`), together with theorems checking
the natural-language specification against these definitions.

JavaScript strings are modelled as Lean `String`s (sequences of Unicode
scalar values); `toUpperCase`/`toLowerCase` are modelled on the ASCII
range (`Char.toUpper`/`Char.toLower`), which agrees with JavaScript on
every character the embedded regular expressions can match.
-/

namespace TroyPortal

/-- The JavaScript whitespace class (`\s`, `trim`): space, tab, LF, CR,
vertical tab, form feed and no-break space (the repertoire occurring in
cell text after `cleanCell`). -/
def isJsSpace (c : Char) : Bool :=
  c == ' ' || c == '\t' || c == '\n' || c == '\r' ||
  c == Char.ofNat 11 || c == Char.ofNat 12 || c == Char.ofNat 160

/-- `String.prototype.trim`. -/
def trimChars (l : List Char) : List Char :=
  ((l.dropWhile isJsSpace).reverse.dropWhile isJsSpace).reverse

/-- Helper of `collapseSpaces`: the flag records whether the previous
character belonged to a whitespace run already replaced by `' '`. -/
def collapseSpacesAux (prevSpace : Bool) : List Char → List Char
  | [] => []
  | c :: rest =>
    if isJsSpace c then
      if prevSpace then collapseSpacesAux true rest
      else ' ' :: collapseSpacesAux true rest
    else c :: collapseSpacesAux false rest

/-- `replace(/\s+/g, " ")`: collapse every whitespace run to one space. -/
def collapseSpaces (l : List Char) : List Char :=
  collapseSpacesAux false l

/-- `[...new Set(l)]`: deduplication keeping first occurrences, as a
JavaScript `Set` iterates in insertion order. -/
def dedupFirstAux {α : Type} [DecidableEq α] (seen : List α) : List α → List α
  | [] => []
  | x :: xs => if x ∈ seen then dedupFirstAux seen xs else x :: dedupFirstAux (x :: seen) xs

/-- `[...new Set(l)]` with an empty initial seen-set. -/
def dedupFirst {α : Type} [DecidableEq α] (l : List α) : List α :=
  dedupFirstAux [] l

/-! ## Assignment resolver (portal data module)

Embeds `normalizeInstructionCode`, `normalizeClassGroupName` and
`resolveLecturersForEntry` from the portal data source file. The source
maps each resolved lecturer id to an `{id, name}` pair through a name
map; the claims are about the id set, so the embedding returns the ids. -/

/-- `normalizeClassGroupName`: trim, uppercase, collapse inner whitespace.
A `null`/`undefined` argument is modelled by `""` (both return `""`). -/
def normalizeClassGroupName (raw : String) : String :=
  ⟨collapseSpaces (trimChars raw.data |>.map Char.toUpper)⟩

/-- `normalizeInstructionCode`: trim, uppercase, strip every character
that is not an ASCII capital letter or digit. -/
def normalizeInstructionCode (raw : String) : String :=
  ⟨(trimChars raw.data |>.map Char.toUpper).filter fun c =>
      ('A' ≤ c && c ≤ 'Z') || c.isDigit⟩

/-- One `CourseTeachingAssignment` row as fetched by the portal query
(`enabled = true` rows only, with the selected columns). -/
structure Assignment where
  courseCode : String
  classGroupName : String
  instructionCode : String
  lecturerId : String
deriving DecidableEq, Repr

/-- The loop body of `resolveLecturersForEntry`: carries the
`(maxScore, matched)` accumulator (initially `(-1, [])`); rows for a
different course and rows whose non-wildcard group/instruction fields
mismatch the query `continue` without touching the accumulator. -/
def resolveStep (courseCode classGroupName instructionCode : String)
    (acc : Int × List String) (a : Assignment) : Int × List String :=
  if a.courseCode != courseCode then acc
  else
    let assignmentClass := normalizeClassGroupName a.classGroupName
    if assignmentClass != "" && assignmentClass != classGroupName then acc
    else
      let assignmentInstruction := normalizeInstructionCode a.instructionCode
      if assignmentInstruction != "" && assignmentInstruction != instructionCode then acc
      else
        let score : Int := (if assignmentClass != "" then 2 else 0) +
          (if assignmentInstruction != "" then 1 else 0)
        if acc.1 < score then (score, [a.lecturerId])
        else if score = acc.1 then (acc.1, acc.2 ++ [a.lecturerId])
        else acc

/-- `resolveLecturersForEntry`: score the enabled assignment rows and
return the deduplicated lecturer ids of the rows achieving the maximum
score. -/
def resolveLecturersForEntry (courseCode classGroupName instructionCode : String)
    (assignments : List Assignment) : List String :=
  dedupFirst
    (assignments.foldl (resolveStep courseCode classGroupName instructionCode) (-1, [])).2

/-! Specification-side vocabulary for the resolver claim: candidate rows,
rejection, specificity score and best score, written after the spec's
description of the algorithm. -/

/-- The candidate rows of a query: the fetched rows for its course. -/
def candidateRows (courseCode : String) (assignments : List Assignment) : List Assignment :=
  assignments.filter fun a => a.courseCode == courseCode

/-- A row is rejected when one of its non-wildcard scope fields differs
from the query (wildcard = empty after normalization). -/
def rejectedRow (classGroupName instructionCode : String) (a : Assignment) : Bool :=
  (normalizeClassGroupName a.classGroupName != "" &&
    normalizeClassGroupName a.classGroupName != classGroupName) ||
  (normalizeInstructionCode a.instructionCode != "" &&
    normalizeInstructionCode a.instructionCode != instructionCode)

/-- Specificity score: +2 for a non-wildcard class group, +1 for a
non-wildcard instruction code; a fully wildcarded row scores 0. -/
def specificityScore (a : Assignment) : Int :=
  (if normalizeClassGroupName a.classGroupName != "" then 2 else 0) +
  (if normalizeInstructionCode a.instructionCode != "" then 1 else 0)

/-- The non-rejected candidate rows of a query. -/
def acceptedRows (courseCode classGroupName instructionCode : String)
    (assignments : List Assignment) : List Assignment :=
  (candidateRows courseCode assignments).filter fun a =>
    !rejectedRow classGroupName instructionCode a

/-- The maximum specificity score over the accepted rows (`-1` when no
row is accepted, matching the accumulator's initial value). -/
def bestScore (courseCode classGroupName instructionCode : String)
    (assignments : List Assignment) : Int :=
  ((acceptedRows courseCode classGroupName instructionCode assignments).map
    specificityScore).foldl max (-1)

/-! ## Fallback tier (catalog defaults + `CourseLecturerOverride` rows)

Embeds the construction of `fallbackLecturerIdsByCourse` and the
per-entry tier choice of `getPortalData`. A JavaScript `Set` is an
insertion-ordered collection without duplicates, modelled as a
duplicate-free list; `Set.prototype.add` appends when absent and
`Set.prototype.delete` removes the element. -/

/-- One `CourseLecturerOverride` row as fetched by the portal query. -/
structure OverrideRow where
  courseCode : String
  lecturerId : String
  enabled : Bool
deriving DecidableEq, Repr

/-- `Set.prototype.add`. -/
def setAdd (l : List String) (x : String) : List String :=
  if x ∈ l then l else l ++ [x]

/-- `Set.prototype.delete`. -/
def setDelete (l : List String) (x : String) : List String :=
  l.erase x

/-- The override loop of `getPortalData`: starting from the
catalog-seeded default id set of a course, every fetched override row
for that course adds its lecturer id when `enabled` and removes it
otherwise, in storage order. -/
def fallbackLecturerIds (catalogDefaults : List String) (overrides : List OverrideRow)
    (courseCode : String) : List String :=
  overrides.foldl
    (fun row o =>
      if o.courseCode == courseCode then
        (if o.enabled then setAdd row o.lecturerId else setDelete row o.lecturerId)
      else row)
    (dedupFirst catalogDefaults)

/-- The per-entry lecturer set of `getPortalData`: the resolver's answer
when non-empty, otherwise the fallback tier (`lecturers.length > 0 ?
lecturers : [...new Set(fallback)]`; the source then decorates the ids
with display names and sorts by name, which does not change the id set). -/
def entryLecturerIds (courseCode classGroupName instructionCode : String)
    (assignments : List Assignment) (catalogDefaults : List String)
    (overrides : List OverrideRow) : List String :=
  let lecturers := resolveLecturersForEntry courseCode classGroupName instructionCode assignments
  if 0 < lecturers.length then lecturers
  else dedupFirst (fallbackLecturerIds catalogDefaults overrides courseCode)

/-- The last override row in storage order touching a given course and
lecturer id (spec-side vocabulary: "the latest write for a given id"). -/
def lastOverrideFor (overrides : List OverrideRow) (courseCode lecturerId : String) :
    Option OverrideRow :=
  overrides.foldl
    (fun acc o => if o.courseCode == courseCode && o.lecturerId == lecturerId then some o else acc)
    none

/-! ## Class-group tokens (`expandClassGroups`, `normalizeClassGroup`)

Embeds the global scan of `/IT\s*0?(\d{1,2})/g`. JavaScript `matchAll`
tries the pattern at each position from left to right and resumes after
the end of every match; `0?` backtracks when taking the literal `'0'`
would leave `\d{1,2}` nothing to match. -/

/-- `parseInt(ds, 10)` on a non-empty digit string. -/
def natOfDigits (ds : List Char) : Nat :=
  ds.foldl (fun acc c => 10 * acc + (c.toNat - '0'.toNat)) 0

/-- All matches of `/IT\s*0?(\d{1,2})/g`, returning the parsed capture
of each match in scan order. The scan consumes at least one character
per step, so structural recursion on a fuel initialized to the input
length computes every match (`itScanFuel_fuel_irrelevant` below shows
the fuel never runs out); `0?` backtracks to the empty alternative when
taking the literal `'0'` would leave `\d{1,2}` nothing to match. -/
def itScanFuel (fuel : Nat) (l : List Char) : List Nat :=
  match fuel, l with
  | 0, _ => []
  | _ + 1, [] => []
  | fuel + 1, 'I' :: 'T' :: rest =>
    match (rest.dropWhile isJsSpace).takeWhile (·.isDigit) with
    | [] => itScanFuel fuel ('T' :: rest)
    | d0 :: dtail =>
      if d0 = '0' ∧ dtail ≠ [] then
        natOfDigits (dtail.take 2) ::
          itScanFuel fuel ((rest.dropWhile isJsSpace).drop (1 + (dtail.take 2).length))
      else
        natOfDigits ((d0 :: dtail).take 2) ::
          itScanFuel fuel ((rest.dropWhile isJsSpace).drop ((d0 :: dtail).take 2).length)
  | fuel + 1, _ :: rest => itScanFuel fuel rest

/-- The matches of the class-group token pattern in a label, after the
source's `toUpperCase()` (`parseInt` of a 1–2 digit capture is always
finite, so the `Number.isFinite` filter of the source never drops one). -/
def itMatches (label : String) : List Nat :=
  itScanFuel (label.data.map Char.toUpper).length (label.data.map Char.toUpper)

/-- `` `IT ${String(n).padStart(2, "0")}` ``. -/
def fmtIT (n : Nat) : String :=
  "IT " ++ (if n < 10 then "0" ++ toString n else toString n)

/-- `normalizeClassGroup`: format the first class-group token of the
text, when one exists. -/
def normalizeClassGroup (raw : String) : Option String :=
  (itMatches raw).head?.map fmtIT

/-- `expandClassGroups`: expand a declaration label into class groups;
with at least two tokens and a hyphen anywhere in the label, a strictly
increasing pair of first tokens at distance at most 20 expands to the
inclusive range, otherwise each token is kept once. -/
def expandClassGroups (label : String) : List String :=
  let numbers := itMatches label
  if numbers = [] then []
  else if 2 ≤ numbers.length ∧ '-' ∈ label.data then
    let start := numbers.headI
    let stop := (numbers.drop 1).headI
    if start < stop ∧ stop - start ≤ 20 then
      (List.range' start (stop - start + 1)).map fmtIT
    else dedupFirst (numbers.map fmtIT)
  else dedupFirst (numbers.map fmtIT)

/-! ## Conflicts (`computeConflicts`)

The source groups entries into a `Map` keyed by the template string
`` `${entry.dayOfWeek}:${entry.startTime}` ``; the day labels are the
fixed colon-free enum names, so this key is injective in the pair
`(dayOfWeek, startTime)` and the map is modelled as an association list
keyed by that pair. -/

/-- `DayOfWeek` of the Prisma schema. -/
inductive DayOfWeek where
  | MON | TUE | WED | THU | FRI | SAT | SUN
deriving DecidableEq, Repr

/-- The fields of a portal entry that `computeConflicts` reads. -/
structure PortalEntry where
  dayOfWeek : DayOfWeek
  startTime : Option String
  courseCode : String
deriving DecidableEq, Repr

/-- One element of the conflict list. -/
structure Conflict where
  dayOfWeek : DayOfWeek
  startTime : String
  courses : List String
deriving DecidableEq, Repr

/-- Replace the first element satisfying `p` (the `Map` holds at most
one entry per key). -/
def updateFirstWhere {α : Type} (p : α → Bool) (f : α → α) : List α → List α
  | [] => []
  | x :: xs => if p x then f x :: xs else x :: updateFirstWhere p f xs

/-- The grouping step of `computeConflicts`: entries without a start
time are skipped; a new key opens a group with the entry's course code;
an existing group gets the code appended unless already listed. -/
def conflictStep (groups : List Conflict) (e : PortalEntry) : List Conflict :=
  match e.startTime with
  | none => groups
  | some t =>
    if groups.any (fun c => c.dayOfWeek == e.dayOfWeek && c.startTime == t) then
      updateFirstWhere (fun c => c.dayOfWeek == e.dayOfWeek && c.startTime == t)
        (fun c =>
          { c with courses := if e.courseCode ∈ c.courses then c.courses
                              else c.courses ++ [e.courseCode] })
        groups
    else groups ++ [⟨e.dayOfWeek, t, [e.courseCode]⟩]

/-- `computeConflicts`: group by `(day, startTime)` and keep the groups
listing more than one distinct course code. -/
def computeConflicts (entries : List PortalEntry) : List Conflict :=
  (entries.foldl conflictStep []).filter (fun c => 1 < c.courses.length)

/-- Spec-side vocabulary: the distinct course codes of the entries at a
given `(day, startTime)` slot, in first-occurrence order. -/
def slotCodes (d : DayOfWeek) (t : String) (entries : List PortalEntry) : List String :=
  dedupFirst ((entries.filter (fun e => e.dayOfWeek == d && e.startTime == some t)).map
    (·.courseCode))

/-! ## Catalog decoding (`decodeCatalogCsv`)

Byte streams are lists of byte values, decoded text a list of Unicode
code points (JavaScript strings hold astral code points as surrogate
pairs; every character the decoder inspects — the BOM, the mojibake
markers and the known-good substrings — lies in the BMP, where the two
representations coincide). `Buffer.toString("utf8")` decodes per WHATWG
(invalid sequences become U+FFFD, one per maximal subpart);
`Buffer.from(text, "latin1")` keeps the low byte of each UTF-16 unit. -/

/-- WHATWG UTF-8 decoding of a byte list into code points. -/
def utf8Decode : List Nat → List Nat
  | [] => []
  | b :: rest =>
    if b < 0x80 then b :: utf8Decode rest
    else if b < 0xC2 then 0xFFFD :: utf8Decode rest
    else if b < 0xE0 then
      match rest with
      | [] => [0xFFFD]
      | b2 :: rest2 =>
        if 0x80 ≤ b2 ∧ b2 < 0xC0 then
          ((b - 0xC0) * 0x40 + (b2 - 0x80)) :: utf8Decode rest2
        else 0xFFFD :: utf8Decode (b2 :: rest2)
    else if b < 0xF0 then
      match rest with
      | [] => [0xFFFD]
      | b2 :: rest2 =>
        if (if b = 0xE0 then 0xA0 ≤ b2 ∧ b2 < 0xC0
            else if b = 0xED then 0x80 ≤ b2 ∧ b2 < 0xA0
            else 0x80 ≤ b2 ∧ b2 < 0xC0) then
          match rest2 with
          | [] => [0xFFFD]
          | b3 :: rest3 =>
            if 0x80 ≤ b3 ∧ b3 < 0xC0 then
              ((b - 0xE0) * 0x1000 + (b2 - 0x80) * 0x40 + (b3 - 0x80)) :: utf8Decode rest3
            else 0xFFFD :: utf8Decode (b3 :: rest3)
        else 0xFFFD :: utf8Decode (b2 :: rest2)
    else if b < 0xF5 then
      match rest with
      | [] => [0xFFFD]
      | b2 :: rest2 =>
        if (if b = 0xF0 then 0x90 ≤ b2 ∧ b2 < 0xC0
            else if b = 0xF4 then 0x80 ≤ b2 ∧ b2 < 0x90
            else 0x80 ≤ b2 ∧ b2 < 0xC0) then
          match rest2 with
          | [] => [0xFFFD]
          | b3 :: rest3 =>
            if 0x80 ≤ b3 ∧ b3 < 0xC0 then
              match rest3 with
              | [] => [0xFFFD]
              | b4 :: rest4 =>
                if 0x80 ≤ b4 ∧ b4 < 0xC0 then
                  ((b - 0xF0) * 0x40000 + (b2 - 0x80) * 0x1000 + (b3 - 0x80) * 0x40 +
                    (b4 - 0x80)) :: utf8Decode rest4
                else 0xFFFD :: utf8Decode (b4 :: rest4)
            else 0xFFFD :: utf8Decode (b3 :: rest3)
        else 0xFFFD :: utf8Decode (b2 :: rest2)
    else 0xFFFD :: utf8Decode rest

/-- UTF-8 encoding of one code point (used to build test byte streams). -/
def utf8EncodeChar (cp : Nat) : List Nat :=
  if cp < 0x80 then [cp]
  else if cp < 0x800 then [0xC0 + cp / 0x40, 0x80 + cp % 0x40]
  else if cp < 0x10000 then
    [0xE0 + cp / 0x1000, 0x80 + (cp / 0x40) % 0x40, 0x80 + cp % 0x40]
  else
    [0xF0 + cp / 0x40000, 0x80 + (cp / 0x1000) % 0x40, 0x80 + (cp / 0x40) % 0x40,
      0x80 + cp % 0x40]

/-- UTF-8 encoding of a code-point list. -/
def utf8Encode (cps : List Nat) : List Nat :=
  cps.flatMap utf8EncodeChar

/-- `Buffer.from(text, "latin1")`: the low byte of each UTF-16 code
unit (astral code points are split into their surrogate halves first). -/
def latin1ByteOfCp (cp : Nat) : List Nat :=
  if cp < 0x10000 then [cp % 0x100]
  else [(0xD800 + (cp - 0x10000) / 0x400) % 0x100, (0xDC00 + (cp - 0x10000) % 0x400) % 0x100]

/-- `Buffer.from(text, "latin1")` over a whole text. -/
def latin1Bytes (cps : List Nat) : List Nat :=
  cps.flatMap latin1ByteOfCp

/-- The code points of a Lean string literal. -/
def cpsOf (s : String) : List Nat :=
  s.data.map (·.toNat)

/-- Count of non-overlapping occurrences of `pat` (the semantics of
`text.match(new RegExp(marker, "g")).length` for a literal marker); the
scan consumes at least one element per step, so fuel `text.length`
suffices for the non-empty marker patterns. -/
def countOccurFuel (fuel : Nat) (pat text : List Nat) : Nat :=
  match fuel, text with
  | 0, _ => 0
  | _ + 1, [] => 0
  | fuel + 1, c :: rest =>
    if pat.isPrefixOf (c :: rest) then 1 + countOccurFuel fuel pat ((c :: rest).drop pat.length)
    else countOccurFuel fuel pat rest

/-- `String.prototype.includes` for a literal pattern. -/
def containsSub (pat : List Nat) : List Nat → Bool
  | [] => pat.isEmpty
  | c :: rest => pat.isPrefixOf (c :: rest) || containsSub pat rest

/-- The suspicious substrings of the legacy mis-decoding signature. -/
def mojibakeMarkers : List (List Nat) :=
  [cpsOf "Ã", cpsOf "á»", cpsOf "â€", cpsOf "Ä", cpsOf "�"]

/-- `text.charCodeAt(0) === 0xfeff` BOM stripping. -/
def bomStrip (cps : List Nat) : List Nat :=
  if cps.head? = some 0xFEFF then cps.drop 1 else cps

/-- Total number of marker hits in the decoded text. -/
def markerHits (text : List Nat) : Nat :=
  (mojibakeMarkers.map (fun m => countOccurFuel text.length m text)).foldl (· + ·) 0

/-- The reinterpretation `Buffer.from(text, "latin1").toString("utf8")`. -/
def repairLatin1 (text : List Nat) : List Nat :=
  utf8Decode (latin1Bytes text)

/-- The known-good check: the repaired text shows `"Khoa Học"` or
`"Tiếng Việt"`. -/
def knownGoodAfterRepair (repaired : List Nat) : Bool :=
  containsSub (cpsOf "Khoa Học") repaired || containsSub (cpsOf "Tiếng Việt") repaired

/-- `decodeCatalogCsv`: decode as UTF-8, strip a BOM, and when the
mojibake signature is strong (at least 8 marker hits) commit the
latin1-reinterpretation repair only if a known-good accented substring
appears in it. -/
def decodeCatalogCsv (bytes : List Nat) : List Nat :=
  let text := bomStrip (utf8Decode bytes)
  if 8 ≤ markerHits text then
    (if knownGoodAfterRepair (repairLatin1 text) then repairLatin1 text else text)
  else text

/-! ## Workbook parser (`parseScheduleCell` and the row scan of `parseSheet`)

The sheet grid is a list of rows, each a list of cell strings; column
`i` of a row is read with an empty-string default, as
`sheet_to_json(..., {defval: ""})` produces. -/

/-- `SessionPeriod` of the Prisma schema. -/
inductive SessionPeriod where
  | MORNING | AFTERNOON | EVENING | UNKNOWN
deriving DecidableEq, Repr

/-- One parsed schedule event (the parser's intermediate record). -/
structure ParsedEvent where
  classGroupName : String
  dayOfWeek : DayOfWeek
  session : SessionPeriod
  startTime : Option String
  rawTime : Option String
  room : Option String
  courseCode : String
  sourceSheet : String
  sourceRow : Nat
deriving DecidableEq, Repr

/-- `cleanCell`: stringify (modelled on string cells), replace no-break
spaces by spaces, trim. -/
def cleanCell (s : String) : String :=
  ⟨trimChars (s.data.map (fun c => if c = Char.ofNat 160 then ' ' else c))⟩

/-- NFD decomposition followed by removal of combining marks, restricted
to the Latin-1 and Vietnamese precomposed letters the workbook uses;
other characters decompose to themselves. -/
def stripDiacriticChar (c : Char) : Char :=
  match c.toNat with
  | 192 => 'A'
  | 193 => 'A'
  | 194 => 'A'
  | 195 => 'A'
  | 196 => 'A'
  | 197 => 'A'
  | 199 => 'C'
  | 200 => 'E'
  | 201 => 'E'
  | 202 => 'E'
  | 203 => 'E'
  | 204 => 'I'
  | 205 => 'I'
  | 206 => 'I'
  | 207 => 'I'
  | 209 => 'N'
  | 210 => 'O'
  | 211 => 'O'
  | 212 => 'O'
  | 213 => 'O'
  | 214 => 'O'
  | 217 => 'U'
  | 218 => 'U'
  | 219 => 'U'
  | 220 => 'U'
  | 221 => 'Y'
  | 224 => 'a'
  | 225 => 'a'
  | 226 => 'a'
  | 227 => 'a'
  | 228 => 'a'
  | 229 => 'a'
  | 231 => 'c'
  | 232 => 'e'
  | 233 => 'e'
  | 234 => 'e'
  | 235 => 'e'
  | 236 => 'i'
  | 237 => 'i'
  | 238 => 'i'
  | 239 => 'i'
  | 241 => 'n'
  | 242 => 'o'
  | 243 => 'o'
  | 244 => 'o'
  | 245 => 'o'
  | 246 => 'o'
  | 249 => 'u'
  | 250 => 'u'
  | 251 => 'u'
  | 252 => 'u'
  | 253 => 'y'
  | 255 => 'y'
  | 258 => 'A'
  | 259 => 'a'
  | 296 => 'I'
  | 297 => 'i'
  | 360 => 'U'
  | 361 => 'u'
  | 416 => 'O'
  | 417 => 'o'
  | 431 => 'U'
  | 432 => 'u'
  | 7840 => 'A'
  | 7841 => 'a'
  | 7842 => 'A'
  | 7843 => 'a'
  | 7844 => 'A'
  | 7845 => 'a'
  | 7846 => 'A'
  | 7847 => 'a'
  | 7848 => 'A'
  | 7849 => 'a'
  | 7850 => 'A'
  | 7851 => 'a'
  | 7852 => 'A'
  | 7853 => 'a'
  | 7854 => 'A'
  | 7855 => 'a'
  | 7856 => 'A'
  | 7857 => 'a'
  | 7858 => 'A'
  | 7859 => 'a'
  | 7860 => 'A'
  | 7861 => 'a'
  | 7862 => 'A'
  | 7863 => 'a'
  | 7864 => 'E'
  | 7865 => 'e'
  | 7866 => 'E'
  | 7867 => 'e'
  | 7868 => 'E'
  | 7869 => 'e'
  | 7870 => 'E'
  | 7871 => 'e'
  | 7872 => 'E'
  | 7873 => 'e'
  | 7874 => 'E'
  | 7875 => 'e'
  | 7876 => 'E'
  | 7877 => 'e'
  | 7878 => 'E'
  | 7879 => 'e'
  | 7880 => 'I'
  | 7881 => 'i'
  | 7882 => 'I'
  | 7883 => 'i'
  | 7884 => 'O'
  | 7885 => 'o'
  | 7886 => 'O'
  | 7887 => 'o'
  | 7888 => 'O'
  | 7889 => 'o'
  | 7890 => 'O'
  | 7891 => 'o'
  | 7892 => 'O'
  | 7893 => 'o'
  | 7894 => 'O'
  | 7895 => 'o'
  | 7896 => 'O'
  | 7897 => 'o'
  | 7898 => 'O'
  | 7899 => 'o'
  | 7900 => 'O'
  | 7901 => 'o'
  | 7902 => 'O'
  | 7903 => 'o'
  | 7904 => 'O'
  | 7905 => 'o'
  | 7906 => 'O'
  | 7907 => 'o'
  | 7908 => 'U'
  | 7909 => 'u'
  | 7910 => 'U'
  | 7911 => 'u'
  | 7912 => 'U'
  | 7913 => 'u'
  | 7914 => 'U'
  | 7915 => 'u'
  | 7916 => 'U'
  | 7917 => 'u'
  | 7918 => 'U'
  | 7919 => 'u'
  | 7920 => 'U'
  | 7921 => 'u'
  | 7922 => 'Y'
  | 7923 => 'y'
  | 7924 => 'Y'
  | 7925 => 'y'
  | 7926 => 'Y'
  | 7927 => 'y'
  | 7928 => 'Y'
  | 7929 => 'y'
  | _ => c

/-- `foldText`: NFD, strip combining marks, lowercase. -/
def foldChar (c : Char) : Char :=
  (stripDiacriticChar c).toLower

/-- Substring test (`String.prototype.includes`) on character lists. -/
def containsStr (pat : List Char) : List Char → Bool
  | [] => pat.isEmpty
  | c :: rest => pat.isPrefixOf (c :: rest) || containsStr pat rest

/-- Split a character list at every separator occurrence. -/
def splitOnChar (sep : Char) : List Char → List (List Char)
  | [] => [[]]
  | c :: rest =>
    let r := splitOnChar sep rest
    if c = sep then [] :: r
    else (c :: r.headI) :: r.tail

/-- The cleaned non-empty lines of a multi-line cell. The source splits
on `/\r?\n/` and then cleans each piece; splitting on `'\n'` alone is
equivalent because `cleanCell` trims the carriage return left at the end
of a piece. -/
def cellLines (cellText : String) : List String :=
  ((splitOnChar '\n' cellText.data).map (fun l => cleanCell ⟨l⟩)).filter (fun l => !l.isEmpty)

/-- Acceptance test of a course-code line: after cleaning, uppercasing
and removing all whitespace, the text is a run of 2 to `letterMax` ASCII
capitals followed by 3–4 digits. An anchored greedy match of
`^([A-Z]{2,n})(\d{3,4})$` succeeds exactly when the maximal leading
letter run has length 2..n and the remainder is 3–4 digits: taking fewer
letters than the maximal run always leaves a letter where a digit is
required. -/
def courseLineMatch (letterMax : Nat) (line : String) : Bool :=
  let text := collapseSpaces ((cleanCell line).data.map Char.toUpper)
  let compact := text.filter (fun c => !isJsSpace c)
  let letters := compact.takeWhile (fun c => 'A' ≤ c && c ≤ 'Z')
  let digits := compact.drop letters.length
  2 ≤ letters.length && letters.length ≤ letterMax && digits.all (·.isDigit) &&
    3 ≤ digits.length && digits.length ≤ 4

/-- The workbook parser's `normalizeCourseCode`: uppercase, collapse
whitespace, and match `^([A-Z]{2,4})(\d{3,4})$` against the
whitespace-free text, returning `"PREFIX DIGITS"`. -/
def parserNormalizeCourseCode (raw : String) : Option String :=
  let text := collapseSpaces ((cleanCell raw).data.map Char.toUpper)
  if text.isEmpty then none
  else
    let compact := text.filter (fun c => !isJsSpace c)
    let letters := compact.takeWhile (fun c => 'A' ≤ c && c ≤ 'Z')
    let digits := compact.drop letters.length
    if 2 ≤ letters.length && letters.length ≤ 4 && digits.all (·.isDigit) &&
        3 ≤ digits.length && digits.length ≤ 4 then
      some ⟨letters ++ ' ' :: digits⟩
    else none

/-- JavaScript `\w` (ASCII letters, digits, underscore). -/
def isWordChar (c : Char) : Bool :=
  ('a' ≤ c && c ≤ 'z') || ('A' ≤ c && c ≤ 'Z') || c.isDigit || c = '_'

/-- The `:[0-5]\d\b` tail of the time pattern at the current position. -/
def timeTail (l : List Char) : Option (List Char) :=
  match l with
  | ':' :: m1 :: m2 :: rest =>
    if ('0' ≤ m1 && m1 ≤ '5') && m2.isDigit &&
        (match rest.head? with | some c => !isWordChar c | none => true) then
      some [':', m1, m2]
    else none
  | _ => none

/-- One attempt of `([01]?\d|2[0-3]):[0-5]\d\b` at the current
position, honoring the regex's alternative and option ordering. -/
def timeAttempt (l : List Char) : Option (List Char) :=
  match l with
  | [] => none
  | c1 :: rest1 =>
    if c1.isDigit then
      match (if c1 = '0' || c1 = '1' then
              match rest1 with
              | c2 :: rest2 =>
                if c2.isDigit then (timeTail rest2).map (fun m => c1 :: c2 :: m) else none
              | [] => none
             else none) with
      | some m => some m
      | none =>
        match (timeTail rest1).map (fun m => c1 :: m) with
        | some m => some m
        | none =>
          if c1 = '2' then
            match rest1 with
            | c2 :: rest2 =>
              if '0' ≤ c2 && c2 ≤ '3' then (timeTail rest2).map (fun m => c1 :: c2 :: m)
              else none
            | [] => none
          else none
    else none

/-- Scan for the first match of `/\b([01]?\d|2[0-3]):[0-5]\d\b/`,
tracking the previous character for the leading word boundary. -/
def timeScan (prev : Option Char) : List Char → Option (List Char)
  | [] => none
  | c :: rest =>
    if (match prev with | some p => !isWordChar p | none => true) then
      match timeAttempt (c :: rest) with
      | some m => some m
      | none => timeScan (some c) rest
    else timeScan (some c) rest

/-- The components `parseScheduleCell` extracts from one day-column cell. -/
structure ParsedCell where
  classHint : Option String
  courseCode : String
  room : Option String
  rawTime : Option String
  startTime : Option String
deriving DecidableEq, Repr

/-- `parseScheduleCell`: line 1 must normalize as a course code (else
the cell yields nothing), line 2 is room text, line 3 raw time text; the
raw time text (or the whole cell when absent) yields an optional start
time and an optional inline class-group hint. `matchedClass[0]` fed to
`normalizeClassGroup` formats the first token's number, which is what
`normalizeClassGroup` applied to the whole text computes. -/
def parseScheduleCell (cellText : String) : Option ParsedCell :=
  let lines := cellLines cellText
  match lines.head? with
  | none => none
  | some line1 =>
    match parserNormalizeCourseCode line1 with
    | none => none
    | some courseCode =>
      let room := (lines.drop 1).head?.map cleanCell
      let rawTime := (lines.drop 2).head?.map cleanCell
      let timeText := match rawTime with | some t => t | none => cellText
      some
        { classHint := normalizeClassGroup timeText
          courseCode := courseCode
          room := room
          rawTime := rawTime
          startTime := (timeScan none timeText.data).map (fun m => (⟨m⟩ : String)) }

/-- The events one day-column cell contributes: none when the cell does
not parse; otherwise one event per target class group, the target being
just the inline hint when present (the source's inner conditional
returns `[hint]` in both of its branches) and the declared set
otherwise. -/
def cellEventsOf (sheetName : String) (currentGroups : List String) (session : SessionPeriod)
    (rowNum : Nat) (day : DayOfWeek) (cellText : String) : List ParsedEvent :=
  match parseScheduleCell cellText with
  | none => []
  | some pc =>
    let targetGroups := match pc.classHint with
      | some hint => if currentGroups.contains hint then [hint] else [hint]
      | none => currentGroups
    targetGroups.map (fun g =>
      { classGroupName := g
        dayOfWeek := day
        session := session
        startTime := pc.startTime
        rawTime := pc.rawTime
        room := pc.room
        courseCode := pc.courseCode
        sourceSheet := sheetName
        sourceRow := rowNum })

/-- Column `i` of a row, cleaned (`cleanCell(row[i])` with `""` default). -/
def cellAt (row : List String) (i : Nat) : String :=
  cleanCell (row.getD i "")

/-- The day-column layout `DAY_COLUMN_MAP` (columns 2–7, Monday to
Saturday, iterated in ascending numeric key order as `Object.entries`
does for integer keys). -/
def dayColumns : List (Nat × DayOfWeek) :=
  [(2, DayOfWeek.MON), (3, DayOfWeek.TUE), (4, DayOfWeek.WED), (5, DayOfWeek.THU),
   (6, DayOfWeek.FRI), (7, DayOfWeek.SAT)]

/-- `/tba\s*=/i` at the current position. -/
def tbaEqHere (l : List Char) : Bool :=
  match l with
  | 't' :: 'b' :: 'a' :: rest => (rest.dropWhile isJsSpace).head? == some '='
  | _ => false

/-- `/tba\s*=/i` anywhere in the (lowercased) text. -/
def tbaEqAnywhere : List Char → Bool
  | [] => false
  | c :: rest => tbaEqHere (c :: rest) || tbaEqAnywhere rest

/-- The footer sentinel
`/tba\s*=|website for registering|contact customer service/i`. -/
def isFooterSentinel (value : String) : Bool :=
  let lower := value.data.map Char.toLower
  tbaEqAnywhere lower || containsStr "website for registering".data lower ||
    containsStr "contact customer service".data lower

/-- `looksLikeClassGroupRow`: has a class-group token and none of the
room/time/session words (`/i` modelled by ASCII lowercasing; the
accented keywords are matched literally). -/
def looksLikeClassGroupRow (value : String) : Bool :=
  !(itMatches value).isEmpty &&
    !(["room", "time", "sáng", "chiều", "morning", "afternoon"].any (fun p =>
      containsStr p.data (value.data.map Char.toLower)))

/-- `getSessionPeriod`: classify the leading cell by folded keywords. -/
def getSessionPeriod (label : String) : SessionPeriod :=
  let normalized := label.data.map foldChar
  if containsStr "sang".data normalized || containsStr "morning".data normalized then
    SessionPeriod.MORNING
  else if containsStr "chieu".data normalized || containsStr "afternoon".data normalized then
    SessionPeriod.AFTERNOON
  else if containsStr "toi".data normalized || containsStr "evening".data normalized then
    SessionPeriod.EVENING
  else SessionPeriod.UNKNOWN

/-- The events of one session row: each day column's cell, cleaned, and
skipped when blank. -/
def rowEvents (sheetName : String) (currentGroups : List String) (session : SessionPeriod)
    (rowIndex : Nat) (row : List String) : List ParsedEvent :=
  dayColumns.flatMap (fun dc =>
    let cellValue := cellAt row dc.1
    if cellValue.isEmpty then []
    else cellEventsOf sheetName currentGroups session (rowIndex + 1) dc.2 cellValue)

/-- The body-row scan of `parseSheet`, starting below the header row:
a footer sentinel stops the scan; a declaration row replaces the
declared class-group set; a session row emits its cells' events; any
other row is skipped. -/
def scanRows (sheetName : String) (currentGroups : List String) (rowIndex : Nat) :
    List (List String) → List ParsedEvent
  | [] => []
  | row :: rest =>
    let firstColumn := cellAt row 1
    if isFooterSentinel firstColumn then []
    else if looksLikeClassGroupRow firstColumn then
      scanRows sheetName (expandClassGroups firstColumn) (rowIndex + 1) rest
    else
      match getSessionPeriod firstColumn with
      | SessionPeriod.UNKNOWN => scanRows sheetName currentGroups (rowIndex + 1) rest
      | session =>
        rowEvents sheetName currentGroups session rowIndex row ++
          scanRows sheetName currentGroups (rowIndex + 1) rest


/-! ## Entity normalizer (`writeImport`)

The Prisma store is modelled as in-memory tables with numeric ids drawn
from a single counter (`cuid()` values are opaque identifiers; a counter
preserves their only relevant property, freshness). `upsert` finds the
row by its `@@unique` key (key uniqueness is part of `WellFormed`
below); `createMany` appends rows with fresh ids; `deleteMany` filters.
The `ImportRun` audit row (one per invocation, status and timestamps)
is outside every claim's scope and is not modelled. -/

/-- `ParsedCourseMeta` of the parser; option fields are `null` or a
non-empty cleaned string (`cleanCell(...) || null`). -/
structure ParsedCourseMeta where
  code : String
  nameEn : Option String
  nameVi : Option String
  credits : Option Int
  prerequisite : Option String
deriving DecidableEq, Repr

/-- `ParsedSheetData`: one sheet's parse result; the embedded catalog
`Map` is an insertion-ordered association list with distinct keys. -/
structure ParsedSheetData where
  sheetName : String
  cohortCode : String
  semesterLabel : String
  semesterKey : String
  startDate : Option Int
  endDate : Option Int
  events : List ParsedEvent
  catalog : List (String × ParsedCourseMeta)
deriving DecidableEq, Repr

/-- A `Semester` row. -/
structure SemesterRow where
  id : Nat
  key : String
  label : String
  sourceFile : String
  startDate : Option Int
  endDate : Option Int
deriving DecidableEq, Repr

/-- A `Cohort` row. -/
structure CohortRow where
  id : Nat
  semesterId : Nat
  code : String
deriving DecidableEq, Repr

/-- A `ClassGroup` row. -/
structure ClassGroupRow where
  id : Nat
  cohortId : Nat
  name : String
deriving DecidableEq, Repr

/-- A `Course` row. -/
structure CourseRow where
  id : Nat
  code : String
  nameEn : Option String
  nameVi : Option String
  credits : Option Int
  prerequisite : Option String
deriving DecidableEq, Repr

/-- A `ScheduleEntry` row. -/
structure ScheduleEntryRow where
  id : Nat
  semesterId : Nat
  classGroupId : Nat
  courseId : Nat
  dayOfWeek : DayOfWeek
  session : SessionPeriod
  startTime : Option String
  rawTime : Option String
  room : Option String
  sourceSheet : String
  sourceRow : Nat
deriving DecidableEq, Repr

/-- The store. -/
structure Db where
  semesters : List SemesterRow
  cohorts : List CohortRow
  classGroups : List ClassGroupRow
  courses : List CourseRow
  entries : List ScheduleEntryRow
  nextId : Nat
deriving DecidableEq, Repr

/-- `prisma.semester.upsert` by `key`: the update writes label, source
file and both dates; create adds the key and a fresh id. Returns the
row's id. -/
def upsertSemester (db : Db) (key label sourceFile : String)
    (startDate endDate : Option Int) : Db × Nat :=
  match db.semesters.find? (fun s => s.key == key) with
  | some s =>
    ({ db with
        semesters := updateFirstWhere (fun r => r.key == key)
          (fun r => { r with
            label := label, sourceFile := sourceFile,
            startDate := startDate, endDate := endDate }) db.semesters }, s.id)
  | none =>
    ({ db with
        semesters := db.semesters ++ [⟨db.nextId, key, label, sourceFile, startDate, endDate⟩],
        nextId := db.nextId + 1 }, db.nextId)

/-- `prisma.cohort.upsert` by `(semesterId, code)` with `update: {}`. -/
def upsertCohort (db : Db) (semesterId : Nat) (code : String) : Db × Nat :=
  match db.cohorts.find? (fun c => c.semesterId == semesterId && c.code == code) with
  | some c => (db, c.id)
  | none =>
    ({ db with
        cohorts := db.cohorts ++ [⟨db.nextId, semesterId, code⟩]
        nextId := db.nextId + 1 }, db.nextId)

/-- The destructive-refresh deletions: when the cohort has class groups,
delete the schedule entries referencing them, then the groups themselves
(by the collected ids). -/
def deleteCohortGroups (db : Db) (cohortId : Nat) : Db :=
  let existingIds := (db.classGroups.filter (fun g => g.cohortId == cohortId)).map (·.id)
  if existingIds.isEmpty then db
  else
    { db with
      entries := db.entries.filter (fun e => !(existingIds.contains e.classGroupId)),
      classGroups := db.classGroups.filter (fun g => !(existingIds.contains g.id)) }

/-- `prisma.classGroup.createMany` (skipped on an empty name list). -/
def createClassGroups (db : Db) (cohortId : Nat) (names : List String) : Db :=
  if names.isEmpty then db
  else
    { db with
      classGroups := db.classGroups ++
        (names.enum.map (fun p => ⟨db.nextId + p.1, cohortId, p.2⟩)),
      nextId := db.nextId + names.length }

/-- Lexicographic comparison of strings by code point
(`localeCompare` agrees with it on the `"IT NN"` labels being sorted). -/
def leChars : List Char → List Char → Bool
  | [], _ => true
  | _ :: _, [] => false
  | c1 :: r1, c2 :: r2 => if c1 < c2 then true else if c2 < c1 then false else leChars r1 r2

/-- Stable insertion into a sorted list. -/
def insertSorted (x : String) : List String → List String
  | [] => [x]
  | y :: ys => if leChars x.data y.data then x :: y :: ys else y :: insertSorted x ys

/-- `Array.prototype.sort` with the string comparator. -/
def sortStrings (l : List String) : List String :=
  l.foldr insertSorted []

/-- The sorted distinct class-group names of a sheet's events. -/
def groupNamesOf (s : ParsedSheetData) : List String :=
  sortStrings (dedupFirst (s.events.map (·.classGroupName)))

/-- `meta?.field` keeps the stored value unless the parse supplied one
(`if (meta?.nameEn) updateData.nameEn = ...`; parsed string fields are
never empty, so JavaScript truthiness is `isSome`). -/
def orKeep {α : Type} (new old : Option α) : Option α :=
  match new with
  | some v => some v
  | none => old

/-- Apply one parse's metadata to a course row, overwriting only the
supplied fields. -/
def applyCourseMeta (meta : Option ParsedCourseMeta) (c : CourseRow) : CourseRow :=
  { c with
    nameEn := orKeep (meta.bind (·.nameEn)) c.nameEn
    nameVi := orKeep (meta.bind (·.nameVi)) c.nameVi
    credits := orKeep (meta.bind (·.credits)) c.credits
    prerequisite := orKeep (meta.bind (·.prerequisite)) c.prerequisite }

/-- A course row before any metadata is applied (`create` with `?? null`
fields equals applying the metadata to this row). -/
def blankCourse (id : Nat) (code : String) : CourseRow :=
  ⟨id, code, none, none, none, none⟩

/-- `prisma.course.upsert` by `code`. -/
def upsertCourse (db : Db) (code : String) (meta : Option ParsedCourseMeta) : Db :=
  match db.courses.find? (fun c => c.code == code) with
  | some _ =>
    { db with
        courses := updateFirstWhere (fun c => c.code == code) (applyCourseMeta meta)
          db.courses }
  | none =>
    { db with
        courses := db.courses ++ [applyCourseMeta meta (blankCourse db.nextId code)]
        nextId := db.nextId + 1 }

/-- `Map.get` on an association list built with `new Map(pairs)`: a
later pair overrides an earlier one with the same key. -/
def lookupId (m : List (String × Nat)) (key : String) : Option Nat :=
  (m.reverse.find? (fun p => p.1 == key)).map (·.2)

/-- `parsedSheet.catalog.get(code)`. -/
def catalogLookup (catalog : List (String × ParsedCourseMeta)) (code : String) :
    Option ParsedCourseMeta :=
  (catalog.find? (fun p => p.1 == code)).map (·.2)

/-- The fields of a `ScheduleEntryCreateManyInput`. -/
structure ScheduleEntryInput where
  semesterId : Nat
  classGroupId : Nat
  courseId : Nat
  dayOfWeek : DayOfWeek
  session : SessionPeriod
  startTime : Option String
  rawTime : Option String
  room : Option String
  sourceSheet : String
  sourceRow : Nat
deriving DecidableEq, Repr

/-- The `entryData` loop: an event whose class group or course is
missing from the resolved maps is skipped (`continue`) without error. -/
def buildEntryData (semesterId : Nat) (classGroupIdByName courseIdByCode : List (String × Nat))
    (events : List ParsedEvent) : List ScheduleEntryInput :=
  events.filterMap (fun ev =>
    match lookupId classGroupIdByName ev.classGroupName,
        lookupId courseIdByCode ev.courseCode with
    | some classGroupId, some courseId =>
      some ⟨semesterId, classGroupId, courseId, ev.dayOfWeek, ev.session, ev.startTime,
        ev.rawTime, ev.room, ev.sourceSheet, ev.sourceRow⟩
    | _, _ => none)

/-- Whether an event resolves in both maps (spec-side vocabulary). -/
def eventResolvable (classGroupIdByName courseIdByCode : List (String × Nat))
    (ev : ParsedEvent) : Bool :=
  (lookupId classGroupIdByName ev.classGroupName).isSome &&
    (lookupId courseIdByCode ev.courseCode).isSome

/-- The input row a resolvable event contributes (on a resolvable event
both lookups are `some`, so the defaults are never read). -/
def entryInputOf (semesterId : Nat) (classGroupIdByName courseIdByCode : List (String × Nat))
    (ev : ParsedEvent) : ScheduleEntryInput :=
  ⟨semesterId, (lookupId classGroupIdByName ev.classGroupName).getD 0,
    (lookupId courseIdByCode ev.courseCode).getD 0, ev.dayOfWeek, ev.session,
    ev.startTime, ev.rawTime, ev.room, ev.sourceSheet, ev.sourceRow⟩

/-- Forget a stored entry's generated id. -/
def stripEntryId (e : ScheduleEntryRow) : ScheduleEntryInput :=
  ⟨e.semesterId, e.classGroupId, e.courseId, e.dayOfWeek, e.session, e.startTime,
    e.rawTime, e.room, e.sourceSheet, e.sourceRow⟩

/-- `prisma.scheduleEntry.createMany` (skipped on an empty batch). -/
def appendEntries (db : Db) (data : List ScheduleEntryInput) : Db :=
  if data.isEmpty then db
  else
    { db with
      entries := db.entries ++ (data.enum.map (fun p =>
        ⟨db.nextId + p.1, p.2.semesterId, p.2.classGroupId, p.2.courseId, p.2.dayOfWeek,
          p.2.session, p.2.startTime, p.2.rawTime, p.2.room, p.2.sourceSheet,
          p.2.sourceRow⟩)),
      nextId := db.nextId + data.length }

/-- The accumulator of the per-sheet loop of `writeImport`. -/
structure ImportAcc where
  db : Db
  totalClassGroups : Nat
  totalEntries : Nat
  allCourseCodes : List String
deriving Repr

/-- The distinct course codes of a sheet (event codes first, then the
embedded catalog's keys, in insertion order). -/
def cohortCourseCodesOf (s : ParsedSheetData) : List String :=
  dedupFirst (s.events.map (·.courseCode) ++ s.catalog.map (·.1))

/-- `classGroupIdByName`: the pairs `new Map` is built from
(`findMany` on the cohort, in table order). -/
def classGroupMapOf (db : Db) (cohortId : Nat) : List (String × Nat) :=
  (db.classGroups.filter (fun g => g.cohortId == cohortId)).map (fun g => (g.name, g.id))

/-- `courseIdByCode`: the pairs for the courses whose code is among the
sheet's codes. -/
def courseMapOf (db : Db) (codes : List String) : List (String × Nat) :=
  (db.courses.filter (fun c => codes.contains c.code)).map (fun c => (c.code, c.id))

/-- The per-code course upsert loop of one sheet. -/
def courseUpserts (db : Db) (sheet : ParsedSheetData) : Db :=
  (cohortCourseCodesOf sheet).foldl
    (fun db code => upsertCourse db code (catalogLookup sheet.catalog code)) db

/-- The store after the cohort upsert, the destructive refresh and the
`createMany` of the fresh class groups. -/
def dbAfterGroups (semesterId : Nat) (db : Db) (sheet : ParsedSheetData) : Db :=
  let r1 := upsertCohort db semesterId sheet.cohortCode
  createClassGroups (deleteCohortGroups r1.1 r1.2) r1.2 (groupNamesOf sheet)

/-- One iteration of `writeImport`'s per-sheet loop: upsert the cohort,
drop and recreate its class groups, upsert the course metadata, resolve
the id maps and bulk-insert the entry rows. -/
def processSheet (semesterId : Nat) (acc : ImportAcc) (sheet : ParsedSheetData) : ImportAcc :=
  let cohortId := (upsertCohort acc.db semesterId sheet.cohortCode).2
  let db3 := dbAfterGroups semesterId acc.db sheet
  let db4 := courseUpserts db3 sheet
  let entryData := buildEntryData semesterId (classGroupMapOf db3 cohortId)
    (courseMapOf db4 (cohortCourseCodesOf sheet)) sheet.events
  { db := appendEntries db4 entryData
    totalClassGroups := acc.totalClassGroups + (groupNamesOf sheet).length
    totalEntries := acc.totalEntries + entryData.length
    allCourseCodes := acc.allCourseCodes ++
      (cohortCourseCodesOf sheet).filter (fun c => !(acc.allCourseCodes.contains c)) }

/-- `ImportSummary` as returned to the caller. -/
structure ImportSummary where
  sourceFile : String
  semesterKey : String
  semesterLabel : String
  cohorts : List String
  classGroups : Nat
  courses : Nat
  entries : Nat
deriving DecidableEq, Repr

/-- `Math.min` over the parsed start dates. -/
def listMin (l : List Int) : Option Int :=
  l.foldl (fun acc v => match acc with | none => some v | some a => some (min a v)) none

/-- `Math.max` over the parsed end dates. -/
def listMax (l : List Int) : Option Int :=
  l.foldl (fun acc v => match acc with | none => some v | some a => some (max a v)) none

/-- `writeImport`: upsert the semester from the first sheet's label/key
and the merged date range, process each sheet, and return the summary.
`parseWorkbook` never yields an empty sheet list (zero matching sheets
is fatal), so the `[]` case is unreachable and returns an empty summary. -/
def writeImportModel (db : Db) (sheets : List ParsedSheetData) (sourceFile : String) :
    Db × ImportSummary :=
  match sheets with
  | [] => (db, ⟨sourceFile, "", "", [], 0, 0, 0⟩)
  | first :: _ =>
    let r := upsertSemester db first.semesterKey first.semesterLabel sourceFile
      (listMin (sheets.filterMap (·.startDate))) (listMax (sheets.filterMap (·.endDate)))
    let acc := sheets.foldl (processSheet r.2) ⟨r.1, 0, 0, []⟩
    (acc.db,
      ⟨sourceFile, first.semesterKey, first.semesterLabel, sheets.map (·.cohortCode),
        acc.totalClassGroups, acc.allCourseCodes.length, acc.totalEntries⟩)

/-! ### Erasure and well-formedness

Two import runs agree "up to timestamps and generated ids": row
timestamps are not modelled, and `eraseDb` replaces every generated id
by the natural key it resolves to in its own store. -/

/-- The semester key an id resolves to. -/
def semKeyOfId (db : Db) (semesterId : Nat) : Option String :=
  (db.semesters.find? (fun s => s.id == semesterId)).map (·.key)

/-- The `(semester key, cohort code)` a cohort id resolves to. -/
def cohortRefOfId (db : Db) (cohortId : Nat) : Option (Option String × String) :=
  (db.cohorts.find? (fun c => c.id == cohortId)).map
    (fun c => (semKeyOfId db c.semesterId, c.code))

/-- The erased view of a class group. -/
def eraseGroup (db : Db) (g : ClassGroupRow) : Option (Option String × String) × String :=
  (cohortRefOfId db g.cohortId, g.name)

/-- The erased view of a schedule entry. -/
def eraseEntry (db : Db) (e : ScheduleEntryRow) :
    Option String × Option (Option (Option String × String) × String) × Option String ×
      DayOfWeek × SessionPeriod × Option String × Option String × Option String ×
      String × Nat :=
  (semKeyOfId db e.semesterId,
    (db.classGroups.find? (fun g => g.id == e.classGroupId)).map (eraseGroup db),
    (db.courses.find? (fun c => c.id == e.courseId)).map (·.code),
    e.dayOfWeek, e.session, e.startTime, e.rawTime, e.room, e.sourceSheet, e.sourceRow)

/-- The id-free view of the whole store. -/
def eraseDb (db : Db) :
    List (String × String × String × Option Int × Option Int) ×
      List (Option String × String) ×
      List (Option (Option String × String) × String) ×
      List (String × Option String × Option String × Option Int × Option String) ×
      List (Option String × Option (Option (Option String × String) × String) ×
        Option String × DayOfWeek × SessionPeriod × Option String × Option String ×
        Option String × String × Nat) :=
  (db.semesters.map (fun s => (s.key, s.label, s.sourceFile, s.startDate, s.endDate)),
    db.cohorts.map (fun c => (semKeyOfId db c.semesterId, c.code)),
    db.classGroups.map (eraseGroup db),
    db.courses.map (fun c => (c.code, c.nameEn, c.nameVi, c.credits, c.prerequisite)),
    db.entries.map (eraseEntry db))

/-- Store invariants: ids are below the counter and unique per table,
each table's natural key (`@@unique` in the schema) is unique, and
entries reference existing class groups (referential integrity, which
the schema's relations enforce). -/
structure WellFormed (db : Db) : Prop where
  semIdBound : ∀ s ∈ db.semesters, s.id < db.nextId
  cohortIdBound : ∀ c ∈ db.cohorts, c.id < db.nextId
  groupIdBound : ∀ g ∈ db.classGroups, g.id < db.nextId
  groupCohortIdBound : ∀ g ∈ db.classGroups, g.cohortId < db.nextId
  courseIdBound : ∀ c ∈ db.courses, c.id < db.nextId
  entryIdBound : ∀ e ∈ db.entries, e.id < db.nextId
  semIdsNodup : (db.semesters.map (·.id)).Nodup
  cohortIdsNodup : (db.cohorts.map (·.id)).Nodup
  groupIdsNodup : (db.classGroups.map (·.id)).Nodup
  courseIdsNodup : (db.courses.map (·.id)).Nodup
  semKeysNodup : (db.semesters.map (·.key)).Nodup
  cohortKeysNodup : (db.cohorts.map (fun c => (c.semesterId, c.code))).Nodup
  courseCodesNodup : (db.courses.map (·.code)).Nodup
  entryGroupRef : ∀ e ∈ db.entries, ∃ g ∈ db.classGroups, g.id = e.classGroupId

/-! ### Loop-invariant vocabulary for the import runs

`writeImport`'s sheet loop is characterized relative to the store it
started from (`base`); the following definitions name the pieces of
that characterization. -/

/-- All metadata operations a sheet list performs on one course code,
in execution order. -/
def rowUpdatesFor (code : String) (sheets : List ParsedSheetData) :
    List (Option ParsedCourseMeta) :=
  sheets.flatMap (fun s =>
    (cohortCourseCodesOf s).filterMap (fun c =>
      if c == code then some (catalogLookup s.catalog c) else none))

/-- Apply a sequence of metadata operations to a course row. -/
def courseRowFold (c : CourseRow) (ops : List (Option ParsedCourseMeta)) : CourseRow :=
  ops.foldl (fun c m => applyCourseMeta m c) c

/-- The course codes a run creates rows for, in first-occurrence order. -/
def newCourseCodes (base : List CourseRow) (sheets : List ParsedSheetData) : List String :=
  (dedupFirst (sheets.flatMap cohortCourseCodesOf)).filter
    (fun code => !((base.map (fun c => c.code)).contains code))

/-- Keep, for every cohort code, only its last sheet, at the position
of that last occurrence (a later sheet for the same cohort wipes the
groups and entries an earlier one created). -/
def lastOccSheets (l : List ParsedSheetData) : List ParsedSheetData :=
  l.foldl (fun acc s => acc.filter (fun t => !(t.cohortCode == s.cohortCode)) ++ [s]) []

/-- Ids of the base store's cohorts hit by the processed sheets. -/
def deadCohortIds (base : Db) (semesterId : Nat) (processed : List ParsedSheetData) :
    List Nat :=
  (base.cohorts.filter (fun c => c.semesterId == semesterId &&
    processed.any (fun s => s.cohortCode == c.code))).map (fun c => c.id)

/-- Ids of the base store's class groups owned by a hit cohort. -/
def deadGroupIds (base : Db) (semesterId : Nat) (processed : List ParsedSheetData) :
    List Nat :=
  (base.classGroups.filter (fun g =>
    (deadCohortIds base semesterId processed).contains g.cohortId)).map (fun g => g.id)

/-- The `(id, code)` projection of the course table (stable under
metadata updates). -/
def courseKeys (db : Db) : List (Nat × String) :=
  db.courses.map (fun c => (c.id, c.code))

/-- How one processed sheet's freshly created class-group and entry rows
relate to that sheet inside store `db`: they hang off the sheet's cohort,
the group names are exactly the sheet's sorted distinct names, ids are
fresh relative to `lowId`, and the entry rows carry the sheet's events
one for one. -/
def sheetBlockRel (db : Db) (semesterId lowId : Nat)
    (pair : List ClassGroupRow × List ScheduleEntryRow) (s : ParsedSheetData) : Prop :=
  ∃ cid,
    (∃ c ∈ db.cohorts, c.id = cid ∧ c.semesterId = semesterId ∧ c.code = s.cohortCode) ∧
    pair.1.map (fun g => (g.cohortId, g.name)) =
      (groupNamesOf s).map (fun n => (cid, n)) ∧
    (∀ g ∈ pair.1, lowId ≤ g.id) ∧
    (∀ e ∈ pair.2, lowId ≤ e.id) ∧
    List.Forall₂ (fun (en : ScheduleEntryRow) (ev : ParsedEvent) =>
      en.semesterId = semesterId ∧
      (∃ g ∈ pair.1, g.id = en.classGroupId ∧ g.name = ev.classGroupName) ∧
      ((courseKeys db).contains (en.courseId, ev.courseCode) = true) ∧
      en.dayOfWeek = ev.dayOfWeek ∧ en.session = ev.session ∧
      en.startTime = ev.startTime ∧ en.rawTime = ev.rawTime ∧ en.room = ev.room ∧
      en.sourceSheet = ev.sourceSheet ∧ en.sourceRow = ev.sourceRow) pair.2 s.events

/-- Invariant of the sheet loop: after processing `processed`, the store
relates to the store `base` the loop started from as follows.
Semesters are untouched; cohorts gained only rows for processed cohort
codes that had none; every course row carries the accumulated metadata
folds; the class groups and entries are the survivors of the destructive
refreshes plus one fresh block per last sheet occurrence; the counters
are functions of the processed parse alone. -/
structure LoopInv (base : Db) (semesterId : Nat) (processed : List ParsedSheetData)
    (acc : ImportAcc) : Prop where
  wf : WellFormed acc.db
  semesters_eq : acc.db.semesters = base.semesters
  cohorts_ext : ∃ ctail, acc.db.cohorts = base.cohorts ++ ctail ∧
    ∀ c ∈ ctail, c.semesterId = semesterId ∧ base.nextId ≤ c.id ∧
      processed.any (fun s => s.cohortCode == c.code) = true ∧
      ∀ c0 ∈ base.cohorts, ¬(c0.semesterId = semesterId ∧ c0.code = c.code)
  cohorts_present : ∀ s ∈ processed, ∃ c ∈ acc.db.cohorts,
    c.semesterId = semesterId ∧ c.code = s.cohortCode
  nextId_mono : base.nextId ≤ acc.db.nextId
  courses_char : ∃ created,
    acc.db.courses = base.courses.map
      (fun c => courseRowFold c (rowUpdatesFor c.code processed)) ++ created ∧
    created.map (fun c => c.code) = newCourseCodes base.courses processed ∧
    ∀ r ∈ created,
      r = courseRowFold (blankCourse r.id r.code) (rowUpdatesFor r.code processed) ∧
      base.nextId ≤ r.id
  blocks : ∃ pairs,
    acc.db.classGroups = base.classGroups.filter (fun g =>
      !((deadCohortIds base semesterId processed).contains g.cohortId)) ++
      (pairs.map (fun p => p.1)).flatten ∧
    acc.db.entries = base.entries.filter (fun e =>
      !((deadGroupIds base semesterId processed).contains e.classGroupId)) ++
      (pairs.map (fun p => p.2)).flatten ∧
    List.Forall₂ (sheetBlockRel acc.db semesterId base.nextId) pairs
      (lastOccSheets processed)
  totals : acc.totalClassGroups = (processed.map (fun s => (groupNamesOf s).length)).sum ∧
    acc.totalEntries = (processed.map (fun s => s.events.length)).sum ∧
    acc.allCourseCodes = dedupFirst (processed.flatMap cohortCourseCodesOf)

/-! ## Theorems -/

/-- Any initial value is a lower bound of a `foldl max`. -/
theorem le_foldl_max (m : Int) (l : List Int) : m ≤ l.foldl max m := by
  induction l generalizing m with
  | nil => exact le_refl m
  | cons a l ih => exact le_trans (le_max_left m a) (ih (max m a))

/-- Unfolding `acceptedRows` over a cons cell. -/
theorem acceptedRows_cons (cc cg ic : String) (a : Assignment) (as : List Assignment) :
    acceptedRows cc cg ic (a :: as) =
      if (a.courseCode == cc) && !rejectedRow cg ic a then a :: acceptedRows cc cg ic as
      else acceptedRows cc cg ic as := by
  simp only [acceptedRows, candidateRows, List.filter]
  cases h1 : (a.courseCode == cc) <;> cases h2 : rejectedRow cg ic a <;>
    simp [List.filter, h2]

/-- The resolver's loop body, re-expressed through the claim's
vocabulary: skipped rows leave the accumulator unchanged, accepted rows
update it by the max-score/ties rule. -/
theorem resolveStep_eq (cc cg ic : String) (acc : Int × List String) (a : Assignment) :
    resolveStep cc cg ic acc a =
      if (a.courseCode == cc) && !rejectedRow cg ic a then
        (if acc.1 < specificityScore a then (specificityScore a, [a.lecturerId])
         else if specificityScore a = acc.1 then (acc.1, acc.2 ++ [a.lecturerId])
         else acc)
      else acc := by
  simp only [resolveStep, rejectedRow, specificityScore, bne]
  cases h1 : (a.courseCode == cc) <;>
    cases h2 : (!(normalizeClassGroupName a.classGroupName == "") &&
        !(normalizeClassGroupName a.classGroupName == cg)) <;>
      cases h3 : (!(normalizeInstructionCode a.instructionCode == "") &&
          !(normalizeInstructionCode a.instructionCode == ic)) <;>
    simp [h2, h3]

/-- Closed form of the resolver's fold: the final accumulator carries the
maximum specificity score over the accepted rows (at least the initial
value) and, in order, the lecturer ids of the accepted rows achieving it
(prefixed by the initial ids exactly when the maximum never improved). -/
theorem resolveFold_closed (cc cg ic : String) (as : List Assignment) (m : Int)
    (ids : List String) :
    as.foldl (resolveStep cc cg ic) (m, ids) =
      (((acceptedRows cc cg ic as).map specificityScore).foldl max m,
        (if ((acceptedRows cc cg ic as).map specificityScore).foldl max m = m then ids
          else []) ++
        (((acceptedRows cc cg ic as).filter (fun a =>
            specificityScore a =
              ((acceptedRows cc cg ic as).map specificityScore).foldl max m)).map
          (·.lecturerId))) := by
  induction as generalizing m ids with
  | nil => simp [acceptedRows, candidateRows]
  | cons a as ih =>
    rw [List.foldl_cons, resolveStep_eq, acceptedRows_cons]
    by_cases hacc : ((a.courseCode == cc) && !rejectedRow cg ic a) = true
    · rw [if_pos hacc, if_pos hacc]
      have hcons : ((a :: acceptedRows cc cg ic as).map specificityScore).foldl max m =
          ((acceptedRows cc cg ic as).map specificityScore).foldl max
            (max m (specificityScore a)) := by
        simp
      by_cases h1 : m < specificityScore a
      · rw [if_pos h1, ih, hcons, max_eq_right (le_of_lt h1)]
        have hMs := le_foldl_max (specificityScore a)
          ((acceptedRows cc cg ic as).map specificityScore)
        rw [Prod.mk.injEq]
        refine ⟨rfl, ?_⟩
        rw [List.filter_cons]
        by_cases h2 : specificityScore a =
            ((acceptedRows cc cg ic as).map specificityScore).foldl max (specificityScore a)
        · rw [if_pos h2.symm, if_neg (by omega), if_pos (decide_eq_true h2)]
          simp
        · rw [if_neg (fun h => h2 h.symm), if_neg (by omega),
            if_neg (fun h => h2 (of_decide_eq_true h))]
      · rw [if_neg h1]
        have hmax : max m (specificityScore a) = m := max_eq_left (by omega)
        have hMm := le_foldl_max m ((acceptedRows cc cg ic as).map specificityScore)
        by_cases h2 : specificityScore a = m
        · rw [if_pos h2, ih, hcons, hmax, Prod.mk.injEq]
          refine ⟨rfl, ?_⟩
          rw [List.filter_cons]
          by_cases h3 : ((acceptedRows cc cg ic as).map specificityScore).foldl max m = m
          · rw [if_pos h3, if_pos h3]
            have h4 : specificityScore a =
                ((acceptedRows cc cg ic as).map specificityScore).foldl max m := by omega
            rw [if_pos (decide_eq_true h4)]
            simp
          · rw [if_neg h3, if_neg h3]
            have h4 : ¬ (specificityScore a =
                ((acceptedRows cc cg ic as).map specificityScore).foldl max m) := by omega
            rw [if_neg (fun h => h4 (of_decide_eq_true h))]
        · rw [if_neg h2, ih, hcons, hmax, Prod.mk.injEq]
          refine ⟨rfl, ?_⟩
          rw [List.filter_cons]
          have h4 : ¬ (specificityScore a =
              ((acceptedRows cc cg ic as).map specificityScore).foldl max m) := by omega
          rw [if_neg (fun h => h4 (of_decide_eq_true h))]
    · rw [if_neg hacc, if_neg hacc]
      exact ih m ids

/-- C1. For every resolver query and list of enabled assignment rows:
rows for the course whose non-wildcard class group differs from the
query are rejected, a matching non-wildcard class group scores +2, the
same rule on the instruction code scores +1, fully wildcarded rows score
0 and are never rejected, and the resolver returns exactly the
deduplicated lecturer ids of the non-rejected rows achieving the maximum
score (ties all kept). -/
theorem resolver_returns_max_score_ties (cc cg ic : String) (as : List Assignment) :
    resolveLecturersForEntry cc cg ic as =
      dedupFirst (((acceptedRows cc cg ic as).filter (fun a =>
        specificityScore a = bestScore cc cg ic as)).map (·.lecturerId)) := by
  unfold resolveLecturersForEntry bestScore
  rw [resolveFold_closed]
  congr 1
  split <;> simp


/-- Membership in `dedupFirstAux`: an element appears iff it is in the
input and not yet seen. -/
theorem mem_dedupFirstAux {α : Type} [DecidableEq α] (l : List α) (seen : List α) (y : α) :
    y ∈ dedupFirstAux seen l ↔ y ∈ l ∧ y ∉ seen := by
  induction l generalizing seen with
  | nil => simp [dedupFirstAux]
  | cons x xs ih =>
    by_cases hx : x ∈ seen
    · rw [dedupFirstAux, if_pos hx, ih]
      constructor
      · rintro ⟨h1, h2⟩
        exact ⟨List.mem_cons_of_mem _ h1, h2⟩
      · rintro ⟨h1, h2⟩
        rcases List.mem_cons.mp h1 with rfl | h1
        · exact absurd hx h2
        · exact ⟨h1, h2⟩
    · rw [dedupFirstAux, if_neg hx]
      constructor
      · intro h
        rcases List.mem_cons.mp h with rfl | h
        · exact ⟨List.mem_cons_self _ _, hx⟩
        · rcases (ih (x :: seen)).mp h with ⟨h1, h2⟩
          refine ⟨List.mem_cons_of_mem _ h1, fun hy => h2 (List.mem_cons_of_mem _ hy)⟩
      · rintro ⟨h1, h2⟩
        rcases List.mem_cons.mp h1 with rfl | h1
        · exact List.mem_cons_self _ _
        · by_cases hyx : y = x
          · subst hyx
            exact List.mem_cons_self _ _
          · refine List.mem_cons_of_mem _ ((ih (x :: seen)).mpr ⟨h1, ?_⟩)
            intro hy
            rcases List.mem_cons.mp hy with h | h
            · exact hyx h
            · exact h2 h

/-- Membership in `dedupFirst` coincides with membership in the input. -/
theorem mem_dedupFirst {α : Type} [DecidableEq α] (l : List α) (y : α) :
    y ∈ dedupFirst l ↔ y ∈ l := by
  rw [dedupFirst, mem_dedupFirstAux]
  simp

/-- `dedupFirstAux` produces a duplicate-free list. -/
theorem nodup_dedupFirstAux {α : Type} [DecidableEq α] (l : List α) (seen : List α) :
    (dedupFirstAux seen l).Nodup := by
  induction l generalizing seen with
  | nil => simp [dedupFirstAux]
  | cons x xs ih =>
    by_cases hx : x ∈ seen
    · rw [dedupFirstAux, if_pos hx]
      exact ih seen
    · rw [dedupFirstAux, if_neg hx]
      refine List.Nodup.cons ?_ (ih (x :: seen))
      intro hmem
      exact ((mem_dedupFirstAux _ _ _).mp hmem).2 (List.mem_cons_self _ _)

/-- `dedupFirst` produces a duplicate-free list. -/
theorem nodup_dedupFirst {α : Type} [DecidableEq α] (l : List α) : (dedupFirst l).Nodup :=
  nodup_dedupFirstAux l []

/-- A duplicate-free list is unchanged by `dedupFirst`. -/
theorem dedupFirst_eq_self {α : Type} [DecidableEq α] {l : List α} (h : l.Nodup) :
    dedupFirst l = l := by
  have aux : ∀ (l' : List α) (seen : List α), l'.Nodup → (∀ y ∈ l', y ∉ seen) →
      dedupFirstAux seen l' = l' := by
    intro l'
    induction l' with
    | nil => intro seen _ _; rfl
    | cons x xs ih =>
      intro seen hnd hdisj
      rw [dedupFirstAux, if_neg (hdisj x (List.mem_cons_self _ _))]
      congr 1
      refine ih (x :: seen) (List.Nodup.of_cons hnd) ?_
      intro y hy hmem
      rcases List.mem_cons.mp hmem with rfl | hmem
      · exact (List.nodup_cons.mp hnd).1 hy
      · exact hdisj y (List.mem_cons_of_mem _ hy) hmem
  exact aux l [] h (by simp)

/-- `setAdd` preserves freedom from duplicates. -/
theorem setAdd_nodup {l : List String} (h : l.Nodup) (x : String) : (setAdd l x).Nodup := by
  rw [setAdd]
  split
  · exact h
  · simp_all [List.nodup_append]

/-- `setDelete` preserves freedom from duplicates. -/
theorem setDelete_nodup {l : List String} (h : l.Nodup) (x : String) :
    (setDelete l x).Nodup :=
  h.erase x

/-- The fallback id set is duplicate-free (it is a JavaScript `Set`). -/
theorem fallbackLecturerIds_nodup (catalogDefaults : List String)
    (overrides : List OverrideRow) (courseCode : String) :
    (fallbackLecturerIds catalogDefaults overrides courseCode).Nodup := by
  rw [fallbackLecturerIds]
  generalize dedupFirst catalogDefaults = init, nodup_dedupFirst catalogDefaults = hinit
  induction overrides generalizing init with
  | nil => exact hinit
  | cons o os ih =>
    rw [List.foldl_cons]
    refine ih _ ?_
    split
    · split
      · exact setAdd_nodup hinit _
      · exact setDelete_nodup hinit _
    · exact hinit

/-- An element just added by `setAdd` is a member. -/
theorem mem_setAdd_self (l : List String) (x : String) : x ∈ setAdd l x := by
  rw [setAdd]
  split
  · assumption
  · simp

/-- `setAdd` with a different element does not change membership. -/
theorem mem_setAdd_of_ne (l : List String) {x y : String} (h : y ≠ x) :
    y ∈ setAdd l x ↔ y ∈ l := by
  rw [setAdd]
  split
  · exact Iff.rfl
  · simp [h]

/-- `setDelete` removes its element from a duplicate-free list. -/
theorem not_mem_setDelete_self {l : List String} (hnd : l.Nodup) (x : String) :
    x ∉ setDelete l x := by
  rw [setDelete]
  intro h
  exact absurd rfl ((List.Nodup.mem_erase_iff hnd).mp h).1

/-- `setDelete` with a different element does not change membership. -/
theorem mem_setDelete_of_ne {l : List String} (hnd : l.Nodup) {x y : String} (h : y ≠ x) :
    y ∈ setDelete l x ↔ y ∈ l := by
  rw [setDelete, List.Nodup.mem_erase_iff hnd]
  simp [h]

/-- Last-write-wins characterization of the fallback id set: an id is in
the set iff its latest override row (in storage order) is enabled, or no
override touches it and it is a catalog-seeded default. -/
theorem mem_fallbackLecturerIds (catalogDefaults : List String) (overrides : List OverrideRow)
    (courseCode lecturerId : String) :
    (lecturerId ∈ fallbackLecturerIds catalogDefaults overrides courseCode) ↔
      (match lastOverrideFor overrides courseCode lecturerId with
       | some o => o.enabled = true
       | none => lecturerId ∈ catalogDefaults) := by
  induction overrides using List.reverseRecOn with
  | nil => simp [fallbackLecturerIds, lastOverrideFor, mem_dedupFirst]
  | append_singleton os o ih =>
    have hnd := fallbackLecturerIds_nodup catalogDefaults os courseCode
    have hsplit : fallbackLecturerIds catalogDefaults (os ++ [o]) courseCode =
        (if o.courseCode == courseCode then
          (if o.enabled then setAdd (fallbackLecturerIds catalogDefaults os courseCode) o.lecturerId
           else setDelete (fallbackLecturerIds catalogDefaults os courseCode) o.lecturerId)
         else fallbackLecturerIds catalogDefaults os courseCode) := by
      simp [fallbackLecturerIds, List.foldl_append]
    have hlast : lastOverrideFor (os ++ [o]) courseCode lecturerId =
        (if o.courseCode == courseCode && o.lecturerId == lecturerId then some o
         else lastOverrideFor os courseCode lecturerId) := by
      simp [lastOverrideFor, List.foldl_append]
    rw [hsplit, hlast]
    by_cases hcc : (o.courseCode == courseCode) = true
    · rw [if_pos hcc]
      by_cases hl : (o.lecturerId == lecturerId) = true
      · have hleq : o.lecturerId = lecturerId := by simpa using hl
        have hand : (o.courseCode == courseCode && o.lecturerId == lecturerId) = true := by
          simp [hcc, hl]
        rw [if_pos hand]
        cases he : o.enabled
        · rw [if_neg Bool.false_ne_true]
          subst hleq
          simp [not_mem_setDelete_self hnd o.lecturerId, he]
        · rw [if_pos rfl]
          subst hleq
          simp [mem_setAdd_self (fallbackLecturerIds catalogDefaults os courseCode)
            o.lecturerId, he]
      · have hlne : lecturerId ≠ o.lecturerId := by
          intro h
          exact hl (by simp [h])
        have hl' : (o.lecturerId == lecturerId) = false := by simpa using hl
        have hand : ¬ ((o.courseCode == courseCode && o.lecturerId == lecturerId) = true) := by
          simp [hl']
        rw [if_neg hand]
        cases he : o.enabled
        · rw [if_neg Bool.false_ne_true, mem_setDelete_of_ne hnd hlne]
          exact ih
        · rw [if_pos rfl, mem_setAdd_of_ne _ hlne]
          exact ih
    · have hcc' : (o.courseCode == courseCode) = false := by simpa using hcc
      have hand : ¬ ((o.courseCode == courseCode && o.lecturerId == lecturerId) = true) := by
        simp [hcc']
      rw [if_neg hcc, if_neg hand]
      exact ih

/-- C2 counterexample: one enabled assignment row for the course exists
(scoped to instruction code `IHAB1`), yet for an entry whose extracted
instruction code is empty the row is rejected, the resolver returns no
lecturer and the portal answer comes from the fallback tier — refuting
"fallback if and only if no assignment rows exist at all for the
course". -/
theorem fallback_used_with_nonempty_candidates :
    candidateRows "CS 2255" [⟨"CS 2255", "", "IHAB1", "L1"⟩] ≠ [] ∧
    resolveLecturersForEntry "CS 2255" "IT 01" "" [⟨"CS 2255", "", "IHAB1", "L1"⟩] = [] ∧
    entryLecturerIds "CS 2255" "IT 01" "" [⟨"CS 2255", "", "IHAB1", "L1"⟩] ["L2"] [] =
      fallbackLecturerIds ["L2"] [] "CS 2255" := by
  refine ⟨by decide, by decide, by decide⟩

/-- C2 (amended). The fallback tier — catalog-seeded defaults with
enabled overrides adding and disabled overrides removing ids in storage
order, so the latest write for an id wins — is used if and only if the
scored-assignment tier produces an empty lecturer set (no candidate rows
for the course, or every candidate rejected by a scope mismatch); the
returned set always comes from exactly one tier and the tiers are never
merged. -/
theorem fallback_tier_iff_resolver_empty (cc cg ic : String) (assignments : List Assignment)
    (catalogDefaults : List String) (overrides : List OverrideRow) :
    (resolveLecturersForEntry cc cg ic assignments = [] →
      entryLecturerIds cc cg ic assignments catalogDefaults overrides =
        fallbackLecturerIds catalogDefaults overrides cc) ∧
    (resolveLecturersForEntry cc cg ic assignments ≠ [] →
      entryLecturerIds cc cg ic assignments catalogDefaults overrides =
        resolveLecturersForEntry cc cg ic assignments) ∧
    (∀ l, l ∈ fallbackLecturerIds catalogDefaults overrides cc ↔
      (match lastOverrideFor overrides cc l with
       | some o => o.enabled = true
       | none => l ∈ catalogDefaults)) := by
  refine ⟨?_, ?_, fun l => mem_fallbackLecturerIds catalogDefaults overrides cc l⟩
  · intro h
    simp only [entryLecturerIds, h, List.length_nil, Nat.lt_irrefl, if_false]
    exact dedupFirst_eq_self (fallbackLecturerIds_nodup catalogDefaults overrides cc)
  · intro h
    have hp : 0 < (resolveLecturersForEntry cc cg ic assignments).length :=
      List.length_pos.mpr h
    simp only [entryLecturerIds, if_pos hp]

/-- Witness for the amended C2 theorem at concrete inputs. -/
theorem fallback_tier_iff_resolver_empty_witness :
    entryLecturerIds "CS 2255" "IT 01" "" [] ["L2"] [] =
      fallbackLecturerIds ["L2"] [] "CS 2255" ∧
    entryLecturerIds "CS 2255" "IT 01" "" [⟨"CS 2255", "", "", "L1"⟩] ["L2"] [] =
      resolveLecturersForEntry "CS 2255" "IT 01" "" [⟨"CS 2255", "", "", "L1"⟩] :=
  ⟨(fallback_tier_iff_resolver_empty "CS 2255" "IT 01" "" [] ["L2"] []).1 (by decide),
   (fallback_tier_iff_resolver_empty "CS 2255" "IT 01" ""
      [⟨"CS 2255", "", "", "L1"⟩] ["L2"] []).2.1 (by decide)⟩
theorem itScanFuel_fuel_irrelevant (f1 : Nat) : ∀ (f2 : Nat) (l : List Char),
    l.length ≤ f1 → l.length ≤ f2 → itScanFuel f1 l = itScanFuel f2 l := by
  induction f1 with
  | zero =>
    intro f2 l h1 _
    have hl : l = [] := List.eq_nil_of_length_eq_zero (Nat.le_zero.mp h1)
    subst hl
    cases f2 <;> rfl
  | succ f1 ih =>
    intro f2 l h1 h2
    rcases l with _ | ⟨c1, rest1⟩
    · cases f2 <;> rfl
    · rcases f2 with _ | f2
      · simp at h2
      · by_cases hIT : c1 = 'I' ∧ ∃ rest, rest1 = 'T' :: rest
        · obtain ⟨rfl, rest, rfl⟩ := hIT
          rw [itScanFuel.eq_3, itScanFuel.eq_3]
          simp only [List.length_cons] at h1 h2
          have hdw : (rest.dropWhile isJsSpace).length ≤ rest.length :=
            (List.dropWhile_sublist _).length_le
          cases hds : (rest.dropWhile isJsSpace).takeWhile (·.isDigit) with
          | nil =>
            exact ih f2 ('T' :: rest) (by simp; omega) (by simp; omega)
          | cons d0 dtail =>
            dsimp only
            by_cases hb : d0 = '0' ∧ dtail ≠ []
            · rw [if_pos hb, if_pos hb]
              congr 1
              exact ih f2 _ (by simp only [List.length_drop]; omega)
                (by simp only [List.length_drop]; omega)
            · rw [if_neg hb, if_neg hb]
              congr 1
              exact ih f2 _ (by simp only [List.length_drop]; omega)
                (by simp only [List.length_drop]; omega)
        · have hcond : ∀ (r : List Char), c1 = 'I' → rest1 = 'T' :: r → False :=
            fun r hc hr => hIT ⟨hc, r, hr⟩
          rw [itScanFuel.eq_4 _ _ _ hcond, itScanFuel.eq_4 _ _ _ hcond]
          simp only [List.length_cons] at h1 h2
          exact ih f2 rest1 (by omega) (by omega)

/-- C3 counterexample: the token pattern requires a literal `IT` before
each number, so `"IT 01-05"` has a single match and the range branch
(which needs two matches) is not taken — the spec's expected value is
refuted. -/
theorem expandClassGroups_hyphen_shorthand_counterexample :
    expandClassGroups "IT 01-05" = ["IT 01"] ∧
    expandClassGroups "IT 01-05" ≠ ["IT 01", "IT 02", "IT 03", "IT 04", "IT 05"] := by
  exact ⟨by decide, by decide⟩

/-- C3 (amended). `expandClassGroups "IT 01-05" = ["IT 01"]` (the label
contains only one `IT` token); `expandClassGroups "IT 03, IT 07" =
["IT 03","IT 07"]`; a hyphen anywhere in a label with two full tokens
expands to the inclusive range when the second number exceeds the first
by at most 20 (`"IT 01-IT 05"`); otherwise each matched token becomes
one class group, deduplicated. -/
theorem expandClassGroups_spec (label : String) :
    expandClassGroups "IT 01-05" = ["IT 01"] ∧
    expandClassGroups "IT 03, IT 07" = ["IT 03", "IT 07"] ∧
    expandClassGroups "IT 01-IT 05" = ["IT 01", "IT 02", "IT 03", "IT 04", "IT 05"] ∧
    (2 ≤ (itMatches label).length → '-' ∈ label.data →
      (itMatches label).headI < ((itMatches label).drop 1).headI →
      ((itMatches label).drop 1).headI - (itMatches label).headI ≤ 20 →
      expandClassGroups label =
        (List.range' (itMatches label).headI
          (((itMatches label).drop 1).headI - (itMatches label).headI + 1)).map fmtIT) ∧
    (¬ (2 ≤ (itMatches label).length ∧ '-' ∈ label.data ∧
        (itMatches label).headI < ((itMatches label).drop 1).headI ∧
        ((itMatches label).drop 1).headI - (itMatches label).headI ≤ 20) →
      itMatches label ≠ [] →
      expandClassGroups label = dedupFirst ((itMatches label).map fmtIT)) := by
  refine ⟨by decide, by decide, by decide, ?_, ?_⟩
  · intro h2 hh hlt hle
    have hne : ¬ (itMatches label = []) := by
      intro h
      rw [h] at h2
      simp at h2
    simp only [expandClassGroups]
    rw [if_neg hne, if_pos ⟨h2, hh⟩, if_pos ⟨hlt, hle⟩]
  · intro hnot hne
    simp only [expandClassGroups]
    rw [if_neg hne]
    by_cases hc : 2 ≤ (itMatches label).length ∧ '-' ∈ label.data
    · rw [if_pos hc]
      have hin : ¬ ((itMatches label).headI < ((itMatches label).drop 1).headI ∧
          ((itMatches label).drop 1).headI - (itMatches label).headI ≤ 20) :=
        fun hin => hnot ⟨hc.1, hc.2, hin.1, hin.2⟩
      rw [if_neg hin]
    · rw [if_neg hc]

/-- Witness for the amended C3 theorem at concrete labels. -/
theorem expandClassGroups_spec_witness :
    expandClassGroups "IT 01-IT 03" = ["IT 01", "IT 02", "IT 03"] ∧
    expandClassGroups "IT 09" = ["IT 09"] := by
  constructor
  · have h := (expandClassGroups_spec "IT 01-IT 03").2.2.2.1
      (by decide) (by decide) (by decide) (by decide)
    rw [h]
    decide
  · have h := (expandClassGroups_spec "IT 09").2.2.2.2 (by decide) (by decide)
    rw [h]
    decide

/-- `dedupFirstAux` over a snoc: the last element survives iff unseen. -/
theorem dedupFirstAux_append_singleton {α : Type} [DecidableEq α] (xs : List α) (y : α) :
    ∀ seen, dedupFirstAux seen (xs ++ [y]) =
      dedupFirstAux seen xs ++ (if y ∈ seen ∨ y ∈ xs then [] else [y]) := by
  induction xs with
  | nil =>
    intro seen
    by_cases h : y ∈ seen <;> simp [dedupFirstAux, h]
  | cons x xs ih =>
    intro seen
    by_cases hx : x ∈ seen
    · rw [List.cons_append, dedupFirstAux, if_pos hx, dedupFirstAux, if_pos hx, ih seen]
      congr 1
      by_cases h1 : y ∈ seen ∨ y ∈ xs
      · rw [if_pos h1, if_pos ?side]
        case side =>
          rcases h1 with h | h
          · exact Or.inl h
          · exact Or.inr (List.mem_cons_of_mem _ h)
      · rw [if_neg h1, if_neg ?side]
        case side =>
          rintro (h | h)
          · exact h1 (Or.inl h)
          · rcases List.mem_cons.mp h with rfl | h
            · exact h1 (Or.inl hx)
            · exact h1 (Or.inr h)
    · rw [List.cons_append, dedupFirstAux, if_neg hx, dedupFirstAux, if_neg hx, ih (x :: seen),
        List.cons_append]
      congr 2
      by_cases h1 : y ∈ x :: seen ∨ y ∈ xs
      · rw [if_pos h1, if_pos ?side]
        case side =>
          rcases h1 with h | h
          · rcases List.mem_cons.mp h with rfl | h
            · exact Or.inr (List.mem_cons_self _ _)
            · exact Or.inl h
          · exact Or.inr (List.mem_cons_of_mem _ h)
      · rw [if_neg h1, if_neg ?side]
        case side =>
          rintro (h | h)
          · exact h1 (Or.inl (List.mem_cons_of_mem _ h))
          · rcases List.mem_cons.mp h with rfl | h
            · exact h1 (Or.inl (List.mem_cons_self _ _))
            · exact h1 (Or.inr h)

/-- `dedupFirst` over a snoc. -/
theorem dedupFirst_append_singleton {α : Type} [DecidableEq α] (xs : List α) (y : α) :
    dedupFirst (xs ++ [y]) = dedupFirst xs ++ (if y ∈ xs then [] else [y]) := by
  rw [dedupFirst, dedupFirstAux_append_singleton xs y [], dedupFirst]
  congr 1
  by_cases h : y ∈ xs <;> simp [h]

/-- `dedupFirst` is empty exactly on the empty list. -/
theorem dedupFirst_eq_nil_iff {α : Type} [DecidableEq α] (xs : List α) :
    dedupFirst xs = [] ↔ xs = [] := by
  cases xs with
  | nil => simp [dedupFirst, dedupFirstAux]
  | cons x xs => simp [dedupFirst, dedupFirstAux]

/-- `updateFirstWhere` leaves a filter untouched when the touched
elements (before and after the update) fail the filter. -/
theorem filter_updateFirstWhere_disjoint {α : Type} (p q : α → Bool) (f : α → α)
    (l : List α) (hpq : ∀ x, p x = true → q x = false)
    (hpf : ∀ x, p x = true → q (f x) = false) :
    (updateFirstWhere p f l).filter q = l.filter q := by
  induction l with
  | nil => rfl
  | cons x xs ih =>
    rw [updateFirstWhere]
    by_cases hp : p x = true
    · rw [if_pos hp, List.filter_cons, List.filter_cons, hpq x hp, hpf x hp]
      simp
    · rw [if_neg hp, List.filter_cons, List.filter_cons]
      cases hq : q x <;> simp [ih]

/-- When the filter selects exactly one element, updating it in place
updates the filter's view, provided the update preserves the filter. -/
theorem filter_updateFirstWhere_single {α : Type} (p : α → Bool) (f : α → α)
    (l : List α) (x : α) (hp : l.filter p = [x]) (hf : p (f x) = true) :
    (updateFirstWhere p f l).filter p = [f x] := by
  induction l with
  | nil => simp at hp
  | cons y ys ih =>
    rw [updateFirstWhere]
    by_cases hy : p y = true
    · rw [List.filter_cons_of_pos hy] at hp
      have hx : y = x := (List.cons_eq_cons.mp hp).1
      have hys : ys.filter p = [] := (List.cons_eq_cons.mp hp).2
      subst hx
      rw [if_pos hy, List.filter_cons_of_pos hf, hys]
    · rw [List.filter_cons_of_neg hy] at hp
      rw [if_neg hy, List.filter_cons_of_neg hy]
      exact ih hp

/-- A conflict-step on an entry of a different `(day, startTime)` key
leaves the view of any other key unchanged. -/
theorem conflictStep_filter_other (groups : List Conflict) (ed : DayOfWeek) (u : String)
    (ec : String) (d : DayOfWeek) (t : String) (hne : ¬ (ed = d ∧ u = t)) :
    (conflictStep groups ⟨ed, some u, ec⟩).filter
        (fun c => c.dayOfWeek == d && c.startTime == t) =
      groups.filter (fun c => c.dayOfWeek == d && c.startTime == t) := by
  have hq : ∀ c : Conflict, (c.dayOfWeek == ed && c.startTime == u) = true →
      (c.dayOfWeek == d && c.startTime == t) = false := by
    intro c hp
    rw [Bool.and_eq_true, beq_iff_eq, beq_iff_eq] at hp
    by_contra hcon
    have hct : (c.dayOfWeek == d && c.startTime == t) = true := by
      revert hcon
      cases (c.dayOfWeek == d && c.startTime == t) <;> simp
    rw [Bool.and_eq_true, beq_iff_eq, beq_iff_eq] at hct
    exact hne ⟨hp.1 ▸ hct.1, hp.2 ▸ hct.2⟩
  have hstep : conflictStep groups ⟨ed, some u, ec⟩ =
      (if (groups.any fun c => c.dayOfWeek == ed && c.startTime == u) = true then
        updateFirstWhere (fun c => c.dayOfWeek == ed && c.startTime == u)
          (fun c =>
            { c with courses := if ec ∈ c.courses then c.courses else c.courses ++ [ec] })
          groups
       else groups ++ [⟨ed, u, [ec]⟩]) := rfl
  rw [hstep]
  by_cases hany : (groups.any fun c => c.dayOfWeek == ed && c.startTime == u) = true
  · rw [if_pos hany]
    exact filter_updateFirstWhere_disjoint _ _ _ groups hq (fun x hp => hq x hp)
  · rw [if_neg hany]
    have h1 : List.filter (fun c => c.dayOfWeek == d && c.startTime == t)
        [(⟨ed, u, [ec]⟩ : Conflict)] = [] := by
      simp only [List.filter_cons, List.filter_nil]
      rw [hq ⟨ed, u, [ec]⟩ (by simp)]
      simp
    rw [List.filter_append, h1, List.append_nil]

/-- Appending an entry of a different key (or without a start time)
does not change a slot's code list. -/
theorem slotCodes_append_other (es : List PortalEntry) (e : PortalEntry)
    (d : DayOfWeek) (t : String) (hne : (e.dayOfWeek == d && e.startTime == some t) = false) :
    slotCodes d t (es ++ [e]) = slotCodes d t es := by
  have h1 : List.filter (fun x => x.dayOfWeek == d && x.startTime == some t) [e] = [] := by
    simp only [List.filter_cons, List.filter_nil, hne]
    simp
  rw [slotCodes, List.filter_append, h1, List.append_nil, slotCodes]

/-- Appending an entry at the slot extends the slot's code list with its
course code when not yet listed. -/
theorem slotCodes_append_same (es : List PortalEntry) (e : PortalEntry)
    (d : DayOfWeek) (t : String) (he : (e.dayOfWeek == d && e.startTime == some t) = true) :
    slotCodes d t (es ++ [e]) =
      slotCodes d t es ++
        (if e.courseCode ∈ slotCodes d t es then [] else [e.courseCode]) := by
  have h1 : List.filter (fun x => x.dayOfWeek == d && x.startTime == some t) [e] = [e] := by
    simp only [List.filter_cons, List.filter_nil, he]
    simp
  rw [slotCodes, List.filter_append, h1, List.map_append, List.map_cons, List.map_nil,
    dedupFirst_append_singleton, slotCodes]
  congr 1
  by_cases hm : e.courseCode ∈ (es.filter (fun x =>
      x.dayOfWeek == d && x.startTime == some t)).map (·.courseCode)
  · rw [if_pos hm, if_pos ((mem_dedupFirst _ _).mpr hm)]
  · rw [if_neg hm, if_neg (fun hc => hm ((mem_dedupFirst _ _).mp hc))]

/-- Characterization of the grouping fold of `computeConflicts`: for
every `(day, startTime)` slot, the grouped map holds exactly one entry
when some schedule entry occupies the slot — its course list being the
slot's distinct codes in first-occurrence order — and none otherwise. -/
theorem conflictFold_filter_key (entries : List PortalEntry) (d : DayOfWeek) (t : String) :
    (entries.foldl conflictStep []).filter
        (fun c => c.dayOfWeek == d && c.startTime == t) =
      (if slotCodes d t entries = [] then []
       else [⟨d, t, slotCodes d t entries⟩]) := by
  induction entries using List.reverseRecOn with
  | nil => simp [slotCodes, dedupFirst, dedupFirstAux]
  | append_singleton es e ih =>
    obtain ⟨ed, est, ec⟩ := e
    rw [List.foldl_append, List.foldl_cons, List.foldl_nil]
    cases est with
    | none =>
      have h1 : conflictStep (es.foldl conflictStep []) ⟨ed, none, ec⟩ =
          es.foldl conflictStep [] := rfl
      have h2 : slotCodes d t (es ++ [⟨ed, none, ec⟩]) = slotCodes d t es :=
        slotCodes_append_other es _ d t (by simp)
      rw [h1, h2, ih]
    | some u =>
      by_cases hdu : ed = d ∧ u = t
      · obtain ⟨rfl, rfl⟩ := hdu
        have hkeyb : ((⟨ed, some u, ec⟩ : PortalEntry).dayOfWeek == ed &&
            (⟨ed, some u, ec⟩ : PortalEntry).startTime == some u) = true := by
          simp
        rw [slotCodes_append_same es _ ed u hkeyb]
        have hstep : conflictStep (es.foldl conflictStep []) ⟨ed, some u, ec⟩ =
            (if (es.foldl conflictStep []).any
                (fun c => c.dayOfWeek == ed && c.startTime == u) then
              updateFirstWhere (fun c => c.dayOfWeek == ed && c.startTime == u)
                (fun c =>
                  { c with courses := if ec ∈ c.courses then c.courses
                                      else c.courses ++ [ec] })
                (es.foldl conflictStep [])
             else es.foldl conflictStep [] ++ [⟨ed, u, [ec]⟩]) := rfl
        by_cases hemp : slotCodes ed u es = []
        · have hfil : (es.foldl conflictStep []).filter
              (fun c => c.dayOfWeek == ed && c.startTime == u) = [] := by
            rw [ih, if_pos hemp]
          have hany : ((es.foldl conflictStep []).any
              (fun c => c.dayOfWeek == ed && c.startTime == u)) = false := by
            rw [List.any_eq_false]
            intro c hc
            have := List.filter_eq_nil_iff.mp hfil c hc
            simpa using this
          rw [hstep, hany]
          simp only [Bool.false_eq_true, if_false]
          rw [List.filter_append, hfil, List.filter_cons, List.filter_nil]
          rw [hemp]
          simp
        · have hfil : (es.foldl conflictStep []).filter
              (fun c => c.dayOfWeek == ed && c.startTime == u) =
              [⟨ed, u, slotCodes ed u es⟩] := by
            rw [ih, if_neg hemp]
          have hmem : (⟨ed, u, slotCodes ed u es⟩ : Conflict) ∈
              (es.foldl conflictStep []).filter
                (fun c => c.dayOfWeek == ed && c.startTime == u) := by
            rw [hfil]
            exact List.mem_cons_self _ _
          have hany : ((es.foldl conflictStep []).any
              (fun c => c.dayOfWeek == ed && c.startTime == u)) = true := by
            rw [List.any_eq_true]
            exact ⟨_, (List.mem_filter.mp hmem).1, (List.mem_filter.mp hmem).2⟩
          rw [hstep, hany]
          rw [if_pos rfl]
          rw [filter_updateFirstWhere_single _ _ _ _ hfil (by simp)]
          have hne2 : ¬ (slotCodes ed u es ++
              (if ec ∈ slotCodes ed u es then [] else [ec])) = [] := by
            intro hcon
            rcases List.append_eq_nil.mp hcon with ⟨h1, _⟩
            exact hemp h1
          rw [if_neg hne2]
          by_cases hm : ec ∈ slotCodes ed u es <;> simp [hm]
      · have hkeyb : ((⟨ed, some u, ec⟩ : PortalEntry).dayOfWeek == d &&
            (⟨ed, some u, ec⟩ : PortalEntry).startTime == some t) = false := by
          by_contra hcon
          have : ((⟨ed, some u, ec⟩ : PortalEntry).dayOfWeek == d &&
              (⟨ed, some u, ec⟩ : PortalEntry).startTime == some t) = true := by
            revert hcon
            cases ((⟨ed, some u, ec⟩ : PortalEntry).dayOfWeek == d &&
              (⟨ed, some u, ec⟩ : PortalEntry).startTime == some t) <;> simp
          rw [Bool.and_eq_true, beq_iff_eq, beq_iff_eq] at this
          exact hdu ⟨this.1, by simpa using this.2⟩
        rw [slotCodes_append_other es _ d t hkeyb,
          conflictStep_filter_other _ ed u ec d t hdu, ih]

/-- C9. The conflict list contains exactly one conflict per
`(day, startTime)` pair occupied by entries of more than one distinct
course code; that conflict lists each distinct course code exactly once
(in first-occurrence order); a slot whose entries all share one course
code — in particular two entries of the same course — yields no
conflict. -/
theorem computeConflicts_one_per_slot (entries : List PortalEntry) (d : DayOfWeek)
    (t : String) :
    ((computeConflicts entries).countP (fun c => c.dayOfWeek == d && c.startTime == t) =
      if 2 ≤ (slotCodes d t entries).length then 1 else 0) ∧
    (∀ c ∈ computeConflicts entries, c.dayOfWeek = d → c.startTime = t →
      c.courses = slotCodes d t entries ∧ c.courses.Nodup) := by
  have hcomm : ((entries.foldl conflictStep []).filter
        (fun c => decide (1 < c.courses.length))).filter
        (fun c => c.dayOfWeek == d && c.startTime == t) =
      ((entries.foldl conflictStep []).filter
        (fun c => c.dayOfWeek == d && c.startTime == t)).filter
        (fun c => decide (1 < c.courses.length)) := by
    rw [List.filter_filter, List.filter_filter]
    congr 1
    funext c
    rw [Bool.and_comm]
  constructor
  · rw [List.countP_eq_length_filter, computeConflicts, hcomm, conflictFold_filter_key]
    by_cases hemp : slotCodes d t entries = []
    · rw [if_pos hemp, hemp]
      simp
    · rw [if_neg hemp, List.filter_cons, List.filter_nil]
      by_cases hlen : 2 ≤ (slotCodes d t entries).length
      · have h1 : 1 < (slotCodes d t entries).length := hlen
        rw [if_pos hlen, if_pos (decide_eq_true h1)]
        simp
      · have h1 : ¬ (1 < (slotCodes d t entries).length) := hlen
        rw [if_neg hlen, if_neg (fun h => h1 (of_decide_eq_true h))]
        simp
  · intro c hc hcd hct
    have hc' : c ∈ (entries.foldl conflictStep []).filter
        (fun c => c.dayOfWeek == d && c.startTime == t) := by
      rw [computeConflicts] at hc
      refine List.mem_filter.mpr ⟨(List.mem_filter.mp hc).1, ?_⟩
      rw [hcd, hct]
      simp
    rw [conflictFold_filter_key] at hc'
    by_cases hemp : slotCodes d t entries = []
    · rw [if_pos hemp] at hc'
      simp at hc'
    · rw [if_neg hemp] at hc'
      rcases List.mem_singleton.mp hc' with rfl
      exact ⟨rfl, nodup_dedupFirst _⟩

/-- Witness for the C9 theorem on the spec's worked example. -/
theorem computeConflicts_one_per_slot_witness :
    ((computeConflicts [⟨DayOfWeek.MON, some "08:00", "CS 2255"⟩,
        ⟨DayOfWeek.MON, some "08:00", "MATH 101"⟩]).countP
      (fun c => c.dayOfWeek == DayOfWeek.MON && c.startTime == "08:00") =
      if 2 ≤ (slotCodes DayOfWeek.MON "08:00" [⟨DayOfWeek.MON, some "08:00", "CS 2255"⟩,
        ⟨DayOfWeek.MON, some "08:00", "MATH 101"⟩]).length then 1 else 0) ∧
    ((⟨DayOfWeek.MON, "08:00", ["CS 2255", "MATH 101"]⟩ : Conflict).courses =
      slotCodes DayOfWeek.MON "08:00" [⟨DayOfWeek.MON, some "08:00", "CS 2255"⟩,
        ⟨DayOfWeek.MON, some "08:00", "MATH 101"⟩] ∧
      (⟨DayOfWeek.MON, "08:00", ["CS 2255", "MATH 101"]⟩ : Conflict).courses.Nodup) :=
  ⟨(computeConflicts_one_per_slot [⟨DayOfWeek.MON, some "08:00", "CS 2255"⟩,
      ⟨DayOfWeek.MON, some "08:00", "MATH 101"⟩] DayOfWeek.MON "08:00").1,
   (computeConflicts_one_per_slot [⟨DayOfWeek.MON, some "08:00", "CS 2255"⟩,
      ⟨DayOfWeek.MON, some "08:00", "MATH 101"⟩] DayOfWeek.MON "08:00").2
    ⟨DayOfWeek.MON, "08:00", ["CS 2255", "MATH 101"]⟩ (by decide) (by decide) (by decide)⟩

/-- C7. The latin1-reinterpretation repair is committed only when the
mojibake signature is detected (at least 8 marker hits) *and* a
known-good accented substring appears in the reinterpreted text; with
the signature absent, or the known-good check failing, the originally
decoded text is returned unchanged; and a byte stream carrying the
corruption signature for "Khoa Học" decodes to the correct accented
text after repair. -/
theorem decodeCatalogCsv_commit_rules (bytes : List Nat) :
    (markerHits (bomStrip (utf8Decode bytes)) < 8 →
      decodeCatalogCsv bytes = bomStrip (utf8Decode bytes)) ∧
    (8 ≤ markerHits (bomStrip (utf8Decode bytes)) →
      knownGoodAfterRepair (repairLatin1 (bomStrip (utf8Decode bytes))) = false →
      decodeCatalogCsv bytes = bomStrip (utf8Decode bytes)) ∧
    (8 ≤ markerHits (bomStrip (utf8Decode bytes)) →
      knownGoodAfterRepair (repairLatin1 (bomStrip (utf8Decode bytes))) = true →
      decodeCatalogCsv bytes = repairLatin1 (bomStrip (utf8Decode bytes))) ∧
    decodeCatalogCsv (utf8Encode (utf8Encode (cpsOf
        "Khoa Học Máy Tính, Khoa Học Máy Tính, Khoa Học Máy Tính"))) =
      cpsOf "Khoa Học Máy Tính, Khoa Học Máy Tính, Khoa Học Máy Tính" := by
  refine ⟨?_, ?_, ?_, by decide⟩
  · intro h
    rw [decodeCatalogCsv]
    rw [if_neg (by omega)]
  · intro h1 h2
    rw [decodeCatalogCsv]
    rw [if_pos h1, if_neg (by rw [h2]; exact Bool.false_ne_true)]
  · intro h1 h2
    rw [decodeCatalogCsv]
    rw [if_pos h1, if_pos h2]

/-- Witness for the C7 theorem: a clean accented stream passes through
unchanged, a mojibake stream is repaired. -/
theorem decodeCatalogCsv_commit_rules_witness :
    decodeCatalogCsv (utf8Encode (cpsOf "Khoa Học")) =
      bomStrip (utf8Decode (utf8Encode (cpsOf "Khoa Học"))) ∧
    decodeCatalogCsv (utf8Encode (utf8Encode (cpsOf
        "Khoa Học Máy Tính, Khoa Học Máy Tính, Khoa Học Máy Tính"))) =
      repairLatin1 (bomStrip (utf8Decode (utf8Encode (utf8Encode (cpsOf
        "Khoa Học Máy Tính, Khoa Học Máy Tính, Khoa Học Máy Tính"))))) :=
  ⟨(decodeCatalogCsv_commit_rules (utf8Encode (cpsOf "Khoa Học"))).1 (by decide),
   (decodeCatalogCsv_commit_rules (utf8Encode (utf8Encode (cpsOf
      "Khoa Học Máy Tính, Khoa Học Máy Tính, Khoa Học Máy Tính")))).2.2.1
    (by decide) (by decide)⟩

/-- The course-code gate of `parseScheduleCell` is the 2–4 letter
pattern. -/
theorem parserNormalizeCourseCode_isSome (line : String) :
    (parserNormalizeCourseCode line).isSome = courseLineMatch 4 line := by
  rw [parserNormalizeCourseCode, courseLineMatch]
  cases htext : collapseSpaces ((cleanCell line).data.map Char.toUpper) with
  | nil => simp
  | cons c cs =>
    rw [if_neg (by simp)]
    dsimp only
    split
    · rename_i hb
      rw [hb]
      rfl
    · rename_i hb
      rw [Bool.not_eq_true] at hb
      rw [hb]
      rfl

/-- C8 counterexample: `"ABCDE 123"` matches the spec's 2–6 letter
prefix + 3–4 digit suffix pattern, yet the workbook parser (whose
pattern allows only 2–4 letters) rejects it and skips the cell. -/
theorem parseScheduleCell_letter_prefix_counterexample :
    courseLineMatch 6 "ABCDE 123" = true ∧
    parserNormalizeCourseCode "ABCDE 123" = none ∧
    parseScheduleCell "ABCDE 123" = none := by
  exact ⟨by decide, by decide, by decide⟩

/-- C8 (amended). A multi-line day-column cell is accepted exactly when
its first non-empty line matches a 2–4 letter prefix followed by a 3–4
digit suffix (case and whitespace tolerant); otherwise the cell is
skipped and produces no schedule events. (`normalizeCourseCode "cs2255"
= "CS 2255"` as the spec records.) -/
theorem parseScheduleCell_course_gate (cellText : String) :
    ((parseScheduleCell cellText).isSome = true ↔
      (∃ l, (cellLines cellText).head? = some l ∧ courseLineMatch 4 l = true)) ∧
    (∀ (sheetName : String) (groups : List String) (session : SessionPeriod)
      (rowNum : Nat) (day : DayOfWeek),
      parseScheduleCell cellText = none →
      cellEventsOf sheetName groups session rowNum day cellText = []) ∧
    parserNormalizeCourseCode "cs2255" = some "CS 2255" := by
  refine ⟨?_, ?_, by decide⟩
  · rw [parseScheduleCell]
    cases hhead : (cellLines cellText).head? with
    | none => simp
    | some l =>
      cases hcode : parserNormalizeCourseCode l with
      | none =>
        have := parserNormalizeCourseCode_isSome l
        rw [hcode] at this
        simp only [Option.isSome_none] at this
        dsimp only
        rw [hcode]
        simp only [Option.isSome_none, Bool.false_eq_true, false_iff]
        rintro ⟨l', hl', hm⟩
        injection hl' with h
        subst h
        rw [hm] at this
        exact Bool.false_ne_true this
      | some code =>
        have := parserNormalizeCourseCode_isSome l
        rw [hcode] at this
        simp only [Option.isSome_some] at this
        dsimp only
        rw [hcode]
        simp only [Option.isSome_some, true_iff]
        exact ⟨l, rfl, this.symm⟩
  · intro sheetName groups session rowNum day h
    rw [cellEventsOf, h]

/-- Witness for the C8 theorem: a cell whose first line is not a course
code produces no events. -/
theorem parseScheduleCell_course_gate_witness :
    cellEventsOf "SPRING 2026 K69" ["IT 01"] SessionPeriod.MORNING 5 DayOfWeek.MON
      "Lunch break" = [] :=
  (parseScheduleCell_course_gate "Lunch break").2.1 "SPRING 2026 K69" ["IT 01"]
    SessionPeriod.MORNING 5 DayOfWeek.MON (by decide)

/-- With an empty declared set, an event can only come from a cell with
an inline class-group hint, which becomes the event's group. -/
theorem mem_cellEventsOf_empty_groups (sheetName : String) (session : SessionPeriod)
    (rowNum : Nat) (day : DayOfWeek) (cellText : String) (e : ParsedEvent)
    (he : e ∈ cellEventsOf sheetName [] session rowNum day cellText) :
    ∃ pc, parseScheduleCell cellText = some pc ∧ pc.classHint = some e.classGroupName := by
  rw [cellEventsOf] at he
  cases hpc : parseScheduleCell cellText with
  | none =>
    rw [hpc] at he
    simp at he
  | some pc =>
    rw [hpc] at he
    dsimp only at he
    cases hhint : pc.classHint with
    | none =>
      rw [hhint] at he
      simp at he
    | some hint =>
      rw [hhint] at he
      dsimp only at he
      rw [ite_self, List.map_cons, List.map_nil] at he
      rcases List.mem_singleton.mp he with rfl
      exact ⟨pc, rfl, hhint⟩

/-- Without declaration rows the declared set stays empty, so every
scanned event comes from some cell of some row via an empty declared
set. -/
theorem scanRows_no_decl (sheetName : String) (rows : List (List String)) (rowIndex : Nat)
    (hnd : ∀ row ∈ rows, looksLikeClassGroupRow (cellAt row 1) = false) :
    ∀ e ∈ scanRows sheetName [] rowIndex rows,
      ∃ pc cellText, parseScheduleCell cellText = some pc ∧
        pc.classHint = some e.classGroupName := by
  induction rows generalizing rowIndex with
  | nil =>
    intro e he
    simp [scanRows] at he
  | cons row rest ih =>
    intro e he
    rw [scanRows] at he
    by_cases hs : isFooterSentinel (cellAt row 1) = true
    · rw [if_pos hs] at he
      simp at he
    · rw [if_neg hs, if_neg (by rw [hnd row (List.mem_cons_self _ _)]; exact
        Bool.false_ne_true)] at he
      have hrest : ∀ r ∈ rest, looksLikeClassGroupRow (cellAt r 1) = false :=
        fun r hr => hnd r (List.mem_cons_of_mem _ hr)
      rcases hsp : getSessionPeriod (cellAt row 1) with _ | _ | _ | _ <;> rw [hsp] at he
      all_goals try exact ih (rowIndex + 1) hrest e he
      all_goals
        rcases List.mem_append.mp he with hin | hin
        · rw [rowEvents] at hin
          rcases List.mem_flatMap.mp hin with ⟨dc, _, hcell⟩
          by_cases hblank : (cellAt row dc.1).isEmpty = true
          · rw [if_pos hblank] at hcell
            simp at hcell
          · rw [if_neg hblank] at hcell
            rcases mem_cellEventsOf_empty_groups _ _ _ _ _ _ hcell with ⟨pc, h1, h2⟩
            exact ⟨pc, cellAt row dc.1, h1, h2⟩
        · exact ih (rowIndex + 1) hrest e hin

/-- C10. In the row scan: (a) a cell with an inline class-group hint
emits exactly one event targeting that hinted group — even when the hint
is not in the declared set; (b) with an empty declared set, a cell
without an inline hint emits nothing; (c) while no declaration row has
been seen (scanning from the empty declared set with no declaration
rows), every emitted event carries the inline hint of its cell. -/
theorem scan_inline_hint_rules (sheetName : String) :
    (∀ (groups : List String) (session : SessionPeriod) (rowNum : Nat) (day : DayOfWeek)
      (cellText : String) (pc : ParsedCell) (hint : String),
      parseScheduleCell cellText = some pc → pc.classHint = some hint →
      cellEventsOf sheetName groups session rowNum day cellText =
        [{ classGroupName := hint, dayOfWeek := day, session := session,
           startTime := pc.startTime, rawTime := pc.rawTime, room := pc.room,
           courseCode := pc.courseCode, sourceSheet := sheetName, sourceRow := rowNum }]) ∧
    (∀ (session : SessionPeriod) (rowNum : Nat) (day : DayOfWeek) (cellText : String)
      (pc : ParsedCell),
      parseScheduleCell cellText = some pc → pc.classHint = none →
      cellEventsOf sheetName [] session rowNum day cellText = []) ∧
    (∀ (rows : List (List String)) (rowIndex : Nat),
      (∀ row ∈ rows, looksLikeClassGroupRow (cellAt row 1) = false) →
      ∀ e ∈ scanRows sheetName [] rowIndex rows,
        ∃ pc cellText, parseScheduleCell cellText = some pc ∧
          pc.classHint = some e.classGroupName) := by
  refine ⟨?_, ?_, fun rows rowIndex hnd => scanRows_no_decl sheetName rows rowIndex hnd⟩
  · intro groups session rowNum day cellText pc hint hpc hhint
    rw [cellEventsOf, hpc]
    dsimp only
    rw [hhint]
    dsimp only
    by_cases hmem : groups.contains hint = true
    · rw [if_pos hmem]
      rfl
    · rw [if_neg hmem]
      rfl
  · intro session rowNum day cellText pc hpc hhint
    rw [cellEventsOf, hpc]
    dsimp only
    rw [hhint]
    rfl

/-- Witness for the C10 theorem: a hinted cell targets only the hinted
group even though the declared set does not contain it; an unhinted cell
with no declared groups emits nothing; a scan without declaration rows
emits only hinted events. -/
theorem scan_inline_hint_rules_witness :
    cellEventsOf "S" ["IT 01"] SessionPeriod.MORNING 3 DayOfWeek.MON
        "CS2255\nB1\n08:00 IT 07" =
      [{ classGroupName := "IT 07", dayOfWeek := DayOfWeek.MON,
         session := SessionPeriod.MORNING, startTime := some "08:00",
         rawTime := some "08:00 IT 07", room := some "B1", courseCode := "CS 2255",
         sourceSheet := "S", sourceRow := 3 }] ∧
    cellEventsOf "S" [] SessionPeriod.MORNING 3 DayOfWeek.MON "CS2255\nB1\n08:00" = [] ∧
    (∀ e ∈ scanRows "S" [] 0 [["", "Sáng", "CS2255\nB1\n08:00"]],
      ∃ pc cellText, parseScheduleCell cellText = some pc ∧
        pc.classHint = some e.classGroupName) :=
  ⟨(scan_inline_hint_rules "S").1 ["IT 01"] SessionPeriod.MORNING 3 DayOfWeek.MON
      "CS2255\nB1\n08:00 IT 07"
      ⟨some "IT 07", "CS 2255", some "B1", some "08:00 IT 07", some "08:00"⟩ "IT 07"
      (by decide) rfl,
   (scan_inline_hint_rules "S").2.1 SessionPeriod.MORNING 3 DayOfWeek.MON "CS2255\nB1\n08:00"
      ⟨none, "CS 2255", some "B1", some "08:00", some "08:00"⟩ (by decide) rfl,
   (scan_inline_hint_rules "S").2.2 [["", "Sáng", "CS2255\nB1\n08:00"]] 0 (by decide)⟩

/-- `buildEntryData` keeps exactly the resolvable events, in order. -/
theorem buildEntryData_eq_filter_map (semesterId : Nat) (m1 m2 : List (String × Nat))
    (events : List ParsedEvent) :
    buildEntryData semesterId m1 m2 events =
      (events.filter (eventResolvable m1 m2)).map (entryInputOf semesterId m1 m2) := by
  induction events with
  | nil => rfl
  | cons ev rest ih =>
    unfold buildEntryData
    rw [List.filterMap_cons]
    cases h1 : lookupId m1 ev.classGroupName with
    | none =>
      have hres : eventResolvable m1 m2 ev = false := by
        simp [eventResolvable, h1]
      rw [List.filter_cons_of_neg (by simp [hres])]
      exact ih
    | some g =>
      cases h2 : lookupId m2 ev.courseCode with
      | none =>
        have hres : eventResolvable m1 m2 ev = false := by
          simp [eventResolvable, h2]
        rw [List.filter_cons_of_neg (by simp [hres])]
        exact ih
      | some c =>
        have hres : eventResolvable m1 m2 ev = true := by
          simp [eventResolvable, h1, h2]
        rw [List.filter_cons_of_pos (by simp [hres])]
        rw [List.map_cons]
        refine congrArg₂ _ ?_ ih
        simp [entryInputOf, h1, h2]

/-- The rows appended by `createMany`, with ids forgotten, are exactly
the batch; earlier rows are untouched. -/
theorem appendEntries_strip (db : Db) (l : List ScheduleEntryInput) :
    (appendEntries db l).entries.map stripEntryId = db.entries.map stripEntryId ++ l := by
  unfold appendEntries
  by_cases h : l.isEmpty
  · rw [if_pos h]
    rw [List.isEmpty_iff.mp h]
    simp
  · rw [if_neg h]
    show (db.entries ++ _).map stripEntryId = _
    rw [List.map_append]
    refine congrArg _ ?_
    rw [List.map_map]
    have hc : stripEntryId ∘
        (fun p : Nat × ScheduleEntryInput =>
          (⟨db.nextId + p.1, p.2.semesterId, p.2.classGroupId, p.2.courseId, p.2.dayOfWeek,
            p.2.session, p.2.startTime, p.2.rawTime, p.2.room, p.2.sourceSheet,
            p.2.sourceRow⟩ : ScheduleEntryRow)) = Prod.snd := by
      funext p
      rfl
    rw [hc, List.enum_map_snd]

/-- C4: during entity normalization, an event whose class-group name or
course code is missing from the resolved maps is dropped without error:
`buildEntryData` is the map over exactly the resolvable events (so no
row is produced for an unresolvable event while every resolvable event
of the sheet still contributes its row, in order), its length is the
count of resolvable events, the sheet's contribution to the summary's
entries count is that same count, and the rows stored by the bulk
insert are exactly the resolvable events' rows appended after the
previously stored entries. -/
theorem writeImport_drops_unresolvable_events
    (semesterId : Nat) (m1 m2 : List (String × Nat)) (events : List ParsedEvent)
    (acc : ImportAcc) (sheet : ParsedSheetData) :
    buildEntryData semesterId m1 m2 events =
        (events.filter (eventResolvable m1 m2)).map (entryInputOf semesterId m1 m2) ∧
    (buildEntryData semesterId m1 m2 events).length =
        events.countP (eventResolvable m1 m2) ∧
    (processSheet semesterId acc sheet).totalEntries =
        acc.totalEntries + sheet.events.countP
          (eventResolvable
            (classGroupMapOf (dbAfterGroups semesterId acc.db sheet)
              (upsertCohort acc.db semesterId sheet.cohortCode).2)
            (courseMapOf (courseUpserts (dbAfterGroups semesterId acc.db sheet) sheet)
              (cohortCourseCodesOf sheet))) ∧
    (processSheet semesterId acc sheet).db.entries.map stripEntryId =
        (courseUpserts (dbAfterGroups semesterId acc.db sheet) sheet).entries.map
            stripEntryId ++
          (sheet.events.filter
              (eventResolvable
                (classGroupMapOf (dbAfterGroups semesterId acc.db sheet)
                  (upsertCohort acc.db semesterId sheet.cohortCode).2)
                (courseMapOf (courseUpserts (dbAfterGroups semesterId acc.db sheet) sheet)
                  (cohortCourseCodesOf sheet)))).map
            (entryInputOf semesterId
              (classGroupMapOf (dbAfterGroups semesterId acc.db sheet)
                (upsertCohort acc.db semesterId sheet.cohortCode).2)
              (courseMapOf (courseUpserts (dbAfterGroups semesterId acc.db sheet) sheet)
                (cohortCourseCodesOf sheet))) := by
  refine ⟨buildEntryData_eq_filter_map semesterId m1 m2 events, ?_, ?_, ?_⟩
  · rw [buildEntryData_eq_filter_map]
    rw [List.length_map, List.countP_eq_length_filter]
  · show acc.totalEntries + (buildEntryData _ _ _ _).length = _
    rw [buildEntryData_eq_filter_map]
    rw [List.length_map, List.countP_eq_length_filter]
  · show (appendEntries _ (buildEntryData _ _ _ _)).entries.map stripEntryId = _
    rw [appendEntries_strip, buildEntryData_eq_filter_map]

/-! ### Frame lemmas for the store operations -/

theorem upsertCourse_cohorts (db : Db) (code : String) (meta : Option ParsedCourseMeta) :
    (upsertCourse db code meta).cohorts = db.cohorts := by
  unfold upsertCourse
  cases db.courses.find? (fun c => c.code == code) <;> rfl

theorem upsertCourse_classGroups (db : Db) (code : String) (meta : Option ParsedCourseMeta) :
    (upsertCourse db code meta).classGroups = db.classGroups := by
  unfold upsertCourse
  cases db.courses.find? (fun c => c.code == code) <;> rfl

theorem upsertCourse_entries (db : Db) (code : String) (meta : Option ParsedCourseMeta) :
    (upsertCourse db code meta).entries = db.entries := by
  unfold upsertCourse
  cases db.courses.find? (fun c => c.code == code) <;> rfl

theorem upsertCourse_semesters (db : Db) (code : String) (meta : Option ParsedCourseMeta) :
    (upsertCourse db code meta).semesters = db.semesters := by
  unfold upsertCourse
  cases db.courses.find? (fun c => c.code == code) <;> rfl

theorem upsertCourse_nextId_le (db : Db) (code : String) (meta : Option ParsedCourseMeta) :
    db.nextId ≤ (upsertCourse db code meta).nextId := by
  unfold upsertCourse
  cases db.courses.find? (fun c => c.code == code) with
  | none => exact Nat.le_succ _
  | some c => exact le_rfl

theorem foldl_upsertCourse_cohorts (codes : List String)
    (f : String → Option ParsedCourseMeta) (db : Db) :
    (codes.foldl (fun db code => upsertCourse db code (f code)) db).cohorts = db.cohorts := by
  induction codes generalizing db with
  | nil => rfl
  | cons c rest ih =>
    rw [List.foldl_cons, ih, upsertCourse_cohorts]

theorem foldl_upsertCourse_classGroups (codes : List String)
    (f : String → Option ParsedCourseMeta) (db : Db) :
    (codes.foldl (fun db code => upsertCourse db code (f code)) db).classGroups =
      db.classGroups := by
  induction codes generalizing db with
  | nil => rfl
  | cons c rest ih =>
    rw [List.foldl_cons, ih, upsertCourse_classGroups]

theorem foldl_upsertCourse_entries (codes : List String)
    (f : String → Option ParsedCourseMeta) (db : Db) :
    (codes.foldl (fun db code => upsertCourse db code (f code)) db).entries = db.entries := by
  induction codes generalizing db with
  | nil => rfl
  | cons c rest ih =>
    rw [List.foldl_cons, ih, upsertCourse_entries]

theorem foldl_upsertCourse_semesters (codes : List String)
    (f : String → Option ParsedCourseMeta) (db : Db) :
    (codes.foldl (fun db code => upsertCourse db code (f code)) db).semesters =
      db.semesters := by
  induction codes generalizing db with
  | nil => rfl
  | cons c rest ih =>
    rw [List.foldl_cons, ih, upsertCourse_semesters]

theorem foldl_upsertCourse_nextId_le (codes : List String)
    (f : String → Option ParsedCourseMeta) (db : Db) :
    db.nextId ≤ (codes.foldl (fun db code => upsertCourse db code (f code)) db).nextId := by
  induction codes generalizing db with
  | nil => exact le_rfl
  | cons c rest ih =>
    rw [List.foldl_cons]
    exact le_trans (upsertCourse_nextId_le db c (f c)) (ih _)

theorem courseUpserts_eq (db : Db) (sheet : ParsedSheetData) :
    courseUpserts db sheet = (cohortCourseCodesOf sheet).foldl
      (fun db code => upsertCourse db code (catalogLookup sheet.catalog code)) db := rfl

/-- When the `(semesterId, code)` cohort already exists (and cohort keys
are unique), the upsert writes nothing and returns that cohort's id. -/
theorem upsertCohort_found (db : Db) (semesterId : Nat) (code : String) (c : CohortRow)
    (hkeys : (db.cohorts.map (fun c => (c.semesterId, c.code))).Nodup)
    (hc : c ∈ db.cohorts) (hsem : c.semesterId = semesterId) (hcode : c.code = code) :
    upsertCohort db semesterId code = (db, c.id) := by
  unfold upsertCohort
  cases hf : db.cohorts.find? (fun c => c.semesterId == semesterId && c.code == code) with
  | none =>
    exfalso
    have := List.find?_eq_none.mp hf c hc
    simp [hsem, hcode] at this
  | some c' =>
    have hmem : c' ∈ db.cohorts := List.mem_of_find?_eq_some hf
    have hp := List.find?_some hf
    have hkey : (c'.semesterId, c'.code) = (c.semesterId, c.code) := by
      simp only [Bool.and_eq_true, beq_iff_eq] at hp
      rw [hp.1, hp.2, hsem, hcode]
    have : c' = c := List.inj_on_of_nodup_map hkeys hmem hc hkey
    rw [this]

/-- With unique class-group ids, the destructive refresh deletes exactly
the cohort's class groups and exactly the entries referencing them,
leaving everything else in place. -/
theorem deleteCohortGroups_spec (db : Db) (cid : Nat)
    (hids : (db.classGroups.map (fun g => g.id)).Nodup) :
    deleteCohortGroups db cid =
      { db with
          classGroups := db.classGroups.filter (fun g => !(g.cohortId == cid))
          entries := db.entries.filter (fun e =>
            !(((db.classGroups.filter (fun g => g.cohortId == cid)).map
              (fun g => g.id)).contains e.classGroupId)) } := by
  unfold deleteCohortGroups
  by_cases h : ((db.classGroups.filter (fun g => g.cohortId == cid)).map
      (fun g => g.id)).isEmpty
  · rw [if_pos h]
    have hempty : db.classGroups.filter (fun g => g.cohortId == cid) = [] := by
      have := List.isEmpty_iff.mp h
      exact List.map_eq_nil_iff.mp this
    have hnone : ∀ g ∈ db.classGroups, (g.cohortId == cid) = false := by
      intro g hg
      by_contra hne
      have : g.cohortId == cid := by
        cases hgc : (g.cohortId == cid) with
        | false => exact absurd hgc hne
        | true => rfl
      have : g ∈ db.classGroups.filter (fun g => g.cohortId == cid) :=
        List.mem_filter.mpr ⟨hg, this⟩
      rw [hempty] at this
      exact absurd this (List.not_mem_nil g)
    have hgroups : db.classGroups.filter (fun g => !(g.cohortId == cid)) = db.classGroups := by
      apply List.filter_eq_self.mpr
      intro g hg
      rw [hnone g hg]
      rfl
    have hentries : db.entries.filter (fun e =>
        !(((db.classGroups.filter (fun g => g.cohortId == cid)).map
          (fun g => g.id)).contains e.classGroupId)) = db.entries := by
      apply List.filter_eq_self.mpr
      intro e _
      rw [hempty]
      rfl
    rw [hgroups, hentries]
  · rw [if_neg h]
    have hgroups : db.classGroups.filter (fun g =>
        !(((db.classGroups.filter (fun g => g.cohortId == cid)).map
          (fun g => g.id)).contains g.id)) =
        db.classGroups.filter (fun g => !(g.cohortId == cid)) := by
      apply List.filter_congr
      intro g hg
      refine congrArg Bool.not ?_
      cases hc : (g.cohortId == cid) with
      | true =>
        have : g ∈ db.classGroups.filter (fun g => g.cohortId == cid) :=
          List.mem_filter.mpr ⟨hg, hc⟩
        have : g.id ∈ (db.classGroups.filter (fun g => g.cohortId == cid)).map
            (fun g => g.id) := List.mem_map_of_mem _ this
        exact List.elem_eq_true_of_mem this
      | false =>
        cases hmem : ((db.classGroups.filter (fun g => g.cohortId == cid)).map
            (fun g => g.id)).contains g.id with
        | false => rfl
        | true =>
          exfalso
          have hmem' := List.mem_of_elem_eq_true hmem
          obtain ⟨g', hg', hid⟩ := List.mem_map.mp hmem'
          have hg'mem : g' ∈ db.classGroups := (List.mem_filter.mp hg').1
          have : g' = g := List.inj_on_of_nodup_map hids hg'mem hg hid
          rw [this] at hg'
          have := (List.mem_filter.mp hg').2
          rw [hc] at this
          exact absurd this (by decide)
    rw [hgroups]

/-- `createMany` for class groups appends rows with the given names, the
given cohort and consecutive fresh ids. -/
theorem createClassGroups_spec (db : Db) (cid : Nat) (names : List String) :
    createClassGroups db cid names =
      { db with
          classGroups := db.classGroups ++
            (names.enum.map (fun p => (⟨db.nextId + p.1, cid, p.2⟩ : ClassGroupRow)))
          nextId := db.nextId + names.length } := by
  unfold createClassGroups
  by_cases h : names.isEmpty
  · rw [if_pos h]
    rw [List.isEmpty_iff.mp h]
    simp
  · rw [if_neg h]

theorem createClassGroups_names (db : Db) (cid : Nat) (names : List String) :
    (names.enum.map (fun p => (⟨db.nextId + p.1, cid, p.2⟩ : ClassGroupRow))).map
      (fun g => g.name) = names := by
  rw [List.map_map]
  have hc : ((fun g : ClassGroupRow => g.name) ∘
      (fun p : Nat × String => (⟨db.nextId + p.1, cid, p.2⟩ : ClassGroupRow))) =
      Prod.snd := by
    funext p
    rfl
  rw [hc, List.enum_map_snd]

theorem createClassGroups_mem (db : Db) (cid : Nat) (names : List String) (g : ClassGroupRow)
    (hg : g ∈ names.enum.map (fun p => (⟨db.nextId + p.1, cid, p.2⟩ : ClassGroupRow))) :
    g.cohortId = cid ∧ db.nextId ≤ g.id ∧ g.id < db.nextId + names.length := by
  obtain ⟨p, hp, rfl⟩ := List.mem_map.mp hg
  refine ⟨rfl, Nat.le_add_right _ _, ?_⟩
  have hlt : p.1 < names.length := List.fst_lt_of_mem_enum hp
  show db.nextId + p.1 < db.nextId + names.length
  omega

theorem createClassGroups_ids_nodup (db : Db) (cid : Nat) (names : List String) :
    ((names.enum.map (fun p => (⟨db.nextId + p.1, cid, p.2⟩ : ClassGroupRow))).map
      (fun g => g.id)).Nodup := by
  rw [List.map_map]
  have hc : ((fun g : ClassGroupRow => g.id) ∘
      (fun p : Nat × String => (⟨db.nextId + p.1, cid, p.2⟩ : ClassGroupRow))) =
      (fun p : Nat × String => db.nextId + p.1) := by
    funext p
    rfl
  rw [hc]
  have : (fun p : Nat × String => db.nextId + p.1) =
      (fun n => db.nextId + n) ∘ Prod.fst := by
    funext p
    rfl
  rw [this, ← List.map_map, List.enum_map_fst]
  exact (List.nodup_range _).map (fun a b => by omega)

/-- `createMany` for entries: the appended rows carry the batch's fields
with consecutive fresh ids. -/
theorem appendEntries_spec (db : Db) (l : List ScheduleEntryInput) :
    appendEntries db l =
      { db with
          entries := db.entries ++ (l.enum.map (fun p =>
            (⟨db.nextId + p.1, p.2.semesterId, p.2.classGroupId, p.2.courseId, p.2.dayOfWeek,
              p.2.session, p.2.startTime, p.2.rawTime, p.2.room, p.2.sourceSheet,
              p.2.sourceRow⟩ : ScheduleEntryRow)))
          nextId := db.nextId + l.length } := by
  unfold appendEntries
  by_cases h : l.isEmpty
  · rw [if_pos h]
    rw [List.isEmpty_iff.mp h]
    simp
  · rw [if_neg h]

theorem appendEntries_mem (db : Db) (l : List ScheduleEntryInput) (e : ScheduleEntryRow)
    (he : e ∈ l.enum.map (fun p =>
      (⟨db.nextId + p.1, p.2.semesterId, p.2.classGroupId, p.2.courseId, p.2.dayOfWeek,
        p.2.session, p.2.startTime, p.2.rawTime, p.2.room, p.2.sourceSheet,
        p.2.sourceRow⟩ : ScheduleEntryRow))) :
    db.nextId ≤ e.id ∧ e.id < db.nextId + l.length ∧ stripEntryId e ∈ l := by
  obtain ⟨p, hp, rfl⟩ := List.mem_map.mp he
  have hlt : p.1 < l.length := List.fst_lt_of_mem_enum hp
  refine ⟨Nat.le_add_right _ _, by
    show db.nextId + p.1 < db.nextId + l.length
    omega, ?_⟩
  show stripEntryId _ ∈ l
  have : stripEntryId
      (⟨db.nextId + p.1, p.2.semesterId, p.2.classGroupId, p.2.courseId, p.2.dayOfWeek,
        p.2.session, p.2.startTime, p.2.rawTime, p.2.room, p.2.sourceSheet,
        p.2.sourceRow⟩ : ScheduleEntryRow) = p.2 := rfl
  rw [this]
  exact List.snd_mem_of_mem_enum hp

theorem appendEntries_ids_nodup (db : Db) (l : List ScheduleEntryInput) :
    ((l.enum.map (fun p =>
      (⟨db.nextId + p.1, p.2.semesterId, p.2.classGroupId, p.2.courseId, p.2.dayOfWeek,
        p.2.session, p.2.startTime, p.2.rawTime, p.2.room, p.2.sourceSheet,
        p.2.sourceRow⟩ : ScheduleEntryRow))).map (fun e => e.id)).Nodup := by
  rw [List.map_map]
  have hc : ((fun e : ScheduleEntryRow => e.id) ∘
      (fun p : Nat × ScheduleEntryInput =>
        (⟨db.nextId + p.1, p.2.semesterId, p.2.classGroupId, p.2.courseId, p.2.dayOfWeek,
          p.2.session, p.2.startTime, p.2.rawTime, p.2.room, p.2.sourceSheet,
          p.2.sourceRow⟩ : ScheduleEntryRow))) =
      ((fun n => db.nextId + n) ∘ Prod.fst) := by
    funext p
    rfl
  rw [hc, ← List.map_map, List.enum_map_fst]
  exact (List.nodup_range _).map (fun a b => by omega)

theorem appendEntries_cohorts (db : Db) (l : List ScheduleEntryInput) :
    (appendEntries db l).cohorts = db.cohorts := by
  rw [appendEntries_spec]

theorem appendEntries_classGroups (db : Db) (l : List ScheduleEntryInput) :
    (appendEntries db l).classGroups = db.classGroups := by
  rw [appendEntries_spec]

theorem appendEntries_semesters (db : Db) (l : List ScheduleEntryInput) :
    (appendEntries db l).semesters = db.semesters := by
  rw [appendEntries_spec]

theorem appendEntries_courses (db : Db) (l : List ScheduleEntryInput) :
    (appendEntries db l).courses = db.courses := by
  rw [appendEntries_spec]

theorem createClassGroups_cohorts (db : Db) (cid : Nat) (names : List String) :
    (createClassGroups db cid names).cohorts = db.cohorts := by
  rw [createClassGroups_spec]

theorem createClassGroups_entries (db : Db) (cid : Nat) (names : List String) :
    (createClassGroups db cid names).entries = db.entries := by
  rw [createClassGroups_spec]

theorem createClassGroups_semesters (db : Db) (cid : Nat) (names : List String) :
    (createClassGroups db cid names).semesters = db.semesters := by
  rw [createClassGroups_spec]

theorem createClassGroups_courses (db : Db) (cid : Nat) (names : List String) :
    (createClassGroups db cid names).courses = db.courses := by
  rw [createClassGroups_spec]

theorem deleteCohortGroups_cohorts (db : Db) (cid : Nat) :
    (deleteCohortGroups db cid).cohorts = db.cohorts := by
  unfold deleteCohortGroups
  by_cases h : ((db.classGroups.filter (fun g => g.cohortId == cid)).map
      (fun g => g.id)).isEmpty
  · rw [if_pos h]
  · rw [if_neg h]

theorem deleteCohortGroups_semesters (db : Db) (cid : Nat) :
    (deleteCohortGroups db cid).semesters = db.semesters := by
  unfold deleteCohortGroups
  by_cases h : ((db.classGroups.filter (fun g => g.cohortId == cid)).map
      (fun g => g.id)).isEmpty
  · rw [if_pos h]
  · rw [if_neg h]

theorem deleteCohortGroups_courses (db : Db) (cid : Nat) :
    (deleteCohortGroups db cid).courses = db.courses := by
  unfold deleteCohortGroups
  by_cases h : ((db.classGroups.filter (fun g => g.cohortId == cid)).map
      (fun g => g.id)).isEmpty
  · rw [if_pos h]
  · rw [if_neg h]

theorem deleteCohortGroups_nextId (db : Db) (cid : Nat) :
    (deleteCohortGroups db cid).nextId = db.nextId := by
  unfold deleteCohortGroups
  by_cases h : ((db.classGroups.filter (fun g => g.cohortId == cid)).map
      (fun g => g.id)).isEmpty
  · rw [if_pos h]
  · rw [if_neg h]

theorem createClassGroups_nextId (db : Db) (cid : Nat) (names : List String) :
    (createClassGroups db cid names).nextId = db.nextId + names.length := by
  rw [createClassGroups_spec]

/-- C5: re-importing a cohort is a destructive refresh. When the cohort
row already exists, the upsert returns it and writes nothing (the
cohorts table is unchanged by the whole sheet); the cohort's previous
class groups all disappear and are replaced by rows created purely from
the new parse (the sorted distinct class-group names of the sheet's
events); the schedule entries that referenced the previous groups are
deleted, and every entry row present afterwards beyond the survivors is
freshly created. -/
theorem cohort_reimport_destructive_refresh
    (semesterId : Nat) (acc : ImportAcc) (sheet : ParsedSheetData) (c : CohortRow)
    (hwf : WellFormed acc.db) (hc : c ∈ acc.db.cohorts)
    (hsem : c.semesterId = semesterId) (hcode : c.code = sheet.cohortCode) :
    (upsertCohort acc.db semesterId sheet.cohortCode).2 = c.id ∧
    (processSheet semesterId acc sheet).db.cohorts = acc.db.cohorts ∧
    (∃ fresh,
      (processSheet semesterId acc sheet).db.classGroups =
        acc.db.classGroups.filter (fun g => !(g.cohortId == c.id)) ++ fresh ∧
      fresh.map (fun g => g.name) = groupNamesOf sheet ∧
      ∀ g ∈ fresh, g.cohortId = c.id ∧ acc.db.nextId ≤ g.id) ∧
    (∃ newEntries,
      (processSheet semesterId acc sheet).db.entries =
        acc.db.entries.filter (fun e =>
          !(((acc.db.classGroups.filter (fun g => g.cohortId == c.id)).map
            (fun g => g.id)).contains e.classGroupId)) ++ newEntries ∧
      ∀ e ∈ newEntries, acc.db.nextId ≤ e.id) := by
  have hup := upsertCohort_found acc.db semesterId sheet.cohortCode c
    hwf.cohortKeysNodup hc hsem hcode
  have hdel := deleteCohortGroups_spec acc.db c.id hwf.groupIdsNodup
  have hdb3 : dbAfterGroups semesterId acc.db sheet =
      createClassGroups (deleteCohortGroups acc.db c.id) c.id (groupNamesOf sheet) := by
    have hdef : dbAfterGroups semesterId acc.db sheet =
        createClassGroups
          (deleteCohortGroups (upsertCohort acc.db semesterId sheet.cohortCode).1
            (upsertCohort acc.db semesterId sheet.cohortCode).2)
          (upsertCohort acc.db semesterId sheet.cohortCode).2 (groupNamesOf sheet) := rfl
    rw [hdef, hup]
  obtain ⟨ed, hPdb⟩ : ∃ ed, (processSheet semesterId acc sheet).db =
      appendEntries (courseUpserts (dbAfterGroups semesterId acc.db sheet) sheet) ed :=
    ⟨_, rfl⟩
  have hnext3 : acc.db.nextId ≤ (dbAfterGroups semesterId acc.db sheet).nextId := by
    rw [hdb3, createClassGroups_nextId, deleteCohortGroups_nextId]
    exact Nat.le_add_right _ _
  have hnext4 : acc.db.nextId ≤
      (courseUpserts (dbAfterGroups semesterId acc.db sheet) sheet).nextId := by
    rw [courseUpserts_eq]
    exact le_trans hnext3 (foldl_upsertCourse_nextId_le _ _ _)
  refine ⟨by rw [hup], ?_, ?_, ?_⟩
  · rw [hPdb, appendEntries_cohorts, courseUpserts_eq, foldl_upsertCourse_cohorts, hdb3,
      createClassGroups_cohorts, deleteCohortGroups_cohorts]
  · refine ⟨(groupNamesOf sheet).enum.map (fun p =>
      (⟨(deleteCohortGroups acc.db c.id).nextId + p.1, c.id, p.2⟩ : ClassGroupRow)), ?_, ?_, ?_⟩
    · rw [hPdb, appendEntries_classGroups, courseUpserts_eq, foldl_upsertCourse_classGroups,
        hdb3, createClassGroups_spec]
      show (deleteCohortGroups acc.db c.id).classGroups ++ _ = _
      rw [hdel]
    · exact createClassGroups_names _ c.id (groupNamesOf sheet)
    · intro g hg
      obtain ⟨h1, h2, _⟩ := createClassGroups_mem _ c.id (groupNamesOf sheet) g hg
      rw [deleteCohortGroups_nextId] at h2
      exact ⟨h1, h2⟩
  · have hEnt : (processSheet semesterId acc sheet).db.entries =
        acc.db.entries.filter (fun e =>
          !(((acc.db.classGroups.filter (fun g => g.cohortId == c.id)).map
            (fun g => g.id)).contains e.classGroupId)) ++
        (ed.enum.map (fun p =>
          (⟨(courseUpserts (dbAfterGroups semesterId acc.db sheet) sheet).nextId + p.1,
            p.2.semesterId, p.2.classGroupId, p.2.courseId, p.2.dayOfWeek, p.2.session,
            p.2.startTime, p.2.rawTime, p.2.room, p.2.sourceSheet,
            p.2.sourceRow⟩ : ScheduleEntryRow))) := by
      rw [hPdb, appendEntries_spec]
      show (courseUpserts (dbAfterGroups semesterId acc.db sheet) sheet).entries ++ _ = _
      rw [courseUpserts_eq, foldl_upsertCourse_entries, hdb3, createClassGroups_entries]
      show (deleteCohortGroups acc.db c.id).entries ++ _ = _
      rw [hdel]
    refine ⟨_, hEnt, ?_⟩
    intro e he
    obtain ⟨h1, _, _⟩ := appendEntries_mem
      (courseUpserts (dbAfterGroups semesterId acc.db sheet) sheet) ed e he
    exact le_trans hnext4 h1

/-- A re-import of cohort `K47` on a one-cohort store satisfies the
destructive-refresh description. -/
theorem cohort_reimport_destructive_refresh_witness :
    (upsertCohort
        (⟨[⟨0, "2025A", "Fall", "f.xlsx", none, none⟩], [⟨1, 0, "K47"⟩],
          [⟨2, 1, "IT 01"⟩], [⟨3, "CS 2255", none, none, none, none⟩],
          [⟨4, 0, 2, 3, DayOfWeek.MON, SessionPeriod.MORNING, some "07:30", some "07:30",
            some "B1", "S", 9⟩], 5⟩ : Db) 0 "K47").2 = 1 ∧
    (processSheet 0
        ⟨⟨[⟨0, "2025A", "Fall", "f.xlsx", none, none⟩], [⟨1, 0, "K47"⟩],
          [⟨2, 1, "IT 01"⟩], [⟨3, "CS 2255", none, none, none, none⟩],
          [⟨4, 0, 2, 3, DayOfWeek.MON, SessionPeriod.MORNING, some "07:30", some "07:30",
            some "B1", "S", 9⟩], 5⟩, 0, 0, []⟩
        ⟨"S", "K47", "Fall", "2025A", none, none,
          [⟨"IT 02", DayOfWeek.MON, SessionPeriod.MORNING, some "07:30", some "07:30",
            some "B1", "CS 2255", "S", 9⟩], []⟩).db.cohorts = [⟨1, 0, "K47"⟩] ∧
    (∃ fresh,
      (processSheet 0
          ⟨⟨[⟨0, "2025A", "Fall", "f.xlsx", none, none⟩], [⟨1, 0, "K47"⟩],
            [⟨2, 1, "IT 01"⟩], [⟨3, "CS 2255", none, none, none, none⟩],
            [⟨4, 0, 2, 3, DayOfWeek.MON, SessionPeriod.MORNING, some "07:30", some "07:30",
              some "B1", "S", 9⟩], 5⟩, 0, 0, []⟩
          ⟨"S", "K47", "Fall", "2025A", none, none,
            [⟨"IT 02", DayOfWeek.MON, SessionPeriod.MORNING, some "07:30", some "07:30",
              some "B1", "CS 2255", "S", 9⟩], []⟩).db.classGroups =
        ([⟨2, 1, "IT 01"⟩] : List ClassGroupRow).filter (fun g => !(g.cohortId == 1)) ++
          fresh ∧
      fresh.map (fun g => g.name) =
        groupNamesOf ⟨"S", "K47", "Fall", "2025A", none, none,
          [⟨"IT 02", DayOfWeek.MON, SessionPeriod.MORNING, some "07:30", some "07:30",
            some "B1", "CS 2255", "S", 9⟩], []⟩ ∧
      ∀ g ∈ fresh, g.cohortId = 1 ∧ 5 ≤ g.id) ∧
    (∃ newEntries,
      (processSheet 0
          ⟨⟨[⟨0, "2025A", "Fall", "f.xlsx", none, none⟩], [⟨1, 0, "K47"⟩],
            [⟨2, 1, "IT 01"⟩], [⟨3, "CS 2255", none, none, none, none⟩],
            [⟨4, 0, 2, 3, DayOfWeek.MON, SessionPeriod.MORNING, some "07:30", some "07:30",
              some "B1", "S", 9⟩], 5⟩, 0, 0, []⟩
          ⟨"S", "K47", "Fall", "2025A", none, none,
            [⟨"IT 02", DayOfWeek.MON, SessionPeriod.MORNING, some "07:30", some "07:30",
              some "B1", "CS 2255", "S", 9⟩], []⟩).db.entries =
        ([⟨4, 0, 2, 3, DayOfWeek.MON, SessionPeriod.MORNING, some "07:30", some "07:30",
            some "B1", "S", 9⟩] : List ScheduleEntryRow).filter (fun e =>
          !((([⟨2, 1, "IT 01"⟩] : List ClassGroupRow).filter
              (fun g => g.cohortId == 1)).map (fun g => g.id)).contains e.classGroupId) ++
          newEntries ∧
      ∀ e ∈ newEntries, 5 ≤ e.id) :=
  cohort_reimport_destructive_refresh 0
    ⟨⟨[⟨0, "2025A", "Fall", "f.xlsx", none, none⟩], [⟨1, 0, "K47"⟩],
      [⟨2, 1, "IT 01"⟩], [⟨3, "CS 2255", none, none, none, none⟩],
      [⟨4, 0, 2, 3, DayOfWeek.MON, SessionPeriod.MORNING, some "07:30", some "07:30",
        some "B1", "S", 9⟩], 5⟩, 0, 0, []⟩
    ⟨"S", "K47", "Fall", "2025A", none, none,
      [⟨"IT 02", DayOfWeek.MON, SessionPeriod.MORNING, some "07:30", some "07:30",
        some "B1", "CS 2255", "S", 9⟩], []⟩
    ⟨1, 0, "K47"⟩
    ⟨by decide, by decide, by decide, by decide, by decide, by decide, by decide, by decide,
      by decide, by decide, by decide, by decide, by decide, by decide⟩
    (by decide) rfl rfl

/-! ### Generic list lemmas for the import development -/

theorem dedupFirstAux_congr_seen {α : Type} [DecidableEq α] (l : List α) :
    ∀ s1 s2 : List α, (∀ a, a ∈ s1 ↔ a ∈ s2) →
      dedupFirstAux s1 l = dedupFirstAux s2 l := by
  induction l with
  | nil => intro s1 s2 _; rfl
  | cons x xs ih =>
    intro s1 s2 h
    by_cases hx : x ∈ s1
    · rw [dedupFirstAux, if_pos hx, dedupFirstAux, if_pos ((h x).mp hx)]
      exact ih s1 s2 h
    · rw [dedupFirstAux, if_neg hx, dedupFirstAux, if_neg (fun hc => hx ((h x).mpr hc))]
      refine congrArg _ (ih _ _ ?_)
      intro a
      simp only [List.mem_cons]
      rw [h a]

theorem dedupFirstAux_append {α : Type} [DecidableEq α] (A B : List α) :
    ∀ seen, dedupFirstAux seen (A ++ B) =
      dedupFirstAux seen A ++ dedupFirstAux (A ++ seen) B := by
  induction A with
  | nil => intro seen; rfl
  | cons x A' ih =>
    intro seen
    by_cases hx : x ∈ seen
    · rw [List.cons_append, dedupFirstAux, if_pos hx, dedupFirstAux, if_pos hx, ih]
      refine congrArg _ (dedupFirstAux_congr_seen B _ _ ?_)
      intro a
      simp only [List.mem_append, List.mem_cons]
      constructor
      · rintro (h | h)
        · exact Or.inl (Or.inr h)
        · exact Or.inr h
      · rintro (⟨h | h⟩ | h)
        · rw [h]; exact Or.inr hx
        · exact Or.inl h
        · exact Or.inr h
    · rw [List.cons_append, dedupFirstAux, if_neg hx, dedupFirstAux, if_neg hx, ih,
        List.cons_append]
      refine congrArg _ (congrArg _ (dedupFirstAux_congr_seen B _ _ ?_))
      intro a
      simp only [List.mem_append, List.mem_cons]
      constructor
      · rintro (h | h | h)
        · exact Or.inl (Or.inr h)
        · exact Or.inl (Or.inl h)
        · exact Or.inr h
      · rintro (⟨h | h⟩ | h)
        · exact Or.inr (Or.inl h)
        · exact Or.inl h
        · exact Or.inr (Or.inr h)

theorem dedupFirstAux_eq_filter {α : Type} [DecidableEq α] (B : List α) (hB : B.Nodup) :
    ∀ seen, dedupFirstAux seen B = B.filter (fun b => !(seen.contains b)) := by
  induction B with
  | nil => intro seen; rfl
  | cons b B' ih =>
    intro seen
    have hB' : B'.Nodup := hB.of_cons
    have hbB' : b ∉ B' := by
      intro hc
      exact (List.nodup_cons.mp hB).1 hc
    by_cases hb : b ∈ seen
    · rw [dedupFirstAux, if_pos hb, List.filter_cons_of_neg (by simp [hb]), ih hB']
    · rw [dedupFirstAux, if_neg hb, List.filter_cons_of_pos (by simp [hb]), ih hB']
      refine congrArg _ (List.filter_congr ?_)
      intro a ha
      have hab : a ≠ b := fun hc => hbB' (hc ▸ ha)
      simp only [List.contains_cons]
      rw [show (a == b) = false from beq_eq_false_iff_ne.mpr hab]
      rw [Bool.false_or]

theorem dedupFirst_append_right_nodup {α : Type} [DecidableEq α] (A B : List α)
    (hB : B.Nodup) :
    dedupFirst (A ++ B) = dedupFirst A ++ B.filter (fun b => !(A.contains b)) := by
  rw [dedupFirst, dedupFirstAux_append, dedupFirstAux_eq_filter B hB]
  rw [dedupFirst]
  refine congrArg _ (List.filter_congr ?_)
  intro a _
  rw [List.append_nil]

/-- `updateFirstWhere` with an update that fixes every matching element
is the identity. -/
theorem updateFirstWhere_eq_self {α : Type} (p : α → Bool) (f : α → α) (l : List α)
    (h : ∀ a ∈ l, p a = true → f a = a) : updateFirstWhere p f l = l := by
  induction l with
  | nil => rfl
  | cons x xs ih =>
    by_cases hx : p x = true
    · rw [updateFirstWhere, if_pos hx, h x (List.mem_cons_self x xs) hx]
    · rw [updateFirstWhere, if_neg hx]
      refine congrArg _ (ih ?_)
      intro a ha hpa
      exact h a (List.mem_cons_of_mem x ha) hpa

/-- With at most one matching element, `updateFirstWhere` is the
pointwise conditional map. -/
theorem updateFirstWhere_eq_map {α : Type} (p : α → Bool) (f : α → α) (l : List α)
    (h : (l.filter p).length ≤ 1) :
    updateFirstWhere p f l = l.map (fun a => if p a then f a else a) := by
  induction l with
  | nil => rfl
  | cons x xs ih =>
    rw [updateFirstWhere]
    by_cases hx : p x = true
    · rw [if_pos hx, List.map_cons, if_pos hx]
      refine congrArg _ ?_
      have hempty : xs.filter p = [] := by
        rw [List.filter_cons_of_pos hx] at h
        cases hfil : xs.filter p with
        | nil => rfl
        | cons y ys =>
          rw [hfil] at h
          simp at h
      have : ∀ a ∈ xs, p a = false := by
        intro a ha
        by_contra hc
        have hpa : p a = true := by
          cases hp : p a with
          | false => exact absurd hp hc
          | true => rfl
        have : a ∈ xs.filter p := List.mem_filter.mpr ⟨ha, hpa⟩
        rw [hempty] at this
        exact absurd this (List.not_mem_nil a)
      conv_lhs => rw [show xs = xs.map id from (List.map_id xs).symm]
      refine List.map_congr_left ?_
      intro a ha
      rw [if_neg (by rw [this a ha]; exact Bool.false_ne_true), id]
    · rw [if_neg hx, List.map_cons, if_neg hx]
      refine congrArg _ (ih ?_)
      rw [List.filter_cons_of_neg (by
        cases hp : p x with
        | false => exact Bool.false_ne_true
        | true => exact absurd hp hx)] at h
      exact h

/-- Mapping with a function that fixes the search key commutes with the
keyed projection of `updateFirstWhere`. -/
theorem map_updateFirstWhere_of_preserve {α β : Type} (p : α → Bool) (f : α → α)
    (g : α → β) (l : List α) (h : ∀ a, g (f a) = g a) :
    (updateFirstWhere p f l).map g = l.map g := by
  induction l with
  | nil => rfl
  | cons x xs ih =>
    by_cases hx : p x = true
    · rw [updateFirstWhere, if_pos hx, List.map_cons, List.map_cons, h x]
    · rw [updateFirstWhere, if_neg hx, List.map_cons, List.map_cons, ih]

/-- In a list with duplicate-free keys, `find?` by a member's key finds
that member. -/
theorem find?_key_of_mem {α : Type} {β : Type} [DecidableEq β] (f : α → β) (l : List α)
    (a : α) (ha : a ∈ l) (hnd : (l.map f).Nodup) :
    l.find? (fun x => f x == f a) = some a := by
  induction l with
  | nil => exact absurd ha (List.not_mem_nil a)
  | cons x xs ih =>
    rcases List.mem_cons.mp ha with h | h
    · rw [h]
      rw [List.find?_cons_of_pos _ (by simp)]
    · have hxa : f x ≠ f a := by
        intro hc
        have : f a ∈ xs.map f := List.mem_map_of_mem f h
        rw [← hc] at this
        exact (List.nodup_cons.mp (by rw [List.map_cons] at hnd; exact hnd)).1 this
      rw [List.find?_cons_of_neg _ (by simp [hxa])]
      exact ih h (by rw [List.map_cons] at hnd; exact hnd.of_cons)

/-- Aligning filters across a `Forall₂`: if aligned elements agree on
being kept, the filtered lists stay aligned. -/
theorem forall₂_filter {α β : Type} (R : α → β → Prop) (p : α → Bool) (q : β → Bool)
    (l₁ : List α) (l₂ : List β) (h : List.Forall₂ R l₁ l₂)
    (hpq : ∀ a b, R a b → p a = q b) :
    List.Forall₂ R (l₁.filter p) (l₂.filter q) := by
  induction h with
  | nil => exact List.Forall₂.nil
  | cons hR hrest ih =>
    rename_i a b l₁' l₂'
    by_cases hp : p a = true
    · rw [List.filter_cons_of_pos hp, List.filter_cons_of_pos (by rw [← hpq a b hR]; exact hp)]
      exact List.Forall₂.cons hR ih
    · have hp' : p a = false := by
        cases hpa : p a with
        | false => rfl
        | true => exact absurd hpa hp
      rw [List.filter_cons_of_neg (by rw [hp']; exact Bool.false_ne_true),
        List.filter_cons_of_neg (by rw [← hpq a b hR, hp']; exact Bool.false_ne_true)]
      exact ih

/-- A `Forall₂` whose relation is pointwise monotone transports to a
weaker relation. -/
theorem forall₂_mono {α β : Type} {R S : α → β → Prop} {l₁ : List α} {l₂ : List β}
    (h : List.Forall₂ R l₁ l₂) (hRS : ∀ a b, R a b → S a b) :
    List.Forall₂ S l₁ l₂ := by
  induction h with
  | nil => exact List.Forall₂.nil
  | cons hR _ ih => exact List.Forall₂.cons (hRS _ _ hR) ih

/-- The two behaviours of the cohort upsert. -/
theorem upsertCohort_cases (db : Db) (semId : Nat) (code : String) :
    (∃ c, c ∈ db.cohorts ∧ c.semesterId = semId ∧ c.code = code ∧
      upsertCohort db semId code = (db, c.id)) ∨
    ((∀ c ∈ db.cohorts, ¬(c.semesterId = semId ∧ c.code = code)) ∧
      upsertCohort db semId code =
        ({ db with
            cohorts := db.cohorts ++ [⟨db.nextId, semId, code⟩]
            nextId := db.nextId + 1 }, db.nextId)) := by
  unfold upsertCohort
  cases hf : db.cohorts.find? (fun c => c.semesterId == semId && c.code == code) with
  | none =>
    right
    refine ⟨?_, rfl⟩
    rintro c hc ⟨h1, h2⟩
    have := List.find?_eq_none.mp hf c hc
    simp [h1, h2] at this
  | some c =>
    left
    have hp := List.find?_some hf
    simp only [Bool.and_eq_true, beq_iff_eq] at hp
    exact ⟨c, List.mem_of_find?_eq_some hf, hp.1, hp.2, rfl⟩

theorem applyCourseMeta_id (m : Option ParsedCourseMeta) (c : CourseRow) :
    (applyCourseMeta m c).id = c.id := rfl

theorem applyCourseMeta_code (m : Option ParsedCourseMeta) (c : CourseRow) :
    (applyCourseMeta m c).code = c.code := rfl

theorem courseRowFold_id (ops : List (Option ParsedCourseMeta)) :
    ∀ c : CourseRow, (courseRowFold c ops).id = c.id := by
  induction ops with
  | nil => intro c; rfl
  | cons m rest ih =>
    intro c
    rw [courseRowFold, List.foldl_cons]
    exact ih (applyCourseMeta m c)

theorem courseRowFold_code (ops : List (Option ParsedCourseMeta)) :
    ∀ c : CourseRow, (courseRowFold c ops).code = c.code := by
  induction ops with
  | nil => intro c; rfl
  | cons m rest ih =>
    intro c
    rw [courseRowFold, List.foldl_cons]
    exact ih (applyCourseMeta m c)

theorem courseRowFold_append (c : CourseRow) (ops₁ ops₂ : List (Option ParsedCourseMeta)) :
    courseRowFold c (ops₁ ++ ops₂) = courseRowFold (courseRowFold c ops₁) ops₂ := by
  rw [courseRowFold, List.foldl_append]
  rfl

theorem courseRowFold_field {α : Type} (sel : ParsedCourseMeta → Option α)
    (get : CourseRow → Option α)
    (hstep : ∀ m c, get (applyCourseMeta m c) = orKeep (m.bind sel) (get c))
    (ops : List (Option ParsedCourseMeta)) :
    ∀ c : CourseRow, get (courseRowFold c ops) =
      ops.foldl (fun v m => orKeep (m.bind sel) v) (get c) := by
  induction ops with
  | nil => intro c; rfl
  | cons m rest ih =>
    intro c
    rw [courseRowFold, List.foldl_cons, List.foldl_cons, ← hstep]
    exact ih (applyCourseMeta m c)

theorem foldl_orKeep_idem {α β : Type} (h : β → Option α) (ms : List β) :
    ∀ v : Option α,
      ms.foldl (fun v m => orKeep (h m) v) (ms.foldl (fun v m => orKeep (h m) v) v) =
        ms.foldl (fun v m => orKeep (h m) v) v := by
  induction ms using List.reverseRecOn with
  | nil => intro v; rfl
  | append_singleton ms m ih =>
    intro v
    rw [List.foldl_append, List.foldl_append]
    simp only [List.foldl_cons, List.foldl_nil]
    cases hm : h m with
    | some a => rfl
    | none =>
      have horkeep : ∀ x : Option α, orKeep none x = x := fun x => rfl
      rw [horkeep, horkeep]
      exact ih v

theorem courseRow_ext (a b : CourseRow) (h1 : a.id = b.id) (h2 : a.code = b.code)
    (h3 : a.nameEn = b.nameEn) (h4 : a.nameVi = b.nameVi) (h5 : a.credits = b.credits)
    (h6 : a.prerequisite = b.prerequisite) : a = b := by
  cases a
  cases b
  simp only at h1 h2 h3 h4 h5 h6
  rw [h1, h2, h3, h4, h5, h6]

/-- Re-applying the same metadata fold changes nothing (per field, the
last supplied value wins and survives a replay). -/
theorem courseRowFold_idem (c : CourseRow) (ops : List (Option ParsedCourseMeta)) :
    courseRowFold (courseRowFold c ops) ops = courseRowFold c ops := by
  refine courseRow_ext _ _ ?_ ?_ ?_ ?_ ?_ ?_
  · rw [courseRowFold_id, courseRowFold_id]
  · rw [courseRowFold_code, courseRowFold_code]
  · rw [courseRowFold_field (fun x => x.nameEn) (fun c => c.nameEn) (fun m c => rfl),
      courseRowFold_field (fun x => x.nameEn) (fun c => c.nameEn) (fun m c => rfl)]
    exact foldl_orKeep_idem _ ops _
  · rw [courseRowFold_field (fun x => x.nameVi) (fun c => c.nameVi) (fun m c => rfl),
      courseRowFold_field (fun x => x.nameVi) (fun c => c.nameVi) (fun m c => rfl)]
    exact foldl_orKeep_idem _ ops _
  · rw [courseRowFold_field (fun x => x.credits) (fun c => c.credits) (fun m c => rfl),
      courseRowFold_field (fun x => x.credits) (fun c => c.credits) (fun m c => rfl)]
    exact foldl_orKeep_idem _ ops _
  · rw [courseRowFold_field (fun x => x.prerequisite) (fun c => c.prerequisite)
      (fun m c => rfl),
      courseRowFold_field (fun x => x.prerequisite) (fun c => c.prerequisite)
      (fun m c => rfl)]
    exact foldl_orKeep_idem _ ops _

theorem mem_deadCohortIds (base : Db) (semId : Nat) (P : List ParsedSheetData) (x : Nat) :
    x ∈ deadCohortIds base semId P ↔ ∃ c ∈ base.cohorts, c.id = x ∧ c.semesterId = semId ∧
      P.any (fun s => s.cohortCode == c.code) = true := by
  unfold deadCohortIds
  simp only [List.mem_map, List.mem_filter, Bool.and_eq_true, beq_iff_eq]
  constructor
  · rintro ⟨c, ⟨hc, h1, h2⟩, h3⟩
    exact ⟨c, hc, h3, h1, h2⟩
  · rintro ⟨c, hc, h3, h1, h2⟩
    exact ⟨c, ⟨hc, h1, h2⟩, h3⟩

theorem mem_deadGroupIds (base : Db) (semId : Nat) (P : List ParsedSheetData) (x : Nat) :
    x ∈ deadGroupIds base semId P ↔ ∃ g ∈ base.classGroups, g.id = x ∧
      g.cohortId ∈ deadCohortIds base semId P := by
  unfold deadGroupIds
  simp only [List.mem_map, List.mem_filter]
  constructor
  · rintro ⟨g, ⟨hg, h1⟩, h2⟩
    exact ⟨g, hg, h2, List.mem_of_elem_eq_true h1⟩
  · rintro ⟨g, hg, h2, h1⟩
    exact ⟨g, ⟨hg, List.elem_eq_true_of_mem h1⟩, h2⟩

theorem lastOccSheets_append_singleton (P : List ParsedSheetData) (s : ParsedSheetData) :
    lastOccSheets (P ++ [s]) =
      (lastOccSheets P).filter (fun t => !(t.cohortCode == s.cohortCode)) ++ [s] := by
  rw [lastOccSheets, List.foldl_append]
  rfl

theorem mem_of_mem_lastOccSheets (P : List ParsedSheetData) (t : ParsedSheetData)
    (h : t ∈ lastOccSheets P) : t ∈ P := by
  have aux : ∀ (P : List ParsedSheetData) (init : List ParsedSheetData),
      t ∈ P.foldl (fun acc s =>
        acc.filter (fun u => !(u.cohortCode == s.cohortCode)) ++ [s]) init →
      t ∈ init ∨ t ∈ P := by
    intro P
    induction P with
    | nil => intro init h; exact Or.inl h
    | cons s P' ih =>
      intro init h
      rw [List.foldl_cons] at h
      rcases ih _ h with h' | h'
      · rcases List.mem_append.mp h' with h'' | h''
        · exact Or.inl (List.mem_filter.mp h'').1
        · rcases List.mem_singleton.mp h'' with rfl
          exact Or.inr (List.mem_cons_self _ _)
      · exact Or.inr (List.mem_cons_of_mem _ h')
  rcases aux P [] h with h' | h'
  · exact absurd h' (List.not_mem_nil t)
  · exact h'

theorem mem_insertSorted (x y : String) (l : List String) :
    x ∈ insertSorted y l ↔ x = y ∨ x ∈ l := by
  induction l with
  | nil => simp [insertSorted]
  | cons z zs ih =>
    rw [insertSorted]
    by_cases h : leChars y.data z.data = true
    · rw [if_pos h]
      simp
    · rw [if_neg h]
      simp only [List.mem_cons, ih]
      tauto

theorem mem_sortStrings (l : List String) (x : String) :
    x ∈ sortStrings l ↔ x ∈ l := by
  induction l with
  | nil => simp [sortStrings]
  | cons y ys ih =>
    rw [sortStrings, List.foldr_cons]
    rw [show List.foldr insertSorted [] ys = sortStrings ys from rfl]
    rw [mem_insertSorted, ih, List.mem_cons]

/-- The two behaviours of the course upsert (under unique codes): update
the unique row in place, or append a fresh row. -/
theorem upsertCourse_char (db : Db) (code : String) (meta : Option ParsedCourseMeta)
    (hcodes : (db.courses.map (fun c => c.code)).Nodup) :
    ((db.courses.map (fun c => c.code)).contains code = true ∧
      upsertCourse db code meta =
        { db with
            courses := db.courses.map
              (fun c => if c.code == code then applyCourseMeta meta c else c) }) ∨
    ((db.courses.map (fun c => c.code)).contains code = false ∧
      upsertCourse db code meta =
        { db with
            courses := db.courses ++ [applyCourseMeta meta (blankCourse db.nextId code)]
            nextId := db.nextId + 1 }) := by
  unfold upsertCourse
  cases hf : db.courses.find? (fun c => c.code == code) with
  | none =>
    right
    refine ⟨?_, rfl⟩
    cases hc : (db.courses.map (fun c => c.code)).contains code with
    | false => rfl
    | true =>
      exfalso
      obtain ⟨c, hcmem, hcc⟩ := List.mem_map.mp (List.mem_of_elem_eq_true hc)
      have := List.find?_eq_none.mp hf c hcmem
      simp [hcc] at this
  | some c =>
    left
    have hcmem : c ∈ db.courses := List.mem_of_find?_eq_some hf
    have hcc : c.code = code := by
      have := List.find?_some hf
      simpa using this
    refine ⟨List.elem_eq_true_of_mem (List.mem_map.mpr ⟨c, hcmem, hcc⟩), ?_⟩
    have hle : (db.courses.filter (fun c => c.code == code)).length ≤ 1 := by
      rw [← List.countP_eq_length_filter]
      have h2 := List.nodup_iff_count_le_one.mp hcodes code
      rw [List.count, List.countP_map] at h2
      calc List.countP (fun c : CourseRow => c.code == code) db.courses
          = List.countP ((fun y => y == code) ∘ (fun c : CourseRow => c.code))
              db.courses := by
            refine List.countP_congr ?_
            intro a _
            rfl
        _ ≤ 1 := h2
    rw [updateFirstWhere_eq_map _ _ _ hle]

theorem list_contains_append {α : Type} [BEq α] (l1 l2 : List α) (x : α) :
    (l1 ++ l2).contains x = (l1.contains x || l2.contains x) := by
  induction l1 with
  | nil => simp [List.contains_cons]
  | cons a l ih =>
    rw [List.cons_append, List.contains_cons, List.contains_cons, ih, Bool.or_assoc]

/-- Characterization of one sheet's course-upsert loop over a
duplicate-free code list: existing rows get the sheet's metadata applied
in place; missing codes get fresh rows carrying the metadata applied to
a blank row, in first-occurrence order, with fresh distinct ids. -/
theorem foldl_upsertCourse_char (f : String → Option ParsedCourseMeta) :
    ∀ (codes : List String) (db : Db), codes.Nodup →
      (db.courses.map (fun c => c.code)).Nodup →
    ∃ created,
      (codes.foldl (fun db code => upsertCourse db code (f code)) db).courses =
        db.courses.map (fun c =>
          if codes.contains c.code then applyCourseMeta (f c.code) c else c) ++ created ∧
      created.map (fun c => c.code) =
        codes.filter (fun code => !((db.courses.map (fun c => c.code)).contains code)) ∧
      (∀ r ∈ created, r = applyCourseMeta (f r.code) (blankCourse r.id r.code) ∧
        db.nextId ≤ r.id ∧
        r.id < (codes.foldl (fun db code => upsertCourse db code (f code)) db).nextId) ∧
      (created.map (fun c => c.id)).Nodup := by
  intro codes
  induction codes with
  | nil =>
    intro db _ _
    refine ⟨[], ?_, rfl, ?_, List.nodup_nil⟩
    · rw [List.foldl_nil, List.append_nil]
      have : db.courses.map (fun c =>
          if ([] : List String).contains c.code then applyCourseMeta (f c.code) c else c) =
          db.courses.map (fun c => c) := by
        refine List.map_congr_left ?_
        intro c _
        rfl
      rw [this, List.map_id']
    · intro r hr
      exact absurd hr (List.not_mem_nil r)
  | cons code0 rest ih =>
    intro db hnd hcodes
    have hnd0 : code0 ∉ rest := (List.nodup_cons.mp hnd).1
    have hndrest : rest.Nodup := (List.nodup_cons.mp hnd).2
    rw [List.foldl_cons]
    rcases upsertCourse_char db code0 (f code0) hcodes with ⟨hpresent, heq⟩ | ⟨habsent, heq⟩
    · -- the code already has a row: in-place update
      have hcourses : (upsertCourse db code0 (f code0)).courses =
          db.courses.map (fun c => if c.code == code0 then applyCourseMeta (f code0) c
            else c) := by rw [heq]
      have hnext : (upsertCourse db code0 (f code0)).nextId = db.nextId := by rw [heq]
      have hcodes' : ((upsertCourse db code0 (f code0)).courses.map
          (fun c => c.code)).Nodup := by
        rw [hcourses, List.map_map]
        have : ((fun c : CourseRow => c.code) ∘ (fun c =>
            if c.code == code0 then applyCourseMeta (f code0) c else c)) =
            (fun c : CourseRow => c.code) := by
          funext c
          show (if c.code == code0 then applyCourseMeta (f code0) c else c).code = c.code
          by_cases h : (c.code == code0) = true
          · rw [if_pos h, applyCourseMeta_code]
          · rw [if_neg h]
        rw [this]
        exact hcodes
      obtain ⟨created, h1, h2, h3, h4⟩ :=
        ih (upsertCourse db code0 (f code0)) hndrest hcodes'
      refine ⟨created, ?_, ?_, ?_, h4⟩
      · rw [h1, hcourses, List.map_map]
        refine congrArg₂ _ (List.map_congr_left ?_) rfl
        intro c hc
        show (fun a => if rest.contains a.code = true then applyCourseMeta (f a.code) a
            else a) (if c.code == code0 then applyCourseMeta (f code0) c else c) = _
        by_cases h : (c.code == code0) = true
        · rw [if_pos h]
          have hc0 : c.code = code0 := by simpa using h
          have hcode : (applyCourseMeta (f code0) c).code = code0 := by
            rw [applyCourseMeta_code, hc0]
          show (if rest.contains (applyCourseMeta (f code0) c).code = true
              then applyCourseMeta (f (applyCourseMeta (f code0) c).code)
                (applyCourseMeta (f code0) c)
              else applyCourseMeta (f code0) c) = _
          rw [if_neg (by
            rw [hcode]
            intro hcon
            exact hnd0 (List.mem_of_elem_eq_true hcon))]
          rw [if_pos (by
            rw [List.contains_cons]
            rw [show (c.code == code0) = true from h]
            rfl)]
          rw [hc0]
        · rw [if_neg h]
          show (if rest.contains c.code = true then applyCourseMeta (f c.code) c else c) = _
          rw [List.contains_cons]
          have hbeq : (c.code == code0) = false := by
            cases hb : (c.code == code0) with
            | false => rfl
            | true => exact absurd hb h
          rw [hbeq, Bool.false_or]
      · rw [h2]
        have hsame : (upsertCourse db code0 (f code0)).courses.map (fun c => c.code) =
            db.courses.map (fun c => c.code) := by
          rw [hcourses, List.map_map]
          refine List.map_congr_left ?_
          intro c _
          show (if c.code == code0 then applyCourseMeta (f code0) c else c).code = c.code
          by_cases h : (c.code == code0) = true
          · rw [if_pos h, applyCourseMeta_code]
          · rw [if_neg h]
        rw [hsame]
        rw [List.filter_cons_of_neg (by rw [hpresent]; decide)]
      · intro r hr
        obtain ⟨ha, hb, hc⟩ := h3 r hr
        rw [hnext] at hb
        exact ⟨ha, hb, hc⟩
    · -- fresh code: a new row is appended, then updated by later sheets
      have hcourses : (upsertCourse db code0 (f code0)).courses =
          db.courses ++ [applyCourseMeta (f code0) (blankCourse db.nextId code0)] := by
        rw [heq]
      have hnext : (upsertCourse db code0 (f code0)).nextId = db.nextId + 1 := by rw [heq]
      have hnewcode : (applyCourseMeta (f code0) (blankCourse db.nextId code0)).code =
          code0 := rfl
      have hnewid : (applyCourseMeta (f code0) (blankCourse db.nextId code0)).id =
          db.nextId := rfl
      have hcodes' : ((upsertCourse db code0 (f code0)).courses.map
          (fun c => c.code)).Nodup := by
        rw [hcourses, List.map_append]
        rw [List.map_singleton, hnewcode]
        rw [show (db.courses.map (fun c => c.code)) ++ [code0] =
          ((db.courses.map (fun c => c.code)).concat code0) from
            (List.concat_eq_append _ _).symm]
        refine List.Nodup.concat ?_ hcodes
        intro hc
        have hctrue : (db.courses.map (fun c => c.code)).contains code0 = true :=
          List.elem_eq_true_of_mem hc
        rw [hctrue] at habsent
        exact absurd habsent (by decide)
      obtain ⟨created, h1, h2, h3, h4⟩ :=
        ih (upsertCourse db code0 (f code0)) hndrest hcodes'
      refine ⟨applyCourseMeta (f code0) (blankCourse db.nextId code0) :: created,
        ?_, ?_, ?_, ?_⟩
      · rw [h1, hcourses, List.map_append, List.map_singleton]
        have hnew : (if rest.contains
            (applyCourseMeta (f code0) (blankCourse db.nextId code0)).code = true
            then applyCourseMeta
              (f (applyCourseMeta (f code0) (blankCourse db.nextId code0)).code)
              (applyCourseMeta (f code0) (blankCourse db.nextId code0))
            else applyCourseMeta (f code0) (blankCourse db.nextId code0)) =
            applyCourseMeta (f code0) (blankCourse db.nextId code0) := by
          rw [if_neg (by
            rw [hnewcode]
            intro hcon
            exact hnd0 (List.mem_of_elem_eq_true hcon))]
        rw [hnew]
        rw [List.append_assoc]
        refine congrArg₂ _ (List.map_congr_left ?_) rfl
        intro c hc
        have hne : (c.code == code0) = false := by
          cases hb : (c.code == code0) with
          | false => rfl
          | true =>
            exfalso
            have : c.code = code0 := by simpa using hb
            have hmem : code0 ∈ db.courses.map (fun c => c.code) :=
              List.mem_map.mpr ⟨c, hc, this⟩
            have hctrue : (db.courses.map (fun c => c.code)).contains code0 = true :=
              List.elem_eq_true_of_mem hmem
            rw [hctrue] at habsent
            exact absurd habsent (by decide)
        show (if rest.contains c.code = true then applyCourseMeta (f c.code) c else c) =
          (if (code0 :: rest).contains c.code = true then applyCourseMeta (f c.code) c
            else c)
        rw [List.contains_cons, hne, Bool.false_or]
      · rw [List.map_cons, hnewcode, h2]
        rw [List.filter_cons_of_pos (by rw [habsent]; rfl)]
        refine congrArg _ ?_
        refine List.filter_congr ?_
        intro x hx
        have hxne : (x == code0) = false := by
          cases hb : (x == code0) with
          | false => rfl
          | true =>
            exfalso
            have : x = code0 := by simpa using hb
            exact hnd0 (this ▸ hx)
        rw [hcourses, List.map_append, List.map_singleton, hnewcode]
        rw [list_contains_append]
        rw [show ([code0].contains x) = (x == code0) from by
          rw [List.contains_cons]
          cases hb : (x == code0) with
          | false => simp
          | true => simp]
        rw [hxne, Bool.or_false]
      · intro r hr
        rcases List.mem_cons.mp hr with hr0 | hrrest
        · subst hr0
          refine ⟨by rw [hnewcode, hnewid], le_of_eq hnewid.symm, ?_⟩
          rw [hnewid]
          calc db.nextId < db.nextId + 1 := Nat.lt_succ_self _
            _ = (upsertCourse db code0 (f code0)).nextId := hnext.symm
            _ ≤ _ := foldl_upsertCourse_nextId_le rest f _
        · obtain ⟨ha, hb, hc⟩ := h3 r hrrest
          rw [hnext] at hb
          exact ⟨ha, le_trans (Nat.le_succ _) hb, hc⟩
      · rw [List.map_cons]
        refine List.Nodup.cons ?_ h4
        intro hcon
        obtain ⟨r, hrmem, hrid⟩ := List.mem_map.mp hcon
        obtain ⟨_, hb, _⟩ := h3 r hrmem
        rw [hnext] at hb
        rw [hnewid] at hrid
        omega

/-- `sheetBlockRel` is stable when the store gains cohorts and course
keys (existing rows untouched). -/
theorem sheetBlockRel_mono (db db' : Db) (semId lowId : Nat)
    (pair : List ClassGroupRow × List ScheduleEntryRow) (s : ParsedSheetData)
    (hcoh : ∃ ext, db'.cohorts = db.cohorts ++ ext)
    (hkeys : ∃ ext, courseKeys db' = courseKeys db ++ ext)
    (h : sheetBlockRel db semId lowId pair s) :
    sheetBlockRel db' semId lowId pair s := by
  obtain ⟨cid, ⟨c, hc, hcfacts⟩, hmap, hg, he, hf⟩ := h
  obtain ⟨ext, hext⟩ := hcoh
  obtain ⟨ext2, hext2⟩ := hkeys
  refine ⟨cid, ⟨c, ?_, hcfacts⟩, hmap, hg, he, ?_⟩
  · rw [hext]
    exact List.mem_append_left _ hc
  · refine forall₂_mono hf ?_
    rintro en ev ⟨h1, h2, h3, h4⟩
    refine ⟨h1, h2, ?_, h4⟩
    rw [hext2, list_contains_append, h3]
    rfl

/-- `filterMap` of a keyed `if` over a duplicate-free list. -/
theorem filterMap_if_key {α : Type} (l : List String) (hl : l.Nodup) (code : String)
    (g : String → α) :
    l.filterMap (fun c => if c == code then some (g c) else none) =
      if l.contains code then [g code] else [] := by
  induction l with
  | nil => rfl
  | cons x xs ih =>
    have hnd := (List.nodup_cons.mp hl).2
    have hx := (List.nodup_cons.mp hl).1
    by_cases h : x = code
    · subst h
      have hnone : List.filterMap (fun c => if c == x then some (g c) else none) xs = [] := by
        rw [List.filterMap_eq_nil_iff]
        intro c hc
        have hne : ¬(c == x) = true := fun hcc => hx ((eq_of_beq hcc) ▸ hc)
        rw [if_neg hne]
      rw [List.filterMap_cons, List.contains_cons]
      simp [hnone]
      intro a ha hax
      exact hx (hax ▸ ha)
    · have hbeq : (x == code) = false := beq_eq_false_iff_ne.mpr h
      have hbeq2 : (code == x) = false := beq_eq_false_iff_ne.mpr (Ne.symm h)
      rw [List.filterMap_cons, List.contains_cons]
      simp only [hbeq, hbeq2, Bool.false_or]
      rw [if_neg (show ¬(false = true) from by decide)]
      exact ih hnd

theorem rowUpdatesFor_append (code : String) (P Q : List ParsedSheetData) :
    rowUpdatesFor code (P ++ Q) = rowUpdatesFor code P ++ rowUpdatesFor code Q := by
  unfold rowUpdatesFor
  rw [List.flatMap_append]

theorem rowUpdatesFor_single (code : String) (s : ParsedSheetData) :
    rowUpdatesFor code [s] =
      if (cohortCourseCodesOf s).contains code
      then [catalogLookup s.catalog code] else [] := by
  unfold rowUpdatesFor
  rw [List.flatMap_cons, List.flatMap_nil, List.append_nil]
  have hnd : (cohortCourseCodesOf s).Nodup := nodup_dedupFirst _
  rw [filterMap_if_key _ hnd code]

theorem rowUpdatesFor_nil_of_not_mem (code : String) (P : List ParsedSheetData)
    (h : code ∉ P.flatMap cohortCourseCodesOf) : rowUpdatesFor code P = [] := by
  induction P with
  | nil => rfl
  | cons t P' ih =>
    rw [show t :: P' = [t] ++ P' from rfl] at h ⊢
    rw [rowUpdatesFor_append]
    rw [List.flatMap_append, List.mem_append] at h
    rw [ih (fun hc => h (Or.inr hc)), List.append_nil]
    rw [rowUpdatesFor_single]
    rw [if_neg ?_]
    intro hc
    refine h (Or.inl ?_)
    rw [List.flatMap_cons, List.flatMap_nil, List.append_nil]
    exact List.mem_of_elem_eq_true hc

theorem contains_dedupFirst {α : Type} [DecidableEq α] [BEq α] [LawfulBEq α]
    (l : List α) (x : α) : (dedupFirst l).contains x = l.contains x := by
  cases h : l.contains x with
  | true =>
    have : x ∈ l := List.mem_of_elem_eq_true h
    exact List.elem_eq_true_of_mem ((mem_dedupFirst l x).mpr this)
  | false =>
    cases h2 : (dedupFirst l).contains x with
    | false => rfl
    | true =>
      exfalso
      have hmem : x ∈ l := (mem_dedupFirst l x).mp (List.mem_of_elem_eq_true h2)
      have hc2 : l.contains x = true := List.elem_eq_true_of_mem hmem
      rw [hc2] at h
      exact absurd h (by decide)

theorem lookupId_isSome_iff (m : List (String × Nat)) (key : String) :
    (lookupId m key).isSome = true ↔ ∃ p ∈ m, p.1 = key := by
  unfold lookupId
  rw [Option.isSome_map']
  constructor
  · intro h
    obtain ⟨p, hp⟩ := Option.isSome_iff_exists.mp h
    have hmem := List.mem_of_find?_eq_some hp
    have hkey := List.find?_some hp
    refine ⟨p, List.mem_reverse.mp hmem, by simpa using hkey⟩
  · rintro ⟨p, hp, hkey⟩
    cases hf : m.reverse.find? (fun p => p.1 == key) with
    | some q => rfl
    | none =>
      exfalso
      have := List.find?_eq_none.mp hf p (List.mem_reverse.mpr hp)
      simp [hkey] at this

theorem lookupId_eq_some (m : List (String × Nat)) (key : String) (v : Nat)
    (h : lookupId m key = some v) : (key, v) ∈ m := by
  unfold lookupId at h
  obtain ⟨p, hp, hv⟩ := Option.map_eq_some'.mp h
  have hmem := List.mem_reverse.mp (List.mem_of_find?_eq_some hp)
  have hkey : p.1 = key := by simpa using List.find?_some hp
  have : p = (key, v) := by
    cases p
    simp only at hkey hv
    rw [hkey, hv]
  exact this ▸ hmem

/-- When every event resolves, the rows the bulk insert creates stand in
one-to-one field-preserving correspondence with the sheet's events. -/
theorem entry_block_forall₂ (semId : Nat) (m1 m2 : List (String × Nat))
    (events : List ParsedEvent) (db4 : Db) (nid : Nat) (gb : List ClassGroupRow)
    (hres : ∀ ev ∈ events, eventResolvable m1 m2 ev = true)
    (hm1 : ∀ p ∈ m1, ∃ g ∈ gb, g.name = p.1 ∧ g.id = p.2)
    (hm2 : ∀ p ∈ m2, ∃ c ∈ db4.courses, c.code = p.1 ∧ c.id = p.2) :
    List.Forall₂ (fun (en : ScheduleEntryRow) (ev : ParsedEvent) =>
      en.semesterId = semId ∧
      (∃ g ∈ gb, g.id = en.classGroupId ∧ g.name = ev.classGroupName) ∧
      ((courseKeys db4).contains (en.courseId, ev.courseCode) = true) ∧
      en.dayOfWeek = ev.dayOfWeek ∧ en.session = ev.session ∧
      en.startTime = ev.startTime ∧ en.rawTime = ev.rawTime ∧ en.room = ev.room ∧
      en.sourceSheet = ev.sourceSheet ∧ en.sourceRow = ev.sourceRow)
      ((buildEntryData semId m1 m2 events).enum.map (fun p =>
        (⟨nid + p.1, p.2.semesterId, p.2.classGroupId, p.2.courseId, p.2.dayOfWeek,
          p.2.session, p.2.startTime, p.2.rawTime, p.2.room, p.2.sourceSheet,
          p.2.sourceRow⟩ : ScheduleEntryRow)))
      events := by
  have hdata : buildEntryData semId m1 m2 events =
      events.map (entryInputOf semId m1 m2) := by
    rw [buildEntryData_eq_filter_map]
    rw [List.filter_eq_self.mpr hres]
  rw [List.forall₂_iff_get]
  constructor
  · rw [List.length_map, List.enum_length, hdata, List.length_map]
  · intro i h1 h2
    have hget : ((buildEntryData semId m1 m2 events).enum.map (fun p =>
        (⟨nid + p.1, p.2.semesterId, p.2.classGroupId, p.2.courseId, p.2.dayOfWeek,
          p.2.session, p.2.startTime, p.2.rawTime, p.2.room, p.2.sourceSheet,
          p.2.sourceRow⟩ : ScheduleEntryRow))).get ⟨i, h1⟩ =
        (⟨nid + i, (entryInputOf semId m1 m2 (events.get ⟨i, h2⟩)).semesterId,
          (entryInputOf semId m1 m2 (events.get ⟨i, h2⟩)).classGroupId,
          (entryInputOf semId m1 m2 (events.get ⟨i, h2⟩)).courseId,
          (entryInputOf semId m1 m2 (events.get ⟨i, h2⟩)).dayOfWeek,
          (entryInputOf semId m1 m2 (events.get ⟨i, h2⟩)).session,
          (entryInputOf semId m1 m2 (events.get ⟨i, h2⟩)).startTime,
          (entryInputOf semId m1 m2 (events.get ⟨i, h2⟩)).rawTime,
          (entryInputOf semId m1 m2 (events.get ⟨i, h2⟩)).room,
          (entryInputOf semId m1 m2 (events.get ⟨i, h2⟩)).sourceSheet,
          (entryInputOf semId m1 m2 (events.get ⟨i, h2⟩)).sourceRow⟩ :
            ScheduleEntryRow) := by
      simp [List.getElem_enum, hdata]
    rw [hget]
    have hev : events.get ⟨i, h2⟩ ∈ events := List.get_mem events i h2
    have hr := hres _ hev
    unfold eventResolvable at hr
    rw [Bool.and_eq_true] at hr
    obtain ⟨hr1, hr2⟩ := hr
    obtain ⟨v1, hv1⟩ := Option.isSome_iff_exists.mp hr1
    obtain ⟨v2, hv2⟩ := Option.isSome_iff_exists.mp hr2
    obtain ⟨g, hg, hgname, hgid⟩ := hm1 _ (lookupId_eq_some _ _ _ hv1)
    obtain ⟨c, hc, hccode, hcid⟩ := hm2 _ (lookupId_eq_some _ _ _ hv2)
    refine ⟨rfl, ⟨g, hg, ?_, hgname⟩, ?_, rfl, rfl, rfl, rfl, rfl, rfl, rfl⟩
    · show g.id = (entryInputOf semId m1 m2 (events.get ⟨i, h2⟩)).classGroupId
      unfold entryInputOf
      rw [hv1]
      exact hgid
    · show (courseKeys db4).contains
        ((entryInputOf semId m1 m2 (events.get ⟨i, h2⟩)).courseId, _) = true
      unfold entryInputOf
      rw [hv2]
      refine List.elem_eq_true_of_mem ?_
      unfold courseKeys
      refine List.mem_map.mpr ⟨c, hc, ?_⟩
      rw [hcid, hccode]
      rfl

theorem contains_iff_mem {α : Type} [BEq α] [LawfulBEq α] (l : List α) (x : α) :
    l.contains x = true ↔ x ∈ l :=
  ⟨List.mem_of_elem_eq_true, List.elem_eq_true_of_mem⟩

theorem contains_eq_false_iff {α : Type} [BEq α] [LawfulBEq α] (l : List α) (x : α) :
    l.contains x = false ↔ x ∉ l := by
  constructor
  · intro h hc
    rw [(contains_iff_mem l x).mpr hc] at h
    exact absurd h (by decide)
  · intro h
    cases hc : l.contains x with
    | false => rfl
    | true => exact absurd ((contains_iff_mem l x).mp hc) h

theorem forall₂_mem_left {α β : Type} {R : α → β → Prop} {l₁ : List α} {l₂ : List β}
    (h : List.Forall₂ R l₁ l₂) (a : α) (ha : a ∈ l₁) : ∃ b ∈ l₂, R a b := by
  induction h with
  | nil => exact absurd ha (List.not_mem_nil a)
  | cons hR hrest ih =>
    rcases List.mem_cons.mp ha with rfl | ha'
    · exact ⟨_, List.mem_cons_self _ _, hR⟩
    · obtain ⟨b, hb, hab⟩ := ih ha'
      exact ⟨b, List.mem_cons_of_mem _ hb, hab⟩

theorem groupRows_names (nid cid : Nat) (names : List String) :
    ((names.enum.map (fun p => (⟨nid + p.1, cid, p.2⟩ : ClassGroupRow))).map
      (fun g => g.name)) = names := by
  rw [List.map_map]
  have hc : ((fun g : ClassGroupRow => g.name) ∘
      (fun p : Nat × String => (⟨nid + p.1, cid, p.2⟩ : ClassGroupRow))) = Prod.snd := by
    funext p
    rfl
  rw [hc, List.enum_map_snd]

theorem groupRows_facts (nid cid : Nat) (names : List String) (g : ClassGroupRow)
    (hg : g ∈ names.enum.map (fun p => (⟨nid + p.1, cid, p.2⟩ : ClassGroupRow))) :
    g.cohortId = cid ∧ nid ≤ g.id ∧ g.id < nid + names.length := by
  obtain ⟨p, hp, rfl⟩ := List.mem_map.mp hg
  have hlt : p.1 < names.length := List.fst_lt_of_mem_enum hp
  refine ⟨rfl, Nat.le_add_right _ _, ?_⟩
  show nid + p.1 < nid + names.length
  omega

theorem groupRows_pairs (nid cid : Nat) (names : List String) :
    ((names.enum.map (fun p => (⟨nid + p.1, cid, p.2⟩ : ClassGroupRow))).map
      (fun g => (g.cohortId, g.name))) = names.map (fun n => (cid, n)) := by
  rw [List.map_map]
  have hc : ((fun g : ClassGroupRow => (g.cohortId, g.name)) ∘
      (fun p : Nat × String => (⟨nid + p.1, cid, p.2⟩ : ClassGroupRow))) =
      ((fun n => (cid, n)) ∘ Prod.snd) := by
    funext p
    rfl
  rw [hc, ← List.map_map, List.enum_map_snd]

theorem groupRows_ids_nodup (nid cid : Nat) (names : List String) :
    ((names.enum.map (fun p => (⟨nid + p.1, cid, p.2⟩ : ClassGroupRow))).map
      (fun g => g.id)).Nodup := by
  rw [List.map_map]
  have hc : ((fun g : ClassGroupRow => g.id) ∘
      (fun p : Nat × String => (⟨nid + p.1, cid, p.2⟩ : ClassGroupRow))) =
      ((fun n => nid + n) ∘ Prod.fst) := by
    funext p
    rfl
  rw [hc, ← List.map_map, List.enum_map_fst]
  exact (List.nodup_range _).map (fun a b => by omega)

theorem entryRows_facts (nid : Nat) (l : List ScheduleEntryInput) (e : ScheduleEntryRow)
    (he : e ∈ l.enum.map (fun p =>
      (⟨nid + p.1, p.2.semesterId, p.2.classGroupId, p.2.courseId, p.2.dayOfWeek,
        p.2.session, p.2.startTime, p.2.rawTime, p.2.room, p.2.sourceSheet,
        p.2.sourceRow⟩ : ScheduleEntryRow))) :
    nid ≤ e.id ∧ e.id < nid + l.length := by
  obtain ⟨p, hp, rfl⟩ := List.mem_map.mp he
  have hlt : p.1 < l.length := List.fst_lt_of_mem_enum hp
  refine ⟨Nat.le_add_right _ _, ?_⟩
  show nid + p.1 < nid + l.length
  omega

theorem entryRows_ids_nodup (nid : Nat) (l : List ScheduleEntryInput) :
    ((l.enum.map (fun p =>
      (⟨nid + p.1, p.2.semesterId, p.2.classGroupId, p.2.courseId, p.2.dayOfWeek,
        p.2.session, p.2.startTime, p.2.rawTime, p.2.room, p.2.sourceSheet,
        p.2.sourceRow⟩ : ScheduleEntryRow))).map (fun e => e.id)).Nodup := by
  rw [List.map_map]
  have hc : ((fun e : ScheduleEntryRow => e.id) ∘
      (fun p : Nat × ScheduleEntryInput =>
        (⟨nid + p.1, p.2.semesterId, p.2.classGroupId, p.2.courseId, p.2.dayOfWeek,
          p.2.session, p.2.startTime, p.2.rawTime, p.2.room, p.2.sourceSheet,
          p.2.sourceRow⟩ : ScheduleEntryRow))) = ((fun n => nid + n) ∘ Prod.fst) := by
    funext p
    rfl
  rw [hc, ← List.map_map, List.enum_map_fst]
  exact (List.nodup_range _).map (fun a b => by omega)

/-- Shape of the store after the cohort upsert and the destructive
class-group refresh of one sheet, relative to the loop's base store. -/
theorem dbAfterGroups_shape (base : Db) (semId : Nat) (P : List ParsedSheetData)
    (acc : ImportAcc) (s : ParsedSheetData)
    (hbase : WellFormed base) (hinv : LoopInv base semId P acc) :
    ∃ (ct : List CohortRow) (cid : Nat)
      (pairs' : List (List ClassGroupRow × List ScheduleEntryRow)),
      (upsertCohort acc.db semId s.cohortCode).2 = cid ∧
      (dbAfterGroups semId acc.db s).semesters = acc.db.semesters ∧
      (dbAfterGroups semId acc.db s).cohorts = acc.db.cohorts ++ ct ∧
      (dbAfterGroups semId acc.db s).courses = acc.db.courses ∧
      (dbAfterGroups semId acc.db s).nextId =
        acc.db.nextId + ct.length + (groupNamesOf s).length ∧
      (∀ x ∈ ct, x = (⟨acc.db.nextId, semId, s.cohortCode⟩ : CohortRow)) ∧
      ct.length ≤ 1 ∧
      (ct ≠ [] → ∀ c0 ∈ acc.db.cohorts, ¬(c0.semesterId = semId ∧ c0.code = s.cohortCode)) ∧
      (∃ c ∈ acc.db.cohorts ++ ct, c.id = cid ∧ c.semesterId = semId ∧
        c.code = s.cohortCode) ∧
      cid < acc.db.nextId + ct.length ∧
      (((acc.db.cohorts ++ ct).map (fun c => c.id)).Nodup) ∧
      (((acc.db.cohorts ++ ct).map (fun c => (c.semesterId, c.code))).Nodup) ∧
      (dbAfterGroups semId acc.db s).classGroups =
        acc.db.classGroups.filter (fun g => !(g.cohortId == cid)) ++
          ((groupNamesOf s).enum.map (fun p =>
            (⟨acc.db.nextId + ct.length + p.1, cid, p.2⟩ : ClassGroupRow))) ∧
      (dbAfterGroups semId acc.db s).entries =
        acc.db.entries.filter (fun e =>
          !(((acc.db.classGroups.filter (fun g => g.cohortId == cid)).map
            (fun g => g.id)).contains e.classGroupId)) ∧
      acc.db.classGroups.filter (fun g => !(g.cohortId == cid)) =
        base.classGroups.filter (fun g =>
          !((deadCohortIds base semId (P ++ [s])).contains g.cohortId)) ++
          (pairs'.map (fun p => p.1)).flatten ∧
      acc.db.entries.filter (fun e =>
          !(((acc.db.classGroups.filter (fun g => g.cohortId == cid)).map
            (fun g => g.id)).contains e.classGroupId)) =
        base.entries.filter (fun e =>
          !((deadGroupIds base semId (P ++ [s])).contains e.classGroupId)) ++
          (pairs'.map (fun p => p.2)).flatten ∧
      List.Forall₂ (sheetBlockRel acc.db semId base.nextId) pairs'
        ((lastOccSheets P).filter (fun t => !(t.cohortCode == s.cohortCode))) := by
  obtain ⟨ctail, hctail, hctailfacts⟩ := hinv.cohorts_ext
  obtain ⟨pairs, hblk1, hblk2, hblk3⟩ := hinv.blocks
  obtain ⟨ct, hT'rec, hcid2, hctelem, hctlen, hctnew, hbdich⟩ :
      ∃ (ct : List CohortRow),
        (upsertCohort acc.db semId s.cohortCode).1 =
          { acc.db with
              cohorts := acc.db.cohorts ++ ct
              nextId := acc.db.nextId + ct.length } ∧
        (∃ c ∈ acc.db.cohorts ++ ct,
          c.id = (upsertCohort acc.db semId s.cohortCode).2 ∧
          c.semesterId = semId ∧ c.code = s.cohortCode) ∧
        (∀ x ∈ ct, x = (⟨acc.db.nextId, semId, s.cohortCode⟩ : CohortRow)) ∧
        ct.length ≤ 1 ∧
        (ct ≠ [] → ∀ c0 ∈ acc.db.cohorts,
          ¬(c0.semesterId = semId ∧ c0.code = s.cohortCode)) ∧
        ((∃ c ∈ base.cohorts, c.id = (upsertCohort acc.db semId s.cohortCode).2 ∧
            c.semesterId = semId ∧ c.code = s.cohortCode) ∨
          (base.nextId ≤ (upsertCohort acc.db semId s.cohortCode).2 ∧
            ∀ c0 ∈ base.cohorts, ¬(c0.semesterId = semId ∧ c0.code = s.cohortCode))) := by
    rcases upsertCohort_cases acc.db semId s.cohortCode with
      ⟨c, hcm, hcs, hcc, hce⟩ | ⟨hnm, hce⟩
    · refine ⟨[], ?_, ⟨c, by rw [List.append_nil]; exact hcm, by rw [hce], hcs, hcc⟩,
        fun x hx => absurd hx (List.not_mem_nil x),
        by decide, fun h => absurd rfl h, ?_⟩
      · rw [hce]
        show acc.db = _
        rw [List.append_nil]
        cases acc.db
        rfl
      · rw [hctail] at hcm
        rcases List.mem_append.mp hcm with hin | hin
        · exact Or.inl ⟨c, hin, by rw [hce], hcs, hcc⟩
        · obtain ⟨_, hid, _, hnomatch⟩ := hctailfacts c hin
          refine Or.inr ⟨by rw [hce]; exact hid, ?_⟩
          rintro c0 hc0 ⟨h1, h2⟩
          exact hnomatch c0 hc0 ⟨h1, by rw [h2, hcc]⟩
    · refine ⟨[⟨acc.db.nextId, semId, s.cohortCode⟩], by rw [hce]; rfl, ?_, ?_,
        by simp, fun _ => hnm, ?_⟩
      · exact ⟨⟨acc.db.nextId, semId, s.cohortCode⟩,
          List.mem_append_right _ (List.mem_singleton.mpr rfl), by rw [hce], rfl, rfl⟩
      · intro x hx
        exact List.mem_singleton.mp hx
      · refine Or.inr ⟨by rw [hce]; exact hinv.nextId_mono, ?_⟩
        intro c0 hc0
        exact hnm c0 (by rw [hctail]; exact List.mem_append_left _ hc0)
  obtain ⟨cid, hcid⟩ : ∃ x, (upsertCohort acc.db semId s.cohortCode).2 = x := ⟨_, rfl⟩
  rw [hcid] at hcid2 hbdich
  have hT'g : (upsertCohort acc.db semId s.cohortCode).1.classGroups =
      acc.db.classGroups := by rw [hT'rec]
  have hT'e : (upsertCohort acc.db semId s.cohortCode).1.entries = acc.db.entries := by
    rw [hT'rec]
  have hT'co : (upsertCohort acc.db semId s.cohortCode).1.courses = acc.db.courses := by
    rw [hT'rec]
  have hT's : (upsertCohort acc.db semId s.cohortCode).1.semesters = acc.db.semesters := by
    rw [hT'rec]
  have hT'coh : (upsertCohort acc.db semId s.cohortCode).1.cohorts =
      acc.db.cohorts ++ ct := by rw [hT'rec]
  have hT'n : (upsertCohort acc.db semId s.cohortCode).1.nextId =
      acc.db.nextId + ct.length := by rw [hT'rec]
  have hcidlt : cid < acc.db.nextId + ct.length := by
    obtain ⟨c, hcmem, hcidc, _, _⟩ := hcid2
    rcases List.mem_append.mp hcmem with hin | hin
    · have := hinv.wf.cohortIdBound c hin
      omega
    · rw [hctelem c hin] at hcidc
      have hlen : 1 ≤ ct.length := by
        cases ct with
        | nil => exact absurd hin (List.not_mem_nil c)
        | cons a t => simp
      simp only at hcidc
      omega
  have hT'ids : ((acc.db.cohorts ++ ct).map (fun c => c.id)).Nodup := by
    cases ct with
    | nil =>
      rw [List.append_nil]
      exact hinv.wf.cohortIdsNodup
    | cons x t =>
      have ht : t = [] := by
        cases t with
        | nil => rfl
        | cons y u => simp at hctlen
      subst ht
      rw [hctelem x (List.mem_cons_self x [])]
      rw [List.map_append, List.map_singleton]
      rw [show (acc.db.cohorts.map (fun c => c.id)) ++
        [(⟨acc.db.nextId, semId, s.cohortCode⟩ : CohortRow).id] =
        ((acc.db.cohorts.map (fun c => c.id)).concat
          (⟨acc.db.nextId, semId, s.cohortCode⟩ : CohortRow).id) from
          (List.concat_eq_append _ _).symm]
      refine List.Nodup.concat ?_ hinv.wf.cohortIdsNodup
      intro hc
      obtain ⟨c0, hc0, hid0⟩ := List.mem_map.mp hc
      have := hinv.wf.cohortIdBound c0 hc0
      simp only at hid0
      omega
  have hT'keys : ((acc.db.cohorts ++ ct).map
      (fun c => (c.semesterId, c.code))).Nodup := by
    cases ct with
    | nil =>
      rw [List.append_nil]
      exact hinv.wf.cohortKeysNodup
    | cons x t =>
      have ht : t = [] := by
        cases t with
        | nil => rfl
        | cons y u => simp at hctlen
      subst ht
      rw [hctelem x (List.mem_cons_self x [])]
      rw [List.map_append, List.map_singleton]
      rw [show (acc.db.cohorts.map (fun c => (c.semesterId, c.code))) ++
        [((⟨acc.db.nextId, semId, s.cohortCode⟩ : CohortRow).semesterId,
          (⟨acc.db.nextId, semId, s.cohortCode⟩ : CohortRow).code)] =
        ((acc.db.cohorts.map (fun c => (c.semesterId, c.code))).concat
          ((⟨acc.db.nextId, semId, s.cohortCode⟩ : CohortRow).semesterId,
            (⟨acc.db.nextId, semId, s.cohortCode⟩ : CohortRow).code)) from
          (List.concat_eq_append _ _).symm]
      refine List.Nodup.concat ?_ hinv.wf.cohortKeysNodup
      intro hc
      obtain ⟨c0, hc0, hkey0⟩ := List.mem_map.mp hc
      refine hctnew (by simp) c0 hc0 ?_
      exact ⟨congrArg Prod.fst hkey0, congrArg Prod.snd hkey0⟩
  have hdel := deleteCohortGroups_spec (upsertCohort acc.db semId s.cohortCode).1 cid
    (by rw [hT'g]; exact hinv.wf.groupIdsNodup)
  rw [hT'g, hT'e] at hdel
  have hdb3def : dbAfterGroups semId acc.db s =
      createClassGroups (deleteCohortGroups (upsertCohort acc.db semId s.cohortCode).1 cid)
        cid (groupNamesOf s) := by
    show createClassGroups
      (deleteCohortGroups (upsertCohort acc.db semId s.cohortCode).1
        (upsertCohort acc.db semId s.cohortCode).2)
      (upsertCohort acc.db semId s.cohortCode).2 (groupNamesOf s) = _
    rw [hcid]
  have hdeln : (deleteCohortGroups (upsertCohort acc.db semId s.cohortCode).1 cid).nextId =
      acc.db.nextId + ct.length := by
    rw [deleteCohortGroups_nextId, hT'n]
  have hdelg :
      (deleteCohortGroups (upsertCohort acc.db semId s.cohortCode).1 cid).classGroups =
      acc.db.classGroups.filter (fun g => !(g.cohortId == cid)) := by
    rw [hdel]
  have hdele : (deleteCohortGroups (upsertCohort acc.db semId s.cohortCode).1 cid).entries
      = acc.db.entries.filter (fun e =>
          !(((acc.db.classGroups.filter (fun g => g.cohortId == cid)).map
            (fun g => g.id)).contains e.classGroupId)) := by
    rw [hdel]
  have hcreg : (dbAfterGroups semId acc.db s).classGroups =
      acc.db.classGroups.filter (fun g => !(g.cohortId == cid)) ++
        ((groupNamesOf s).enum.map (fun p =>
          (⟨acc.db.nextId + ct.length + p.1, cid, p.2⟩ : ClassGroupRow))) := by
    rw [hdb3def, createClassGroups_spec]
    show (deleteCohortGroups (upsertCohort acc.db semId s.cohortCode).1 cid).classGroups ++
      _ = _
    rw [hdelg, hdeln]
  have hcree : (dbAfterGroups semId acc.db s).entries =
      acc.db.entries.filter (fun e =>
          !(((acc.db.classGroups.filter (fun g => g.cohortId == cid)).map
            (fun g => g.id)).contains e.classGroupId)) := by
    rw [hdb3def, createClassGroups_entries, hdele]
  have hcrecoh : (dbAfterGroups semId acc.db s).cohorts = acc.db.cohorts ++ ct := by
    rw [hdb3def, createClassGroups_cohorts, deleteCohortGroups_cohorts, hT'coh]
  have hcreco : (dbAfterGroups semId acc.db s).courses = acc.db.courses := by
    rw [hdb3def, createClassGroups_courses, deleteCohortGroups_courses, hT'co]
  have hcres : (dbAfterGroups semId acc.db s).semesters = acc.db.semesters := by
    rw [hdb3def, createClassGroups_semesters, deleteCohortGroups_semesters, hT's]
  have hcren : (dbAfterGroups semId acc.db s).nextId =
      acc.db.nextId + ct.length + (groupNamesOf s).length := by
    rw [hdb3def, createClassGroups_nextId, hdeln]
  -- the refreshed cohort id versus the old fresh blocks
  have hcodecid : ∀ (t : ParsedSheetData) (cidt : Nat),
      (∃ c ∈ acc.db.cohorts, c.id = cidt ∧ c.semesterId = semId ∧ c.code = t.cohortCode) →
      ((t.cohortCode == s.cohortCode) = true → cidt = cid) ∧
      ((t.cohortCode == s.cohortCode) = false → cidt ≠ cid) := by
    rintro t cidt ⟨c, hcmem, hcidt, hcsem, hccode⟩
    obtain ⟨c', hc'mem, hc'id, hc'sem, hc'code⟩ := hcid2
    have hcmem' : c ∈ acc.db.cohorts ++ ct := List.mem_append_left _ hcmem
    constructor
    · intro heq
      have hteq : t.cohortCode = s.cohortCode := eq_of_beq heq
      have hkeyeq : (c.semesterId, c.code) = (c'.semesterId, c'.code) := by
        rw [hcsem, hccode, hc'sem, hc'code, hteq]
      have := List.inj_on_of_nodup_map hT'keys hcmem' hc'mem hkeyeq
      rw [← hcidt, ← hc'id, this]
    · intro hne hceq
      have hideq : c.id = c'.id := by rw [hcidt, hc'id, hceq]
      have heq := List.inj_on_of_nodup_map hT'ids hcmem' hc'mem hideq
      have hteq : t.cohortCode = s.cohortCode := by
        rw [← hccode, ← hc'code, heq]
      rw [hteq, beq_self_eq_true] at hne
      exact absurd hne (by decide)
  have hmemblocks : ∀ p ∈ pairs, ∀ g ∈ p.1, g ∈ acc.db.classGroups := by
    intro p hp g hg
    rw [hblk1]
    refine List.mem_append_right _ ?_
    rw [List.mem_flatten]
    exact ⟨p.1, List.mem_map_of_mem _ hp, hg⟩
  have hfilterblocks : ∀ (ps : List (List ClassGroupRow × List ScheduleEntryRow))
      (L : List ParsedSheetData),
      List.Forall₂ (sheetBlockRel acc.db semId base.nextId) ps L →
      (∀ p ∈ ps, ∀ g ∈ p.1, g ∈ acc.db.classGroups) →
      ∃ ps',
        ((ps.map (fun p => p.1)).flatten).filter (fun g => !(g.cohortId == cid)) =
          (ps'.map (fun p => p.1)).flatten ∧
        ((ps.map (fun p => p.2)).flatten).filter (fun e =>
          !(((acc.db.classGroups.filter (fun g => g.cohortId == cid)).map
            (fun g => g.id)).contains e.classGroupId)) =
          (ps'.map (fun p => p.2)).flatten ∧
        List.Forall₂ (sheetBlockRel acc.db semId base.nextId) ps'
          (L.filter (fun t => !(t.cohortCode == s.cohortCode))) := by
    intro ps L h
    induction h with
    | nil =>
      intro _
      exact ⟨[], rfl, rfl, List.Forall₂.nil⟩
    | cons hR hrest ih =>
      rename_i pr t ps₀ L₀
      intro hmem
      obtain ⟨ps', hg', he', hrel'⟩ := ih (fun p hp => hmem p (List.mem_cons_of_mem _ hp))
      obtain ⟨cidt, hcrow, hmapeq, hglow, helow, hf₂⟩ := hR
      have hgch : ∀ g ∈ pr.1, g.cohortId = cidt := by
        intro g hg
        have hmm : (g.cohortId, g.name) ∈ pr.1.map (fun g => (g.cohortId, g.name)) :=
          List.mem_map_of_mem _ hg
        rw [hmapeq] at hmm
        obtain ⟨n, _, hpair⟩ := List.mem_map.mp hmm
        exact (congrArg Prod.fst hpair.symm)
      have hdich := hcodecid t cidt hcrow
      have hprmem : ∀ g ∈ pr.1, g ∈ acc.db.classGroups :=
        hmem pr (List.mem_cons_self _ _)
      have hegroup : ∀ e ∈ pr.2, ∃ g ∈ pr.1, g.id = e.classGroupId := by
        intro e he
        obtain ⟨ev, _, _, ⟨g, hg, hgid, _⟩, _⟩ := forall₂_mem_left hf₂ e he
        exact ⟨g, hg, hgid⟩
      rw [List.map_cons, List.map_cons, List.flatten_cons, List.flatten_cons,
        List.filter_append, List.filter_append]
      cases hts : (t.cohortCode == s.cohortCode) with
      | true =>
        have hcidt : cidt = cid := hdich.1 hts
        have hgnil : pr.1.filter (fun g => !(g.cohortId == cid)) = [] := by
          rw [List.filter_eq_nil_iff]
          intro g hg
          rw [hgch g hg, hcidt, beq_self_eq_true]
          decide
        have henil : pr.2.filter (fun e =>
            !(((acc.db.classGroups.filter (fun g => g.cohortId == cid)).map
              (fun g => g.id)).contains e.classGroupId)) = [] := by
          rw [List.filter_eq_nil_iff]
          intro e he
          obtain ⟨g, hg, hgid⟩ := hegroup e he
          have hgm : g ∈ acc.db.classGroups.filter (fun g => g.cohortId == cid) := by
            refine List.mem_filter.mpr ⟨hprmem g hg, ?_⟩
            rw [hgch g hg, hcidt, beq_self_eq_true]
          have : e.classGroupId ∈ (acc.db.classGroups.filter
              (fun g => g.cohortId == cid)).map (fun g => g.id) := by
            rw [← hgid]
            exact List.mem_map_of_mem _ hgm
          have hcontains : ((acc.db.classGroups.filter
              (fun g => g.cohortId == cid)).map
              (fun g => g.id)).contains e.classGroupId = true :=
            List.elem_eq_true_of_mem this
          rw [hcontains]
          decide
        rw [hgnil, henil, List.nil_append, List.nil_append, hg', he']
        refine ⟨ps', rfl, rfl, ?_⟩
        rw [List.filter_cons_of_neg (by rw [hts]; decide)]
        exact hrel'
      | false =>
        have hcidt : cidt ≠ cid := hdich.2 hts
        have hgkeep : pr.1.filter (fun g => !(g.cohortId == cid)) = pr.1 := by
          rw [List.filter_eq_self]
          intro g hg
          rw [hgch g hg]
          rw [beq_eq_false_iff_ne.mpr hcidt]
          decide
        have hekeep : pr.2.filter (fun e =>
            !(((acc.db.classGroups.filter (fun g => g.cohortId == cid)).map
              (fun g => g.id)).contains e.classGroupId)) = pr.2 := by
          rw [List.filter_eq_self]
          intro e he
          obtain ⟨g, hg, hgid⟩ := hegroup e he
          cases hcon : ((acc.db.classGroups.filter (fun g => g.cohortId == cid)).map
              (fun g => g.id)).contains e.classGroupId with
          | false => decide
          | true =>
            exfalso
            obtain ⟨h', hh', hh'id⟩ := List.mem_map.mp (List.mem_of_elem_eq_true hcon)
            have hh'mem : h' ∈ acc.db.classGroups := (List.mem_filter.mp hh').1
            have hh'cid : (h'.cohortId == cid) = true := (List.mem_filter.mp hh').2
            have hideq : h'.id = g.id := by rw [hh'id, hgid]
            have : h' = g := List.inj_on_of_nodup_map hinv.wf.groupIdsNodup
              hh'mem (hprmem g hg) hideq
            rw [this, hgch g hg] at hh'cid
            exact hcidt (eq_of_beq hh'cid)
        rw [hgkeep, hekeep, hg', he']
        refine ⟨pr :: ps', by rw [List.map_cons, List.flatten_cons],
          by rw [List.map_cons, List.flatten_cons], ?_⟩
        rw [List.filter_cons_of_pos (by rw [hts]; decide)]
        exact List.Forall₂.cons ⟨cidt, hcrow, hmapeq, hglow, helow, hf₂⟩ hrel'
  obtain ⟨pairs', hpg, hpe, hprel⟩ := hfilterblocks pairs (lastOccSheets P) hblk3 hmemblocks
  -- membership in the new dead sets
  have hddmono : ∀ x, x ∈ deadCohortIds base semId P →
      x ∈ deadCohortIds base semId (P ++ [s]) := by
    intro x hx
    rw [mem_deadCohortIds] at hx ⊢
    obtain ⟨b, hb, hid, hsem, hany⟩ := hx
    exact ⟨b, hb, hid, hsem, by rw [List.any_append, hany]; rfl⟩
  have hddNew : ∀ x, x ∈ deadCohortIds base semId (P ++ [s]) ↔
      (x ∈ deadCohortIds base semId P ∨
        (∃ c ∈ base.cohorts, c.id = x ∧ c.semesterId = semId ∧
          c.code = s.cohortCode)) := by
    intro x
    rw [mem_deadCohortIds, mem_deadCohortIds]
    constructor
    · rintro ⟨b, hb, hid, hsem, hany⟩
      rw [List.any_append, Bool.or_eq_true] at hany
      rcases hany with h | h
      · exact Or.inl ⟨b, hb, hid, hsem, h⟩
      · rw [List.any_cons, List.any_nil, Bool.or_false] at h
        exact Or.inr ⟨b, hb, hid, hsem, (eq_of_beq h).symm⟩
    · rintro (⟨b, hb, hid, hsem, hany⟩ | ⟨b, hb, hid, hsem, hcode⟩)
      · exact ⟨b, hb, hid, hsem, by rw [List.any_append, hany]; rfl⟩
      · refine ⟨b, hb, hid, hsem, ?_⟩
        rw [List.any_append, List.any_cons, List.any_nil, Bool.or_false]
        rw [hcode, beq_self_eq_true, Bool.or_true]
  have hddNewChar : ∀ x, x ∈ deadCohortIds base semId (P ++ [s]) ↔
      (x ∈ deadCohortIds base semId P ∨
        ((∃ c ∈ base.cohorts, c.id = cid ∧ c.semesterId = semId ∧
          c.code = s.cohortCode) ∧ x = cid)) := by
    intro x
    rw [hddNew]
    rcases hbdich with ⟨cstar, hcsmem, hcsid, hcssem, hcscode⟩ | ⟨hge, hnomatch⟩
    · constructor
      · rintro (h | ⟨b, hb, hid, hsem, hcode⟩)
        · exact Or.inl h
        · right
          have hkeyeq : (b.semesterId, b.code) = (cstar.semesterId, cstar.code) := by
            rw [hsem, hcode, hcssem, hcscode]
          have hbcs := List.inj_on_of_nodup_map hbase.cohortKeysNodup hb hcsmem hkeyeq
          exact ⟨⟨cstar, hcsmem, hcsid, hcssem, hcscode⟩, by rw [← hid, hbcs, hcsid]⟩
      · rintro (h | ⟨⟨c, hc, hcidc, hsemc, hcodec⟩, rfl⟩)
        · exact Or.inl h
        · exact Or.inr ⟨c, hc, hcidc, hsemc, hcodec⟩
    · constructor
      · rintro (h | ⟨b, hb, hid, hsem, hcode⟩)
        · exact Or.inl h
        · exact absurd ⟨hsem, hcode⟩ (hnomatch b hb)
      · rintro (h | ⟨⟨c, hc, hcidc, hsemc, hcodec⟩, rfl⟩)
        · exact Or.inl h
        · exact absurd ⟨hsemc, hcodec⟩ (hnomatch c hc)
  have hflatlow : ∀ g ∈ (pairs.map (fun p => p.1)).flatten, base.nextId ≤ g.id := by
    intro g hg
    rw [List.mem_flatten] at hg
    obtain ⟨gl, hgl, hggl⟩ := hg
    obtain ⟨p, hp, rfl⟩ := List.mem_map.mp hgl
    obtain ⟨t, _, hrel⟩ := forall₂_mem_left hblk3 p hp
    obtain ⟨cidt, _, _, hglow, _, _⟩ := hrel
    exact hglow g hggl
  -- exact base-level characterization of the deletion's id set
  have hexIds : ∀ (y : Nat), y < base.nextId →
      (((acc.db.classGroups.filter (fun g => g.cohortId == cid)).map
        (fun g => g.id)).contains y = true ↔
      (∃ h' ∈ base.classGroups, h'.id = y ∧ h'.cohortId = cid ∧
        h'.cohortId ∉ deadCohortIds base semId P)) := by
    intro y hy
    constructor
    · intro hcon
      obtain ⟨h', hh', hh'id⟩ := List.mem_map.mp (List.mem_of_elem_eq_true hcon)
      have hh'mem : h' ∈ acc.db.classGroups := (List.mem_filter.mp hh').1
      have hh'cid : (h'.cohortId == cid) = true := (List.mem_filter.mp hh').2
      rw [hblk1] at hh'mem
      rcases List.mem_append.mp hh'mem with hin | hin
      · have hbasein : h' ∈ base.classGroups := (List.mem_filter.mp hin).1
        have hkept : (!((deadCohortIds base semId P).contains h'.cohortId)) = true :=
          (List.mem_filter.mp hin).2
        refine ⟨h', hbasein, hh'id, eq_of_beq hh'cid, ?_⟩
        intro hc
        rw [(contains_iff_mem _ _).mpr hc] at hkept
        exact absurd hkept (by decide)
      · have := hflatlow h' hin
        omega
    · rintro ⟨h', hh', hh'id, hh'cid, hh'kept⟩
      have hker : h' ∈ acc.db.classGroups := by
        rw [hblk1]
        refine List.mem_append_left _ (List.mem_filter.mpr ⟨hh', ?_⟩)
        rw [(contains_eq_false_iff _ _).mpr hh'kept]
        decide
      have : h' ∈ acc.db.classGroups.filter (fun g => g.cohortId == cid) :=
        List.mem_filter.mpr ⟨hker, by rw [hh'cid, beq_self_eq_true]⟩
      refine List.elem_eq_true_of_mem ?_
      rw [← hh'id]
      exact List.mem_map_of_mem _ this
  -- old kept groups and entries, re-expressed against the enlarged dead sets
  have hK : (base.classGroups.filter (fun g =>
      !((deadCohortIds base semId P).contains g.cohortId))).filter
        (fun g => !(g.cohortId == cid)) =
      base.classGroups.filter (fun g =>
        !((deadCohortIds base semId (P ++ [s])).contains g.cohortId)) := by
    rw [List.filter_filter]
    refine List.filter_congr ?_
    intro g hg
    by_cases hA : g.cohortId ∈ deadCohortIds base semId P
    · rw [(contains_iff_mem _ _).mpr hA,
        (contains_iff_mem _ _).mpr ((hddNewChar g.cohortId).mpr (Or.inl hA))]
      rw [Bool.not_true, Bool.and_false]
    · have hAc := (contains_eq_false_iff (deadCohortIds base semId P) g.cohortId).mpr hA
      rw [hAc]
      by_cases hB : g.cohortId = cid
      · have hcidbase : ∃ c ∈ base.cohorts, c.id = cid ∧ c.semesterId = semId ∧
            c.code = s.cohortCode := by
          rcases hbdich with h | ⟨hge, _⟩
          · exact h
          · exfalso
            have := hbase.groupCohortIdBound g hg
            omega
        rw [(contains_iff_mem _ _).mpr
          ((hddNewChar g.cohortId).mpr (Or.inr ⟨hcidbase, hB⟩))]
        rw [hB, beq_self_eq_true]
        decide
      · have hNc : g.cohortId ∉ deadCohortIds base semId (P ++ [s]) := by
          intro hc
          rcases (hddNewChar g.cohortId).mp hc with h | ⟨_, h⟩
          · exact hA h
          · exact hB h
        rw [(contains_eq_false_iff _ _).mpr hNc, beq_eq_false_iff_ne.mpr hB]
        decide
  have hdgChar : ∀ (e : ScheduleEntryRow), e ∈ base.entries →
      ∀ (Q : List ParsedSheetData),
      ((deadGroupIds base semId Q).contains e.classGroupId = true ↔
        (∃ g0 ∈ base.classGroups, g0.id = e.classGroupId ∧
          g0.cohortId ∈ deadCohortIds base semId Q)) := by
    intro e _ Q
    constructor
    · intro h
      rw [contains_iff_mem] at h
      rw [mem_deadGroupIds] at h
      exact h
    · intro h
      rw [contains_iff_mem, mem_deadGroupIds]
      exact h
  have hE : (base.entries.filter (fun e =>
      !((deadGroupIds base semId P).contains e.classGroupId))).filter
        (fun e => !(((acc.db.classGroups.filter (fun g => g.cohortId == cid)).map
          (fun g => g.id)).contains e.classGroupId)) =
      base.entries.filter (fun e =>
        !((deadGroupIds base semId (P ++ [s])).contains e.classGroupId)) := by
    rw [List.filter_filter]
    refine List.filter_congr ?_
    intro e he
    obtain ⟨g0, hg0, hg0id⟩ := hbase.entryGroupRef e he
    have hg0lt : g0.id < base.nextId := hbase.groupIdBound g0 hg0
    have hylt : e.classGroupId < base.nextId := by omega
    have hdgP : (deadGroupIds base semId P).contains e.classGroupId = true ↔
        g0.cohortId ∈ deadCohortIds base semId P := by
      rw [hdgChar e he P]
      constructor
      · rintro ⟨g', hg', hg'id, hg'dead⟩
        have : g' = g0 := List.inj_on_of_nodup_map hbase.groupIdsNodup hg' hg0
          (by rw [hg'id, hg0id])
        rw [← this]
        exact hg'dead
      · intro h
        exact ⟨g0, hg0, hg0id, h⟩
    have hdgPs : (deadGroupIds base semId (P ++ [s])).contains e.classGroupId = true ↔
        g0.cohortId ∈ deadCohortIds base semId (P ++ [s]) := by
      rw [hdgChar e he (P ++ [s])]
      constructor
      · rintro ⟨g', hg', hg'id, hg'dead⟩
        have : g' = g0 := List.inj_on_of_nodup_map hbase.groupIdsNodup hg' hg0
          (by rw [hg'id, hg0id])
        rw [← this]
        exact hg'dead
      · intro h
        exact ⟨g0, hg0, hg0id, h⟩
    have hexE : (((acc.db.classGroups.filter (fun g => g.cohortId == cid)).map
        (fun g => g.id)).contains e.classGroupId = true ↔
        (g0.cohortId = cid ∧ g0.cohortId ∉ deadCohortIds base semId P)) := by
      rw [hexIds e.classGroupId hylt]
      constructor
      · rintro ⟨h', hh', hh'id, hh'cid, hh'kept⟩
        have : h' = g0 := List.inj_on_of_nodup_map hbase.groupIdsNodup hh' hg0
          (by rw [hh'id, hg0id])
        rw [← this]
        exact ⟨hh'cid, hh'kept⟩
      · rintro ⟨h1, h2⟩
        exact ⟨g0, hg0, hg0id, h1, h2⟩
    by_cases hA : g0.cohortId ∈ deadCohortIds base semId P
    · have h1 : (deadGroupIds base semId P).contains e.classGroupId = true :=
        hdgP.mpr hA
      have h2 : (deadGroupIds base semId (P ++ [s])).contains e.classGroupId = true :=
        hdgPs.mpr (hddmono _ hA)
      rw [h1, h2, Bool.not_true, Bool.and_false]
    · have h1 : (deadGroupIds base semId P).contains e.classGroupId = false := by
        cases hc : (deadGroupIds base semId P).contains e.classGroupId with
        | false => rfl
        | true => exact absurd (hdgP.mp hc) hA
      rw [h1]
      by_cases hB : g0.cohortId = cid
      · have hcidbase : ∃ c ∈ base.cohorts, c.id = cid ∧ c.semesterId = semId ∧
            c.code = s.cohortCode := by
          rcases hbdich with h | ⟨hge, _⟩
          · exact h
          · exfalso
            have := hbase.groupCohortIdBound g0 hg0
            omega
        have h2 : (deadGroupIds base semId (P ++ [s])).contains e.classGroupId = true :=
          hdgPs.mpr ((hddNewChar g0.cohortId).mpr (Or.inr ⟨hcidbase, hB⟩))
        have h3 : (((acc.db.classGroups.filter (fun g => g.cohortId == cid)).map
            (fun g => g.id)).contains e.classGroupId) = true :=
          hexE.mpr ⟨hB, hA⟩
        rw [h2, h3]
        decide
      · have h2 : (deadGroupIds base semId (P ++ [s])).contains e.classGroupId = false := by
          cases hc : (deadGroupIds base semId (P ++ [s])).contains e.classGroupId with
          | false => rfl
          | true =>
            exfalso
            rcases (hddNewChar g0.cohortId).mp (hdgPs.mp hc) with h | ⟨_, h⟩
            · exact hA h
            · exact hB h
        have h3 : (((acc.db.classGroups.filter (fun g => g.cohortId == cid)).map
            (fun g => g.id)).contains e.classGroupId) = false := by
          cases hc : ((acc.db.classGroups.filter (fun g => g.cohortId == cid)).map
              (fun g => g.id)).contains e.classGroupId with
          | false => rfl
          | true => exact absurd (hexE.mp hc).1 hB
        rw [h2, h3]
        decide
  refine ⟨ct, cid, pairs', hcid, hcres, hcrecoh, hcreco, hcren, hctelem, hctlen, hctnew,
    hcid2, hcidlt, hT'ids, hT'keys, hcreg, hcree, ?_, ?_, hprel⟩
  · rw [hblk1, List.filter_append, hK, hpg]
  · rw [hblk2, List.filter_append, hE, hpe]

theorem forall₂_append {α β : Type} {R : α → β → Prop} {l₁ l₁' : List α} {l₂ l₂' : List β}
    (h : List.Forall₂ R l₁ l₂) (h' : List.Forall₂ R l₁' l₂') :
    List.Forall₂ R (l₁ ++ l₁') (l₂ ++ l₂') := by
  induction h with
  | nil => exact h'
  | cons hR _ ih => exact List.Forall₂.cons hR ih

/-- One sheet iteration preserves the loop invariant. -/
theorem processSheet_inv (base : Db) (semId : Nat) (P : List ParsedSheetData)
    (acc : ImportAcc) (s : ParsedSheetData)
    (hbase : WellFormed base) (hinv : LoopInv base semId P acc) :
    LoopInv base semId (P ++ [s]) (processSheet semId acc s) := by
  obtain ⟨ct, cid, pairs', hcid, h3s, h3coh, h3co, h3n, hctelem, hctlen, hctnew, hcid2,
    hcidlt, hT'ids, hT'keys, h3g, h3e, hKsplit, hEsplit, hprel⟩ :=
    dbAfterGroups_shape base semId P acc s hbase hinv
  -- course upserts of this sheet
  have hcodesnd : (cohortCourseCodesOf s).Nodup := nodup_dedupFirst _
  have h3codes : ((dbAfterGroups semId acc.db s).courses.map (fun c => c.code)).Nodup := by
    rw [h3co]
    exact hinv.wf.courseCodesNodup
  obtain ⟨createdS, hcs1, hcs2, hcs3, hcs4⟩ :=
    foldl_upsertCourse_char (catalogLookup s.catalog) (cohortCourseCodesOf s)
      (dbAfterGroups semId acc.db s) hcodesnd h3codes
  rw [← courseUpserts_eq] at hcs1
  have hcs3' : ∀ r ∈ createdS,
      r = applyCourseMeta (catalogLookup s.catalog r.code) (blankCourse r.id r.code) ∧
      (dbAfterGroups semId acc.db s).nextId ≤ r.id ∧
      r.id < (courseUpserts (dbAfterGroups semId acc.db s) s).nextId := by
    intro r hr
    obtain ⟨h1, h2, h3⟩ := hcs3 r hr
    rw [← courseUpserts_eq] at h3
    exact ⟨h1, h2, h3⟩
  have hFscode : ∀ c : CourseRow,
      ((if (cohortCourseCodesOf s).contains c.code
        then applyCourseMeta (catalogLookup s.catalog c.code) c else c)).code = c.code := by
    intro c
    by_cases h : ((cohortCourseCodesOf s).contains c.code) = true
    · rw [if_pos h, applyCourseMeta_code]
    · rw [if_neg h]
  have hFsid : ∀ c : CourseRow,
      ((if (cohortCourseCodesOf s).contains c.code
        then applyCourseMeta (catalogLookup s.catalog c.code) c else c)).id = c.id := by
    intro c
    by_cases h : ((cohortCourseCodesOf s).contains c.code) = true
    · rw [if_pos h, applyCourseMeta_id]
    · rw [if_neg h]
  -- frames of the course-upsert fold
  have h4g : (courseUpserts (dbAfterGroups semId acc.db s) s).classGroups =
      (dbAfterGroups semId acc.db s).classGroups := by
    rw [courseUpserts_eq, foldl_upsertCourse_classGroups]
  have h4e : (courseUpserts (dbAfterGroups semId acc.db s) s).entries =
      (dbAfterGroups semId acc.db s).entries := by
    rw [courseUpserts_eq, foldl_upsertCourse_entries]
  have h4coh : (courseUpserts (dbAfterGroups semId acc.db s) s).cohorts =
      (dbAfterGroups semId acc.db s).cohorts := by
    rw [courseUpserts_eq, foldl_upsertCourse_cohorts]
  have h4s : (courseUpserts (dbAfterGroups semId acc.db s) s).semesters =
      (dbAfterGroups semId acc.db s).semesters := by
    rw [courseUpserts_eq, foldl_upsertCourse_semesters]
  have h4n : (dbAfterGroups semId acc.db s).nextId ≤
      (courseUpserts (dbAfterGroups semId acc.db s) s).nextId := by
    rw [courseUpserts_eq]
    exact foldl_upsertCourse_nextId_le _ _ _
  have hnacc3 : acc.db.nextId ≤ (dbAfterGroups semId acc.db s).nextId := by
    rw [h3n]
    omega
  -- the refreshed cohort's group map is exactly the fresh block
  have hcgmap : classGroupMapOf (dbAfterGroups semId acc.db s) cid =
      ((groupNamesOf s).enum.map (fun p =>
        (⟨acc.db.nextId + ct.length + p.1, cid, p.2⟩ : ClassGroupRow))).map
        (fun g => (g.name, g.id)) := by
    unfold classGroupMapOf
    rw [h3g, List.filter_append]
    have h1 : (acc.db.classGroups.filter (fun g => !(g.cohortId == cid))).filter
        (fun g => g.cohortId == cid) = [] := by
      rw [List.filter_eq_nil_iff]
      intro g hg
      have h2 := (List.mem_filter.mp hg).2
      intro hc
      rw [hc] at h2
      exact absurd h2 (by decide)
    have h2 : ((groupNamesOf s).enum.map (fun p =>
        (⟨acc.db.nextId + ct.length + p.1, cid, p.2⟩ : ClassGroupRow))).filter
        (fun g => g.cohortId == cid) =
        ((groupNamesOf s).enum.map (fun p =>
          (⟨acc.db.nextId + ct.length + p.1, cid, p.2⟩ : ClassGroupRow))) := by
      rw [List.filter_eq_self]
      intro g hg
      rw [(groupRows_facts _ _ _ g hg).1, beq_self_eq_true]
    rw [h1, h2, List.nil_append]
  have hm1 : ∀ p ∈ classGroupMapOf (dbAfterGroups semId acc.db s) cid,
      ∃ g ∈ (groupNamesOf s).enum.map (fun p =>
        (⟨acc.db.nextId + ct.length + p.1, cid, p.2⟩ : ClassGroupRow)),
        g.name = p.1 ∧ g.id = p.2 := by
    intro p hp
    rw [hcgmap] at hp
    obtain ⟨g, hg, rfl⟩ := List.mem_map.mp hp
    exact ⟨g, hg, rfl, rfl⟩
  have hgres : ∀ ev ∈ s.events,
      (lookupId (classGroupMapOf (dbAfterGroups semId acc.db s) cid)
        ev.classGroupName).isSome = true := by
    intro ev hev
    rw [lookupId_isSome_iff]
    have hname : ev.classGroupName ∈ groupNamesOf s := by
      unfold groupNamesOf
      rw [mem_sortStrings, mem_dedupFirst]
      exact List.mem_map_of_mem _ hev
    rw [← groupRows_names (acc.db.nextId + ct.length) cid (groupNamesOf s)] at hname
    obtain ⟨g, hg, hgname⟩ := List.mem_map.mp hname
    refine ⟨(g.name, g.id), ?_, hgname⟩
    rw [hcgmap]
    exact List.mem_map_of_mem _ hg
  -- every sheet course code has a row after the upserts
  have hdb4codes : ∀ x ∈ cohortCourseCodesOf s,
      ∃ c ∈ (courseUpserts (dbAfterGroups semId acc.db s) s).courses, c.code = x := by
    intro x hx
    by_cases hin : ∃ c0 ∈ (dbAfterGroups semId acc.db s).courses, c0.code = x
    · obtain ⟨c0, hc0, rfl⟩ := hin
      refine ⟨(if (cohortCourseCodesOf s).contains c0.code
        then applyCourseMeta (catalogLookup s.catalog c0.code) c0 else c0), ?_, hFscode c0⟩
      rw [hcs1]
      exact List.mem_append_left _ (List.mem_map_of_mem _ hc0)
    · have hxnew : x ∈ createdS.map (fun c => c.code) := by
        rw [hcs2]
        refine List.mem_filter.mpr ⟨hx, ?_⟩
        have : x ∉ (dbAfterGroups semId acc.db s).courses.map (fun c => c.code) := by
          intro hc
          obtain ⟨c0, hc0, hcc⟩ := List.mem_map.mp hc
          exact hin ⟨c0, hc0, hcc⟩
        rw [(contains_eq_false_iff _ _).mpr this]
        decide
      obtain ⟨r, hr, hrc⟩ := List.mem_map.mp hxnew
      refine ⟨r, ?_, hrc⟩
      rw [hcs1]
      exact List.mem_append_right _ hr
  have hcres : ∀ ev ∈ s.events,
      (lookupId (courseMapOf (courseUpserts (dbAfterGroups semId acc.db s) s)
        (cohortCourseCodesOf s)) ev.courseCode).isSome = true := by
    intro ev hev
    rw [lookupId_isSome_iff]
    have hcode : ev.courseCode ∈ cohortCourseCodesOf s := by
      unfold cohortCourseCodesOf
      rw [mem_dedupFirst]
      exact List.mem_append_left _ (List.mem_map_of_mem _ hev)
    obtain ⟨c, hc, hcc⟩ := hdb4codes ev.courseCode hcode
    refine ⟨(c.code, c.id), ?_, hcc⟩
    unfold courseMapOf
    refine List.mem_map_of_mem _ (List.mem_filter.mpr ⟨hc, ?_⟩)
    rw [hcc]
    exact List.elem_eq_true_of_mem hcode
  have hm2 : ∀ p ∈ courseMapOf (courseUpserts (dbAfterGroups semId acc.db s) s)
      (cohortCourseCodesOf s),
      ∃ c ∈ (courseUpserts (dbAfterGroups semId acc.db s) s).courses,
        c.code = p.1 ∧ c.id = p.2 := by
    intro p hp
    unfold courseMapOf at hp
    obtain ⟨c, hc, rfl⟩ := List.mem_map.mp hp
    exact ⟨c, (List.mem_filter.mp hc).1, rfl, rfl⟩
  have hres : ∀ ev ∈ s.events, eventResolvable
      (classGroupMapOf (dbAfterGroups semId acc.db s) cid)
      (courseMapOf (courseUpserts (dbAfterGroups semId acc.db s) s)
        (cohortCourseCodesOf s)) ev = true := by
    intro ev hev
    unfold eventResolvable
    rw [Bool.and_eq_true]
    exact ⟨hgres ev hev, hcres ev hev⟩
  have hed : buildEntryData semId (classGroupMapOf (dbAfterGroups semId acc.db s) cid)
      (courseMapOf (courseUpserts (dbAfterGroups semId acc.db s) s)
        (cohortCourseCodesOf s)) s.events =
      s.events.map (entryInputOf semId
        (classGroupMapOf (dbAfterGroups semId acc.db s) cid)
        (courseMapOf (courseUpserts (dbAfterGroups semId acc.db s) s)
          (cohortCourseCodesOf s))) := by
    rw [buildEntryData_eq_filter_map, List.filter_eq_self.mpr hres]
  have hedlen : (buildEntryData semId (classGroupMapOf (dbAfterGroups semId acc.db s) cid)
      (courseMapOf (courseUpserts (dbAfterGroups semId acc.db s) s)
        (cohortCourseCodesOf s)) s.events).length = s.events.length := by
    rw [hed, List.length_map]
  -- the processed accumulator
  have hPdb : (processSheet semId acc s).db =
      appendEntries (courseUpserts (dbAfterGroups semId acc.db s) s)
        (buildEntryData semId (classGroupMapOf (dbAfterGroups semId acc.db s) cid)
          (courseMapOf (courseUpserts (dbAfterGroups semId acc.db s) s)
            (cohortCourseCodesOf s)) s.events) := by
    show appendEntries (courseUpserts (dbAfterGroups semId acc.db s) s)
        (buildEntryData semId (classGroupMapOf (dbAfterGroups semId acc.db s)
            (upsertCohort acc.db semId s.cohortCode).2)
          (courseMapOf (courseUpserts (dbAfterGroups semId acc.db s) s)
            (cohortCourseCodesOf s)) s.events) = _
    rw [hcid]
  have happ := appendEntries_spec (courseUpserts (dbAfterGroups semId acc.db s) s)
    (buildEntryData semId (classGroupMapOf (dbAfterGroups semId acc.db s) cid)
      (courseMapOf (courseUpserts (dbAfterGroups semId acc.db s) s)
        (cohortCourseCodesOf s)) s.events)
  have hnewg : (processSheet semId acc s).db.classGroups =
      (dbAfterGroups semId acc.db s).classGroups := by
    rw [hPdb, appendEntries_classGroups, h4g]
  have hnewcoh : (processSheet semId acc s).db.cohorts = acc.db.cohorts ++ ct := by
    rw [hPdb, appendEntries_cohorts, h4coh, h3coh]
  have hnewsem : (processSheet semId acc s).db.semesters = acc.db.semesters := by
    rw [hPdb, appendEntries_semesters, h4s, h3s]
  have hnewco : (processSheet semId acc s).db.courses =
      (courseUpserts (dbAfterGroups semId acc.db s) s).courses := by
    rw [hPdb, appendEntries_courses]
  have hnewe : (processSheet semId acc s).db.entries =
      (courseUpserts (dbAfterGroups semId acc.db s) s).entries ++
        ((buildEntryData semId (classGroupMapOf (dbAfterGroups semId acc.db s) cid)
          (courseMapOf (courseUpserts (dbAfterGroups semId acc.db s) s)
            (cohortCourseCodesOf s)) s.events).enum.map (fun p =>
          (⟨(courseUpserts (dbAfterGroups semId acc.db s) s).nextId + p.1,
            p.2.semesterId, p.2.classGroupId, p.2.courseId, p.2.dayOfWeek, p.2.session,
            p.2.startTime, p.2.rawTime, p.2.room, p.2.sourceSheet,
            p.2.sourceRow⟩ : ScheduleEntryRow))) := by
    rw [hPdb, happ]
  have hnewn : (processSheet semId acc s).db.nextId =
      (courseUpserts (dbAfterGroups semId acc.db s) s).nextId +
        (buildEntryData semId (classGroupMapOf (dbAfterGroups semId acc.db s) cid)
          (courseMapOf (courseUpserts (dbAfterGroups semId acc.db s) s)
            (cohortCourseCodesOf s)) s.events).length := by
    rw [hPdb, happ]
  have hnaccnew : acc.db.nextId ≤ (processSheet semId acc s).db.nextId := by
    rw [hnewn]
    calc acc.db.nextId ≤ (dbAfterGroups semId acc.db s).nextId := hnacc3
      _ ≤ (courseUpserts (dbAfterGroups semId acc.db s) s).nextId := h4n
      _ ≤ _ := Nat.le_add_right _ _
  have hctpos : ct ≠ [] → acc.db.nextId < acc.db.nextId + ct.length := by
    intro h
    cases ct with
    | nil => exact absurd rfl h
    | cons a t => simp
  refine ⟨?_, by rw [hnewsem]; exact hinv.semesters_eq, ?_, ?_, ?_, ?_, ?_, ?_⟩
  -- well-formedness of the new store
  · obtain ⟨ctail, hctail, hctailfacts⟩ := hinv.cohorts_ext
    refine ⟨?_, ?_, ?_, ?_, ?_, ?_, ?_, ?_, ?_, ?_, ?_, ?_, ?_, ?_⟩
    · intro x hx
      rw [hnewsem] at hx
      exact lt_of_lt_of_le (hinv.wf.semIdBound x hx) hnaccnew
    · intro x hx
      rw [hnewcoh] at hx
      rcases List.mem_append.mp hx with h | h
      · exact lt_of_lt_of_le (hinv.wf.cohortIdBound x h) hnaccnew
      · rw [hctelem x h]
        show acc.db.nextId < _
        calc acc.db.nextId < acc.db.nextId + ct.length := by
              refine hctpos ?_
              intro hc
              rw [hc] at h
              exact absurd h (List.not_mem_nil x)
          _ ≤ (dbAfterGroups semId acc.db s).nextId := by rw [h3n]; omega
          _ ≤ (courseUpserts (dbAfterGroups semId acc.db s) s).nextId := h4n
          _ ≤ _ := by rw [hnewn]; exact Nat.le_add_right _ _
    · intro g hg
      rw [hnewg, h3g] at hg
      rcases List.mem_append.mp hg with h | h
      · exact lt_of_lt_of_le
          (hinv.wf.groupIdBound g (List.mem_filter.mp h).1) hnaccnew
      · have := (groupRows_facts _ _ _ g h).2.2
        calc g.id < acc.db.nextId + ct.length + (groupNamesOf s).length := this
          _ = (dbAfterGroups semId acc.db s).nextId := h3n.symm
          _ ≤ (courseUpserts (dbAfterGroups semId acc.db s) s).nextId := h4n
          _ ≤ _ := by rw [hnewn]; exact Nat.le_add_right _ _
    · intro g hg
      rw [hnewg, h3g] at hg
      rcases List.mem_append.mp hg with h | h
      · exact lt_of_lt_of_le
          (hinv.wf.groupCohortIdBound g (List.mem_filter.mp h).1) hnaccnew
      · rw [(groupRows_facts _ _ _ g h).1]
        calc cid < acc.db.nextId + ct.length := hcidlt
          _ ≤ (dbAfterGroups semId acc.db s).nextId := by rw [h3n]; omega
          _ ≤ (courseUpserts (dbAfterGroups semId acc.db s) s).nextId := h4n
          _ ≤ _ := by rw [hnewn]; exact Nat.le_add_right _ _
    · intro c hc
      rw [hnewco, hcs1] at hc
      rcases List.mem_append.mp hc with h | h
      · obtain ⟨c0, hc0, rfl⟩ := List.mem_map.mp h
        rw [hFsid c0]
        rw [h3co] at hc0
        exact lt_of_lt_of_le (hinv.wf.courseIdBound c0 hc0) hnaccnew
      · have := (hcs3' c h).2.2
        calc c.id < (courseUpserts (dbAfterGroups semId acc.db s) s).nextId := this
          _ ≤ _ := by rw [hnewn]; exact Nat.le_add_right _ _
    · intro e he
      rw [hnewe] at he
      rcases List.mem_append.mp he with h | h
      · rw [h4e, h3e] at h
        exact lt_of_lt_of_le
          (hinv.wf.entryIdBound e (List.mem_filter.mp h).1) hnaccnew
      · have := (entryRows_facts _ _ e h).2
        rw [hnewn]
        exact this
    · rw [hnewsem]
      exact hinv.wf.semIdsNodup
    · rw [hnewcoh]
      exact hT'ids
    · rw [hnewg, h3g, List.map_append]
      refine List.Nodup.append ?_ (groupRows_ids_nodup _ _ _) ?_
      · exact List.Nodup.sublist (List.Sublist.map _ (List.filter_sublist _))
          hinv.wf.groupIdsNodup
      · intro a ha hb
        obtain ⟨g1, hg1, rfl⟩ := List.mem_map.mp ha
        obtain ⟨g2, hg2, hid2⟩ := List.mem_map.mp hb
        have h1 := hinv.wf.groupIdBound g1 (List.mem_filter.mp hg1).1
        have h2 := (groupRows_facts _ _ _ g2 hg2).2.1
        omega
    · rw [hnewco, hcs1, List.map_append]
      have hmapeq : ((dbAfterGroups semId acc.db s).courses.map (fun c =>
          if (cohortCourseCodesOf s).contains c.code
          then applyCourseMeta (catalogLookup s.catalog c.code) c else c)).map
            (fun c => c.id) =
          (dbAfterGroups semId acc.db s).courses.map (fun c => c.id) := by
        rw [List.map_map]
        refine List.map_congr_left ?_
        intro c _
        exact hFsid c
      rw [hmapeq]
      refine List.Nodup.append ?_ hcs4 ?_
      · rw [h3co]
        exact hinv.wf.courseIdsNodup
      · intro a ha hb
        obtain ⟨c1, hc1, rfl⟩ := List.mem_map.mp ha
        obtain ⟨c2, hc2, hid2⟩ := List.mem_map.mp hb
        rw [h3co] at hc1
        have h1 := hinv.wf.courseIdBound c1 hc1
        have h2 := (hcs3' c2 hc2).2.1
        have h3 : acc.db.nextId ≤ (dbAfterGroups semId acc.db s).nextId := hnacc3
        omega
    · rw [hnewsem]
      exact hinv.wf.semKeysNodup
    · rw [hnewcoh]
      exact hT'keys
    · rw [hnewco, hcs1, List.map_append]
      have hmapeq : ((dbAfterGroups semId acc.db s).courses.map (fun c =>
          if (cohortCourseCodesOf s).contains c.code
          then applyCourseMeta (catalogLookup s.catalog c.code) c else c)).map
            (fun c => c.code) =
          (dbAfterGroups semId acc.db s).courses.map (fun c => c.code) := by
        rw [List.map_map]
        refine List.map_congr_left ?_
        intro c _
        exact hFscode c
      rw [hmapeq, hcs2]
      refine List.Nodup.append h3codes (List.Nodup.filter _ hcodesnd) ?_
      intro a ha hb
      have := (List.mem_filter.mp hb).2
      rw [(contains_iff_mem _ _).mpr ha] at this
      exact absurd this (by decide)
    · intro e he
      rw [hnewe] at he
      rcases List.mem_append.mp he with h | h
      · rw [h4e, h3e] at h
        have hemem : e ∈ acc.db.entries := (List.mem_filter.mp h).1
        have hcond := (List.mem_filter.mp h).2
        obtain ⟨g0, hg0, hg0id⟩ := hinv.wf.entryGroupRef e hemem
        refine ⟨g0, ?_, hg0id⟩
        rw [hnewg, h3g]
        refine List.mem_append_left _ (List.mem_filter.mpr ⟨hg0, ?_⟩)
        cases hch : (g0.cohortId == cid) with
        | false => decide
        | true =>
          exfalso
          have hgm : g0 ∈ acc.db.classGroups.filter (fun g => g.cohortId == cid) :=
            List.mem_filter.mpr ⟨hg0, hch⟩
          have hmm : e.classGroupId ∈ (acc.db.classGroups.filter
              (fun g => g.cohortId == cid)).map (fun g => g.id) := by
            rw [← hg0id]
            exact List.mem_map_of_mem _ hgm
          have hcc : ((acc.db.classGroups.filter (fun g => g.cohortId == cid)).map
              (fun g => g.id)).contains e.classGroupId = true :=
            List.elem_eq_true_of_mem hmm
          rw [hcc] at hcond
          exact absurd hcond (by decide)
      · have hforall := entry_block_forall₂ semId
          (classGroupMapOf (dbAfterGroups semId acc.db s) cid)
          (courseMapOf (courseUpserts (dbAfterGroups semId acc.db s) s)
            (cohortCourseCodesOf s)) s.events
          (courseUpserts (dbAfterGroups semId acc.db s) s)
          (courseUpserts (dbAfterGroups semId acc.db s) s).nextId
          ((groupNamesOf s).enum.map (fun p =>
            (⟨acc.db.nextId + ct.length + p.1, cid, p.2⟩ : ClassGroupRow)))
          hres hm1 hm2
        obtain ⟨ev, _, _, ⟨g, hg, hgid, _⟩, _⟩ := forall₂_mem_left hforall e h
        refine ⟨g, ?_, hgid⟩
        rw [hnewg, h3g]
        exact List.mem_append_right _ hg
  -- cohorts extension
  · obtain ⟨ctail, hctail, hctailfacts⟩ := hinv.cohorts_ext
    refine ⟨ctail ++ ct, by rw [hnewcoh, hctail, List.append_assoc], ?_⟩
    intro c hc
    rcases List.mem_append.mp hc with h | h
    · obtain ⟨h1, h2, h3, h4⟩ := hctailfacts c h
      refine ⟨h1, h2, ?_, h4⟩
      rw [List.any_append, h3]
      rfl
    · rw [hctelem c h]
      refine ⟨rfl, hinv.nextId_mono, ?_, ?_⟩
      · rw [List.any_append]
        have : ([s].any (fun t => t.cohortCode ==
            (⟨acc.db.nextId, semId, s.cohortCode⟩ : CohortRow).code)) = true := by
          rw [List.any_cons, List.any_nil, Bool.or_false]
          show (s.cohortCode == s.cohortCode) = true
          rw [beq_self_eq_true]
        rw [this, Bool.or_true]
      · intro c0 hc0 hmatch
        refine hctnew ?_ c0 ?_ hmatch
        · intro hcnil
          rw [hcnil] at h
          exact absurd h (List.not_mem_nil c)
        · rw [hctail]
          exact List.mem_append_left _ hc0
  -- every processed sheet's cohort exists
  · intro t ht
    rcases List.mem_append.mp ht with h | h
    · obtain ⟨c, hc, h1, h2⟩ := hinv.cohorts_present t h
      exact ⟨c, by rw [hnewcoh]; exact List.mem_append_left _ hc, h1, h2⟩
    · rcases List.mem_singleton.mp h with rfl
      obtain ⟨c, hc, _, h1, h2⟩ := hcid2
      exact ⟨c, by rw [hnewcoh]; exact hc, h1, h2⟩
  -- counter monotonicity
  · exact le_trans hinv.nextId_mono hnaccnew
  -- course table characterization
  · obtain ⟨createdOld, hco1, hco2, hco3⟩ := hinv.courses_char
    have hCC1 : ∀ c0 : CourseRow,
        (if (cohortCourseCodesOf s).contains
            (courseRowFold c0 (rowUpdatesFor c0.code P)).code
          then applyCourseMeta (catalogLookup s.catalog
            (courseRowFold c0 (rowUpdatesFor c0.code P)).code)
            (courseRowFold c0 (rowUpdatesFor c0.code P))
          else courseRowFold c0 (rowUpdatesFor c0.code P)) =
        courseRowFold c0 (rowUpdatesFor c0.code (P ++ [s])) := by
      intro c0
      rw [rowUpdatesFor_append, courseRowFold_append, rowUpdatesFor_single]
      rw [courseRowFold_code]
      by_cases h : ((cohortCourseCodesOf s).contains c0.code) = true
      · rw [if_pos h, if_pos h]
        rfl
      · rw [if_neg h, if_neg h]
        rfl
    refine ⟨createdOld.map (fun c =>
        if (cohortCourseCodesOf s).contains c.code
        then applyCourseMeta (catalogLookup s.catalog c.code) c else c) ++ createdS,
      ?_, ?_, ?_⟩
    · rw [hnewco, hcs1, h3co, hco1, List.map_append, List.map_map, List.append_assoc]
      refine congrArg₂ _ (List.map_congr_left ?_) rfl
      intro c0 _
      exact hCC1 c0
    · rw [List.map_append]
      have hl : (createdOld.map (fun c =>
          if (cohortCourseCodesOf s).contains c.code
          then applyCourseMeta (catalogLookup s.catalog c.code) c else c)).map
            (fun c => c.code) = newCourseCodes base.courses P := by
        rw [List.map_map, ← hco2]
        refine List.map_congr_left ?_
        intro c _
        exact hFscode c
      rw [hl]
      have hacccodes : (dbAfterGroups semId acc.db s).courses.map (fun c => c.code) =
          base.courses.map (fun c => c.code) ++ newCourseCodes base.courses P := by
        rw [h3co, hco1, List.map_append, List.map_map, ← hco2]
        refine congrArg₂ _ (List.map_congr_left ?_) rfl
        intro c _
        exact courseRowFold_code _ c
      rw [hcs2, hacccodes]
      unfold newCourseCodes
      rw [List.flatMap_append]
      rw [show ([s].flatMap cohortCourseCodesOf) = cohortCourseCodesOf s by
        rw [List.flatMap_cons, List.flatMap_nil, List.append_nil]]
      rw [dedupFirst_append_right_nodup _ _ hcodesnd, List.filter_append]
      refine congrArg₂ _ rfl ?_
      rw [List.filter_filter]
      refine List.filter_congr ?_
      intro x hx
      have hnewcc : (newCourseCodes base.courses P).contains x =
          ((P.flatMap cohortCourseCodesOf).contains x &&
            !((base.courses.map (fun c => c.code)).contains x)) := by
        cases hA : ((base.courses.map (fun c => c.code)).contains x) with
        | true =>
          have hnot : x ∉ newCourseCodes base.courses P := by
            intro hc
            unfold newCourseCodes at hc
            have := (List.mem_filter.mp hc).2
            rw [hA] at this
            exact absurd this (by decide)
          rw [(contains_eq_false_iff _ _).mpr hnot, Bool.not_true, Bool.and_false]
        | false =>
          cases hB : ((P.flatMap cohortCourseCodesOf).contains x) with
          | true =>
            have hin : x ∈ newCourseCodes base.courses P := by
              unfold newCourseCodes
              refine List.mem_filter.mpr
                ⟨(mem_dedupFirst _ _).mpr (List.mem_of_elem_eq_true hB), ?_⟩
              rw [hA]
              decide
            rw [(contains_iff_mem _ _).mpr hin]
            rfl
          | false =>
            have hnot : x ∉ newCourseCodes base.courses P := by
              intro hc
              unfold newCourseCodes at hc
              have hmem2 := (mem_dedupFirst _ _).mp (List.mem_filter.mp hc).1
              have hc2 : (P.flatMap cohortCourseCodesOf).contains x = true :=
                List.elem_eq_true_of_mem hmem2
              rw [hc2] at hB
              exact absurd hB (by decide)
            rw [(contains_eq_false_iff _ _).mpr hnot]
            rfl
      rw [list_contains_append]
      rw [show (List.filter
          (fun code => !(List.map (fun c => c.code) base.courses).contains code)
          (dedupFirst (P.flatMap cohortCourseCodesOf))) =
        newCourseCodes base.courses P from rfl]
      rw [hnewcc]
      cases hA : ((base.courses.map (fun c => c.code)).contains x) <;>
        cases hB : ((P.flatMap cohortCourseCodesOf).contains x) <;> rfl
    · intro r hr
      rcases List.mem_append.mp hr with h | h
      · obtain ⟨r0, hr0, rfl⟩ := List.mem_map.mp h
        obtain ⟨hform, hbound⟩ := hco3 r0 hr0
        constructor
        · rw [hFsid r0, hFscode r0]
          rw [rowUpdatesFor_append, courseRowFold_append, rowUpdatesFor_single]
          by_cases hc : ((cohortCourseCodesOf s).contains r0.code) = true
          · rw [if_pos hc, if_pos hc]
            show applyCourseMeta (catalogLookup s.catalog r0.code) r0 =
              courseRowFold (courseRowFold (blankCourse r0.id r0.code)
                (rowUpdatesFor r0.code P)) [catalogLookup s.catalog r0.code]
            rw [← hform]
            rfl
          · rw [if_neg hc, if_neg hc]
            show r0 = courseRowFold (courseRowFold (blankCourse r0.id r0.code)
              (rowUpdatesFor r0.code P)) []
            rw [← hform]
            rfl
        · rw [hFsid r0]
          exact hbound
      · obtain ⟨hform, hlow, _⟩ := hcs3' r h
        constructor
        · have hrcodes : r.code ∈ createdS.map (fun c => c.code) :=
            List.mem_map_of_mem _ h
          rw [hcs2] at hrcodes
          have hrin : r.code ∈ cohortCourseCodesOf s := (List.mem_filter.mp hrcodes).1
          have hrnotin := (List.mem_filter.mp hrcodes).2
          have hnot3 : r.code ∉ (dbAfterGroups semId acc.db s).courses.map
              (fun c => c.code) := by
            intro hc
            rw [(contains_iff_mem _ _).mpr hc] at hrnotin
            exact absurd hrnotin (by decide)
          have hacccodes : (dbAfterGroups semId acc.db s).courses.map
              (fun c => c.code) =
              base.courses.map (fun c => c.code) ++ newCourseCodes base.courses P := by
            rw [h3co, hco1, List.map_append, List.map_map, ← hco2]
            refine congrArg₂ _ (List.map_congr_left ?_) rfl
            intro c _
            exact courseRowFold_code _ c
          rw [hacccodes] at hnot3
          have hnb : r.code ∉ base.courses.map (fun c => c.code) :=
            fun hc => hnot3 (List.mem_append_left _ hc)
          have hnn : r.code ∉ newCourseCodes base.courses P :=
            fun hc => hnot3 (List.mem_append_right _ hc)
          have hnfl : r.code ∉ P.flatMap cohortCourseCodesOf := by
            intro hc
            refine hnn ?_
            unfold newCourseCodes
            refine List.mem_filter.mpr ⟨(mem_dedupFirst _ _).mpr hc, ?_⟩
            rw [(contains_eq_false_iff _ _).mpr hnb]
            decide
          rw [rowUpdatesFor_append, rowUpdatesFor_nil_of_not_mem _ _ hnfl,
            List.nil_append, rowUpdatesFor_single,
            if_pos (List.elem_eq_true_of_mem hrin)]
          rw [show courseRowFold (blankCourse r.id r.code)
              [catalogLookup s.catalog r.code] =
            applyCourseMeta (catalogLookup s.catalog r.code)
              (blankCourse r.id r.code) from rfl]
          exact hform
        · calc base.nextId ≤ acc.db.nextId := hinv.nextId_mono
            _ ≤ (dbAfterGroups semId acc.db s).nextId := hnacc3
            _ ≤ r.id := hlow
  -- class-group and entry blocks
  · refine ⟨pairs' ++ [(((groupNamesOf s).enum.map (fun p =>
      (⟨acc.db.nextId + ct.length + p.1, cid, p.2⟩ : ClassGroupRow))),
      ((buildEntryData semId (classGroupMapOf (dbAfterGroups semId acc.db s) cid)
        (courseMapOf (courseUpserts (dbAfterGroups semId acc.db s) s)
          (cohortCourseCodesOf s)) s.events).enum.map (fun p =>
        (⟨(courseUpserts (dbAfterGroups semId acc.db s) s).nextId + p.1,
          p.2.semesterId, p.2.classGroupId, p.2.courseId, p.2.dayOfWeek, p.2.session,
          p.2.startTime, p.2.rawTime, p.2.room, p.2.sourceSheet,
          p.2.sourceRow⟩ : ScheduleEntryRow))))], ?_, ?_, ?_⟩
    · rw [hnewg, h3g, hKsplit, List.map_append, List.flatten_append, List.append_assoc]
      refine congrArg _ (congrArg _ ?_)
      rw [List.map_cons, List.map_nil, List.flatten_cons, List.flatten_nil,
        List.append_nil]
    · rw [hnewe, h4e, h3e, hEsplit, List.map_append, List.flatten_append,
        List.append_assoc]
      refine congrArg _ (congrArg _ ?_)
      rw [List.map_cons, List.map_nil, List.flatten_cons, List.flatten_nil,
        List.append_nil]
    · rw [lastOccSheets_append_singleton]
      refine forall₂_append ?_ ?_
      · refine forall₂_mono hprel ?_
        intro pr t hrel
        refine sheetBlockRel_mono acc.db (processSheet semId acc s).db semId base.nextId
          pr t ⟨ct, hnewcoh⟩ ?_ hrel
        refine ⟨createdS.map (fun c => (c.id, c.code)), ?_⟩
        unfold courseKeys
        rw [hnewco, hcs1, h3co, List.map_append, List.map_map]
        refine congrArg₂ _ (List.map_congr_left ?_) rfl
        intro c _
        show ((if (cohortCourseCodesOf s).contains c.code
          then applyCourseMeta (catalogLookup s.catalog c.code) c else c).id,
          (if (cohortCourseCodesOf s).contains c.code
          then applyCourseMeta (catalogLookup s.catalog c.code) c else c).code) =
          (c.id, c.code)
        rw [hFsid c, hFscode c]
      · refine List.Forall₂.cons ?_ List.Forall₂.nil
        obtain ⟨c, hc, h1, h2, h3⟩ := hcid2
        refine ⟨cid, ⟨c, by rw [hnewcoh]; exact hc, h1, h2, h3⟩, ?_, ?_, ?_, ?_⟩
        · exact groupRows_pairs _ _ _
        · intro g hg
          calc base.nextId ≤ acc.db.nextId := hinv.nextId_mono
            _ ≤ acc.db.nextId + ct.length := Nat.le_add_right _ _
            _ ≤ g.id := (groupRows_facts _ _ _ g hg).2.1
        · intro e he
          calc base.nextId ≤ acc.db.nextId := hinv.nextId_mono
            _ ≤ (dbAfterGroups semId acc.db s).nextId := hnacc3
            _ ≤ (courseUpserts (dbAfterGroups semId acc.db s) s).nextId := h4n
            _ ≤ e.id := (entryRows_facts _ _ e he).1
        · have hforall := entry_block_forall₂ semId
            (classGroupMapOf (dbAfterGroups semId acc.db s) cid)
            (courseMapOf (courseUpserts (dbAfterGroups semId acc.db s) s)
              (cohortCourseCodesOf s)) s.events
            (courseUpserts (dbAfterGroups semId acc.db s) s)
            (courseUpserts (dbAfterGroups semId acc.db s) s).nextId
            ((groupNamesOf s).enum.map (fun p =>
              (⟨acc.db.nextId + ct.length + p.1, cid, p.2⟩ : ClassGroupRow)))
            hres hm1 hm2
          refine forall₂_mono hforall ?_
          rintro en ev ⟨ha, hb, hc', hd⟩
          refine ⟨ha, hb, ?_, hd⟩
          have hkeys : courseKeys (processSheet semId acc s).db =
              courseKeys (courseUpserts (dbAfterGroups semId acc.db s) s) := by
            unfold courseKeys
            rw [hnewco]
          rw [hkeys]
          exact hc'
  -- totals
  · obtain ⟨htot1, htot2, htot3⟩ := hinv.totals
    refine ⟨?_, ?_, ?_⟩
    · show acc.totalClassGroups + (groupNamesOf s).length = _
      rw [htot1, List.map_append, List.sum_append, List.map_cons, List.map_nil,
        List.sum_cons, List.sum_nil, Nat.add_zero]
    · show acc.totalEntries + (buildEntryData semId
        (classGroupMapOf (dbAfterGroups semId acc.db s)
          (upsertCohort acc.db semId s.cohortCode).2)
        (courseMapOf (courseUpserts (dbAfterGroups semId acc.db s) s)
          (cohortCourseCodesOf s)) s.events).length = _
      rw [hcid, hedlen, htot2, List.map_append, List.sum_append, List.map_cons,
        List.map_nil, List.sum_cons, List.sum_nil, Nat.add_zero]
    · show acc.allCourseCodes ++ (cohortCourseCodesOf s).filter
        (fun c => !(acc.allCourseCodes.contains c)) = _
      rw [List.flatMap_append]
      rw [show ([s].flatMap cohortCourseCodesOf) = cohortCourseCodesOf s by
        rw [List.flatMap_cons, List.flatMap_nil, List.append_nil]]
      rw [dedupFirst_append_right_nodup _ _ hcodesnd, htot3]
      refine congrArg _ (List.filter_congr ?_)
      intro x _
      rw [contains_dedupFirst]

/-- The invariant holds before any sheet is processed. -/
theorem loopInv_init (base : Db) (semId : Nat) (hbase : WellFormed base) :
    LoopInv base semId [] ⟨base, 0, 0, []⟩ := by
  refine ⟨hbase, rfl, ⟨[], by rw [List.append_nil], ?_⟩, ?_, le_rfl, ⟨[], ?_, rfl, ?_⟩,
    ⟨[], ?_, ?_, List.Forall₂.nil⟩, rfl, rfl, rfl⟩
  · intro c hc
    exact absurd hc (List.not_mem_nil c)
  · intro t ht
    exact absurd ht (List.not_mem_nil t)
  · show base.courses = base.courses.map
      (fun c => courseRowFold c (rowUpdatesFor c.code [])) ++ []
    rw [List.append_nil]
    have : base.courses.map (fun c => courseRowFold c (rowUpdatesFor c.code [])) =
        base.courses.map (fun c => c) := by
      refine List.map_congr_left ?_
      intro c _
      rfl
    rw [this, List.map_id']
  · intro r hr
    exact absurd hr (List.not_mem_nil r)
  · show base.classGroups = base.classGroups.filter
      (fun g => !((deadCohortIds base semId []).contains g.cohortId)) ++ []
    rw [List.append_nil]
    refine (List.filter_eq_self.mpr ?_).symm
    intro g _
    have : deadCohortIds base semId [] = [] := by
      unfold deadCohortIds
      rw [List.filter_eq_nil_iff.mpr ?_]
      · rfl
      · intro c _
        rw [List.any_nil, Bool.and_false]
        decide
    rw [this]
    rfl
  · show base.entries = base.entries.filter
      (fun e => !((deadGroupIds base semId []).contains e.classGroupId)) ++ []
    rw [List.append_nil]
    refine (List.filter_eq_self.mpr ?_).symm
    intro e _
    have hdc : deadCohortIds base semId [] = [] := by
      unfold deadCohortIds
      rw [List.filter_eq_nil_iff.mpr ?_]
      · rfl
      · intro c _
        rw [List.any_nil, Bool.and_false]
        decide
    have : deadGroupIds base semId [] = [] := by
      unfold deadGroupIds
      rw [hdc]
      rw [List.filter_eq_nil_iff.mpr ?_]
      · rfl
      · intro g _
        rw [show (([] : List Nat).contains g.cohortId) = false from rfl]
        decide
    rw [this]
    rfl

/-- The sheet loop maintains the invariant. -/
theorem loopInv_fold (base : Db) (semId : Nat) (hbase : WellFormed base) :
    ∀ (sheets P : List ParsedSheetData) (acc : ImportAcc),
      LoopInv base semId P acc →
      LoopInv base semId (P ++ sheets) (sheets.foldl (processSheet semId) acc) := by
  intro sheets
  induction sheets with
  | nil =>
    intro P acc hinv
    rw [List.append_nil, List.foldl_nil]
    exact hinv
  | cons s rest ih =>
    intro P acc hinv
    rw [List.foldl_cons]
    have hstep := processSheet_inv base semId P acc s hbase hinv
    have := ih (P ++ [s]) (processSheet semId acc s) hstep
    rw [List.append_assoc] at this
    rw [List.singleton_append] at this
    exact this

theorem mem_updateFirstWhere {α : Type} (p : α → Bool) (f : α → α) (l : List α)
    (x : α) (hx : x ∈ updateFirstWhere p f l) : x ∈ l ∨ ∃ y ∈ l, x = f y := by
  induction l with
  | nil => exact absurd hx (List.not_mem_nil x)
  | cons a as ih =>
    rw [updateFirstWhere] at hx
    by_cases hp : p a = true
    · rw [if_pos hp] at hx
      rcases List.mem_cons.mp hx with h | h
      · exact Or.inr ⟨a, List.mem_cons_self _ _, h⟩
      · exact Or.inl (List.mem_cons_of_mem _ h)
    · rw [if_neg hp] at hx
      rcases List.mem_cons.mp hx with h | h
      · exact Or.inl (h ▸ List.mem_cons_self _ _)
      · rcases ih h with h' | ⟨y, hy, hxy⟩
        · exact Or.inl (List.mem_cons_of_mem _ h')
        · exact Or.inr ⟨y, List.mem_cons_of_mem _ hy, hxy⟩

theorem mem_updateFirstWhere_of_find? {α : Type} (p : α → Bool) (f : α → α) (l : List α)
    (a : α) (h : l.find? p = some a) : f a ∈ updateFirstWhere p f l := by
  induction l with
  | nil => exact absurd h (by rw [List.find?_nil]; exact fun hc => Option.noConfusion hc)
  | cons x xs ih =>
    by_cases hp : p x = true
    · rw [List.find?_cons_of_pos _ hp] at h
      rw [updateFirstWhere, if_pos hp]
      rw [Option.some.injEq] at h
      rw [h]
      exact List.mem_cons_self _ _
    · rw [List.find?_cons_of_neg _ hp] at h
      rw [updateFirstWhere, if_neg hp]
      exact List.mem_cons_of_mem _ (ih h)

/-- Shape of the semester upsert: nothing but the semester table and the
counter changes, the returned id's row carries the written fields, and
well-formedness is preserved. -/
theorem upsertSemester_shape (db : Db) (key label sourceFile : String)
    (startDate endDate : Option Int) (hwf : WellFormed db) :
    (upsertSemester db key label sourceFile startDate endDate).1.cohorts = db.cohorts ∧
    (upsertSemester db key label sourceFile startDate endDate).1.classGroups =
      db.classGroups ∧
    (upsertSemester db key label sourceFile startDate endDate).1.entries = db.entries ∧
    (upsertSemester db key label sourceFile startDate endDate).1.courses = db.courses ∧
    db.nextId ≤ (upsertSemester db key label sourceFile startDate endDate).1.nextId ∧
    WellFormed (upsertSemester db key label sourceFile startDate endDate).1 ∧
    (⟨(upsertSemester db key label sourceFile startDate endDate).2, key, label,
      sourceFile, startDate, endDate⟩ : SemesterRow) ∈
      (upsertSemester db key label sourceFile startDate endDate).1.semesters := by
  unfold upsertSemester
  cases hf : db.semesters.find? (fun s => s.key == key) with
  | some srow =>
    dsimp only
    have hkey : srow.key = key := by simpa using List.find?_some hf
    have hmem : srow ∈ db.semesters := List.mem_of_find?_eq_some hf
    refine ⟨rfl, rfl, rfl, rfl, le_rfl, ?_, ?_⟩
    · refine ⟨?_, hwf.cohortIdBound, hwf.groupIdBound, hwf.groupCohortIdBound,
        hwf.courseIdBound, hwf.entryIdBound, ?_, hwf.cohortIdsNodup,
        hwf.groupIdsNodup, hwf.courseIdsNodup, ?_, hwf.cohortKeysNodup,
        hwf.courseCodesNodup, hwf.entryGroupRef⟩
      · intro x hx
        rcases mem_updateFirstWhere _ _ _ x hx with h | ⟨y, hy, rfl⟩
        · exact hwf.semIdBound x h
        · exact hwf.semIdBound y hy
      · rw [map_updateFirstWhere_of_preserve (fun r => r.key == key)
          (fun r : SemesterRow =>
            { r with
                label := label
                sourceFile := sourceFile
                startDate := startDate
                endDate := endDate })
          (fun s : SemesterRow => s.id) db.semesters (fun a => rfl)]
        exact hwf.semIdsNodup
      · rw [map_updateFirstWhere_of_preserve (fun r => r.key == key)
          (fun r : SemesterRow =>
            { r with
                label := label
                sourceFile := sourceFile
                startDate := startDate
                endDate := endDate })
          (fun s : SemesterRow => s.key) db.semesters (fun a => rfl)]
        exact hwf.semKeysNodup
    · have hstep := mem_updateFirstWhere_of_find? (fun s => s.key == key)
        (fun r =>
          { r with
              label := label
              sourceFile := sourceFile
              startDate := startDate
              endDate := endDate }) db.semesters srow hf
      have heq :
          ({ srow with
              label := label
              sourceFile := sourceFile
              startDate := startDate
              endDate := endDate } : SemesterRow) =
          ⟨srow.id, key, label, sourceFile, startDate, endDate⟩ := by
        rw [show ({ srow with
              label := label
              sourceFile := sourceFile
              startDate := startDate
              endDate := endDate } : SemesterRow) =
          ⟨srow.id, srow.key, label, sourceFile, startDate, endDate⟩ from rfl, hkey]
      dsimp only at hstep
      rw [heq] at hstep
      exact hstep
  | none =>
    dsimp only
    refine ⟨rfl, rfl, rfl, rfl, Nat.le_succ _, ?_, ?_⟩
    · refine ⟨?_, ?_, ?_, ?_, ?_, ?_, ?_, hwf.cohortIdsNodup, hwf.groupIdsNodup,
        hwf.courseIdsNodup, ?_, hwf.cohortKeysNodup, hwf.courseCodesNodup,
        hwf.entryGroupRef⟩
      · intro x hx
        rcases List.mem_append.mp hx with h | h
        · exact lt_of_lt_of_le (hwf.semIdBound x h) (Nat.le_succ _)
        · rcases List.mem_singleton.mp h with rfl
          exact Nat.lt_succ_self _
      · intro x hx
        exact lt_of_lt_of_le (hwf.cohortIdBound x hx) (Nat.le_succ _)
      · intro x hx
        exact lt_of_lt_of_le (hwf.groupIdBound x hx) (Nat.le_succ _)
      · intro x hx
        exact lt_of_lt_of_le (hwf.groupCohortIdBound x hx) (Nat.le_succ _)
      · intro x hx
        exact lt_of_lt_of_le (hwf.courseIdBound x hx) (Nat.le_succ _)
      · intro x hx
        exact lt_of_lt_of_le (hwf.entryIdBound x hx) (Nat.le_succ _)
      · rw [List.map_append, List.map_singleton]
        rw [show (db.semesters.map (fun s => s.id)) ++
          [(⟨db.nextId, key, label, sourceFile, startDate, endDate⟩ : SemesterRow).id] =
          ((db.semesters.map (fun s => s.id)).concat
            (⟨db.nextId, key, label, sourceFile, startDate, endDate⟩ :
              SemesterRow).id) from (List.concat_eq_append _ _).symm]
        refine List.Nodup.concat ?_ hwf.semIdsNodup
        intro hc
        obtain ⟨s0, hs0, hid0⟩ := List.mem_map.mp hc
        have := hwf.semIdBound s0 hs0
        simp only at hid0
        omega
      · rw [List.map_append, List.map_singleton]
        rw [show (db.semesters.map (fun s => s.key)) ++
          [(⟨db.nextId, key, label, sourceFile, startDate, endDate⟩ : SemesterRow).key] =
          ((db.semesters.map (fun s => s.key)).concat
            (⟨db.nextId, key, label, sourceFile, startDate, endDate⟩ :
              SemesterRow).key) from (List.concat_eq_append _ _).symm]
        refine List.Nodup.concat ?_ hwf.semKeysNodup
        intro hc
        obtain ⟨s0, hs0, hkey0⟩ := List.mem_map.mp hc
        have := List.find?_eq_none.mp hf s0 hs0
        simp only at hkey0
        simp [hkey0] at this
    · exact List.mem_append_right _ (List.mem_singleton.mpr rfl)

/-- Upserting a semester whose row already carries exactly the written
values changes nothing and returns that row's id. -/
theorem upsertSemester_noop (db : Db) (sid : Nat) (key label sourceFile : String)
    (startDate endDate : Option Int)
    (hkeys : (db.semesters.map (fun s => s.key)).Nodup)
    (hmem : (⟨sid, key, label, sourceFile, startDate, endDate⟩ : SemesterRow) ∈
      db.semesters) :
    upsertSemester db key label sourceFile startDate endDate = (db, sid) := by
  unfold upsertSemester
  cases hf : db.semesters.find? (fun s => s.key == key) with
  | none =>
    exfalso
    have := List.find?_eq_none.mp hf _ hmem
    simp at this
  | some srow =>
    have hkey : srow.key = key := by simpa using List.find?_some hf
    have hsmem : srow ∈ db.semesters := List.mem_of_find?_eq_some hf
    have hrows : srow = ⟨sid, key, label, sourceFile, startDate, endDate⟩ := by
      refine List.inj_on_of_nodup_map hkeys hsmem hmem ?_
      rw [hkey]
    have hupd : updateFirstWhere (fun r => r.key == key)
        (fun r =>
          { r with
              label := label
              sourceFile := sourceFile
              startDate := startDate
              endDate := endDate }) db.semesters = db.semesters := by
      refine updateFirstWhere_eq_self _ _ _ ?_
      intro a ha hpa
      have hakey : a.key = key := by simpa using hpa
      have haeq : a = ⟨sid, key, label, sourceFile, startDate, endDate⟩ := by
        refine List.inj_on_of_nodup_map hkeys ha hmem ?_
        rw [hakey]
      rw [haeq]
    rw [hupd]
    rw [Prod.mk.injEq]
    refine ⟨?_, by rw [hrows]⟩
    show ({ db with semesters := db.semesters }) = db
    cases db
    rfl

/-- One `writeImport` run: the semester upsert followed by the sheet
fold, with the loop invariant at the end. -/
theorem writeImport_run (db : Db) (first : ParsedSheetData) (rest : List ParsedSheetData)
    (src : String) (hwf : WellFormed db) :
    LoopInv (upsertSemester db first.semesterKey first.semesterLabel src
        (listMin ((first :: rest).filterMap (fun s => s.startDate)))
        (listMax ((first :: rest).filterMap (fun s => s.endDate)))).1
      (upsertSemester db first.semesterKey first.semesterLabel src
        (listMin ((first :: rest).filterMap (fun s => s.startDate)))
        (listMax ((first :: rest).filterMap (fun s => s.endDate)))).2
      (first :: rest)
      ((first :: rest).foldl (processSheet
          (upsertSemester db first.semesterKey first.semesterLabel src
            (listMin ((first :: rest).filterMap (fun s => s.startDate)))
            (listMax ((first :: rest).filterMap (fun s => s.endDate)))).2)
        ⟨(upsertSemester db first.semesterKey first.semesterLabel src
            (listMin ((first :: rest).filterMap (fun s => s.startDate)))
            (listMax ((first :: rest).filterMap (fun s => s.endDate)))).1, 0, 0, []⟩) ∧
    (writeImportModel db (first :: rest) src).1 =
      ((first :: rest).foldl (processSheet
          (upsertSemester db first.semesterKey first.semesterLabel src
            (listMin ((first :: rest).filterMap (fun s => s.startDate)))
            (listMax ((first :: rest).filterMap (fun s => s.endDate)))).2)
        ⟨(upsertSemester db first.semesterKey first.semesterLabel src
            (listMin ((first :: rest).filterMap (fun s => s.startDate)))
            (listMax ((first :: rest).filterMap (fun s => s.endDate)))).1, 0, 0, []⟩).db ∧
    (writeImportModel db (first :: rest) src).2 =
      ⟨src, first.semesterKey, first.semesterLabel,
        (first :: rest).map (fun s => s.cohortCode),
        ((first :: rest).foldl (processSheet
            (upsertSemester db first.semesterKey first.semesterLabel src
              (listMin ((first :: rest).filterMap (fun s => s.startDate)))
              (listMax ((first :: rest).filterMap (fun s => s.endDate)))).2)
          ⟨(upsertSemester db first.semesterKey first.semesterLabel src
              (listMin ((first :: rest).filterMap (fun s => s.startDate)))
              (listMax ((first :: rest).filterMap (fun s => s.endDate)))).1, 0, 0,
            []⟩).totalClassGroups,
        ((first :: rest).foldl (processSheet
            (upsertSemester db first.semesterKey first.semesterLabel src
              (listMin ((first :: rest).filterMap (fun s => s.startDate)))
              (listMax ((first :: rest).filterMap (fun s => s.endDate)))).2)
          ⟨(upsertSemester db first.semesterKey first.semesterLabel src
              (listMin ((first :: rest).filterMap (fun s => s.startDate)))
              (listMax ((first :: rest).filterMap (fun s => s.endDate)))).1, 0, 0,
            []⟩).allCourseCodes.length,
        ((first :: rest).foldl (processSheet
            (upsertSemester db first.semesterKey first.semesterLabel src
              (listMin ((first :: rest).filterMap (fun s => s.startDate)))
              (listMax ((first :: rest).filterMap (fun s => s.endDate)))).2)
          ⟨(upsertSemester db first.semesterKey first.semesterLabel src
              (listMin ((first :: rest).filterMap (fun s => s.startDate)))
              (listMax ((first :: rest).filterMap (fun s => s.endDate)))).1, 0, 0,
            []⟩).totalEntries⟩ := by
  obtain ⟨_, _, _, _, _, hwfbase, _⟩ :=
    upsertSemester_shape db first.semesterKey first.semesterLabel src
      (listMin ((first :: rest).filterMap (fun s => s.startDate)))
      (listMax ((first :: rest).filterMap (fun s => s.endDate))) hwf
  refine ⟨?_, rfl, rfl⟩
  have h := loopInv_fold
    (upsertSemester db first.semesterKey first.semesterLabel src
      (listMin ((first :: rest).filterMap (fun s => s.startDate)))
      (listMax ((first :: rest).filterMap (fun s => s.endDate)))).1
    (upsertSemester db first.semesterKey first.semesterLabel src
      (listMin ((first :: rest).filterMap (fun s => s.startDate)))
      (listMax ((first :: rest).filterMap (fun s => s.endDate)))).2
    hwfbase (first :: rest) []
    ⟨(upsertSemester db first.semesterKey first.semesterLabel src
      (listMin ((first :: rest).filterMap (fun s => s.startDate)))
      (listMax ((first :: rest).filterMap (fun s => s.endDate)))).1, 0, 0, []⟩
    (loopInv_init
      (upsertSemester db first.semesterKey first.semesterLabel src
        (listMin ((first :: rest).filterMap (fun s => s.startDate)))
        (listMax ((first :: rest).filterMap (fun s => s.endDate)))).1
      (upsertSemester db first.semesterKey first.semesterLabel src
        (listMin ((first :: rest).filterMap (fun s => s.startDate)))
        (listMax ((first :: rest).filterMap (fun s => s.endDate)))).2
      hwfbase)
  rw [List.nil_append] at h
  exact h

theorem forall₂_map_eq {α β γ : Type} {R : α → β → Prop} {l₁ : List α} {l₂ : List β}
    (h : List.Forall₂ R l₁ l₂) (f : α → γ) (g : β → γ)
    (hfg : ∀ a b, R a b → f a = g b) : l₁.map f = l₂.map g := by
  induction h with
  | nil => rfl
  | cons hR _ ih =>
    rw [List.map_cons, List.map_cons, hfg _ _ hR, ih]

theorem semKeyOfId_eq (db : Db) (sid : Nat) (k : String)
    (hrow : ∃ r ∈ db.semesters, r.id = sid ∧ r.key = k)
    (hids : (db.semesters.map (fun s => s.id)).Nodup) :
    semKeyOfId db sid = some k := by
  obtain ⟨r, hr, hid, hk⟩ := hrow
  unfold semKeyOfId
  have hfnd := find?_key_of_mem (fun s : SemesterRow => s.id) db.semesters r hr hids
  have h2 : db.semesters.find? (fun s => s.id == sid) = some r := by
    rw [← hid]
    exact hfnd
  rw [h2, Option.map_some']
  rw [hk]

theorem cohortRefOfId_eq (db : Db) (c : CohortRow) (hc : c ∈ db.cohorts)
    (hids : (db.cohorts.map (fun c => c.id)).Nodup) :
    cohortRefOfId db c.id = some (semKeyOfId db c.semesterId, c.code) := by
  unfold cohortRefOfId
  have := find?_key_of_mem (fun c : CohortRow => c.id) db.cohorts c hc hids
  rw [this, Option.map_some']

/-- The erased view of one run's fresh class-group blocks is determined
by the parse alone. -/
theorem blocks_erase_groups (db : Db) (semId lowId : Nat) (k : String)
    (pairs : List (List ClassGroupRow × List ScheduleEntryRow))
    (L : List ParsedSheetData)
    (hrel : List.Forall₂ (sheetBlockRel db semId lowId) pairs L)
    (hcohids : (db.cohorts.map (fun c => c.id)).Nodup)
    (hsemrow : ∃ r ∈ db.semesters, r.id = semId ∧ r.key = k)
    (hsemids : (db.semesters.map (fun s => s.id)).Nodup) :
    ((pairs.map (fun p => p.1)).flatten).map (eraseGroup db) =
      L.flatMap (fun t => (groupNamesOf t).map (fun n =>
        ((some (some k, t.cohortCode) : Option (Option String × String)), n))) := by
  induction hrel with
  | nil => rfl
  | cons hR hrest ih =>
    rename_i pr t ps₀ L₀
    rw [List.map_cons, List.flatten_cons, List.map_append, ih, List.flatMap_cons]
    refine congrArg₂ _ ?_ rfl
    obtain ⟨cid, ⟨c, hc, hcid, hcsem, hccode⟩, hmap, _, _, _⟩ := hR
    have hstep : pr.1.map (eraseGroup db) =
        (pr.1.map (fun g => (g.cohortId, g.name))).map
          (fun p => (cohortRefOfId db p.1, p.2)) := by
      rw [List.map_map]
      rfl
    rw [hstep, hmap, List.map_map]
    refine List.map_congr_left ?_
    intro n _
    show (cohortRefOfId db cid, n) = _
    have : cohortRefOfId db cid = some (semKeyOfId db c.semesterId, c.code) := by
      rw [← hcid]
      exact cohortRefOfId_eq db c hc hcohids
    rw [this, hcsem, hccode, semKeyOfId_eq db semId k hsemrow hsemids]

/-- The erased view of one run's fresh schedule-entry blocks is
determined by the parse alone. -/
theorem blocks_erase_entries (db : Db) (semId lowId : Nat) (k : String)
    (pairs : List (List ClassGroupRow × List ScheduleEntryRow))
    (L : List ParsedSheetData)
    (hrel : List.Forall₂ (sheetBlockRel db semId lowId) pairs L)
    (hsub : ∀ p ∈ pairs, ∀ g ∈ p.1, g ∈ db.classGroups)
    (hcohids : (db.cohorts.map (fun c => c.id)).Nodup)
    (hgids : (db.classGroups.map (fun g => g.id)).Nodup)
    (hcids : (db.courses.map (fun c => c.id)).Nodup)
    (hsemrow : ∃ r ∈ db.semesters, r.id = semId ∧ r.key = k)
    (hsemids : (db.semesters.map (fun s => s.id)).Nodup) :
    ((pairs.map (fun p => p.2)).flatten).map (eraseEntry db) =
      L.flatMap (fun t => t.events.map (fun ev =>
        ((some k : Option String),
          (some ((some (some k, t.cohortCode) : Option (Option String × String)),
            ev.classGroupName) :
            Option (Option (Option String × String) × String)),
          (some ev.courseCode : Option String),
          ev.dayOfWeek, ev.session, ev.startTime, ev.rawTime, ev.room,
          ev.sourceSheet, ev.sourceRow))) := by
  induction hrel with
  | nil => rfl
  | cons hR hrest ih =>
    rename_i pr t ps₀ L₀
    rw [List.map_cons, List.flatten_cons, List.map_append,
      ih (fun p hp => hsub p (List.mem_cons_of_mem _ hp)), List.flatMap_cons]
    refine congrArg₂ _ ?_ rfl
    obtain ⟨cid, ⟨c, hc, hcid, hcsem, hccode⟩, hmap, _, _, hf₂⟩ := hR
    have hprsub : ∀ g ∈ pr.1, g ∈ db.classGroups :=
      hsub pr (List.mem_cons_self _ _)
    have hgch : ∀ g ∈ pr.1, g.cohortId = cid := by
      intro g hg
      have hmm : (g.cohortId, g.name) ∈ pr.1.map (fun g => (g.cohortId, g.name)) :=
        List.mem_map_of_mem _ hg
      rw [hmap] at hmm
      obtain ⟨n, _, hpair⟩ := List.mem_map.mp hmm
      exact congrArg Prod.fst hpair.symm
    refine forall₂_map_eq hf₂ _ _ ?_
    rintro en ev ⟨hsem, ⟨g, hg, hgid, hgname⟩, hck, hday, hses, hst, hrt, hroom,
      hsheet, hrow⟩
    unfold eraseEntry
    have h1 : semKeyOfId db en.semesterId = some k := by
      rw [hsem]
      exact semKeyOfId_eq db semId k hsemrow hsemids
    have h2 : db.classGroups.find? (fun g2 => g2.id == en.classGroupId) = some g := by
      have hfnd := find?_key_of_mem (fun g : ClassGroupRow => g.id) db.classGroups g
        (hprsub g hg) hgids
      rw [← hgid]
      exact hfnd
    have h3 : ∃ crow ∈ db.courses, crow.id = en.courseId ∧
        crow.code = ev.courseCode := by
      have := List.mem_of_elem_eq_true hck
      unfold courseKeys at this
      obtain ⟨crow, hcrow, hpair⟩ := List.mem_map.mp this
      exact ⟨crow, hcrow, congrArg Prod.fst hpair, congrArg Prod.snd hpair⟩
    obtain ⟨crow, hcrow, hcrid, hcrcode⟩ := h3
    have h4 : db.courses.find? (fun c2 => c2.id == en.courseId) = some crow := by
      have hfnd := find?_key_of_mem (fun c : CourseRow => c.id) db.courses crow hcrow hcids
      rw [← hcrid]
      exact hfnd
    rw [h1, h2, h4, Option.map_some', Option.map_some']
    unfold eraseGroup
    have h5 : cohortRefOfId db g.cohortId = some (some k, t.cohortCode) := by
      rw [hgch g hg, ← hcid]
      rw [cohortRefOfId_eq db c hc hcohids]
      rw [hcsem, hccode, semKeyOfId_eq db semId k hsemrow hsemids]
    rw [h5, hgname, hcrcode, hday, hses, hst, hrt, hroom, hsheet, hrow]

theorem semKeyOfId_congr (dbA dbB : Db) (h : dbA.semesters = dbB.semesters) (x : Nat) :
    semKeyOfId dbA x = semKeyOfId dbB x := by
  unfold semKeyOfId
  rw [h]

theorem cohortRefOfId_congr (dbA dbB : Db) (hs : dbA.semesters = dbB.semesters)
    (hc : dbA.cohorts = dbB.cohorts) (x : Nat) :
    cohortRefOfId dbA x = cohortRefOfId dbB x := by
  unfold cohortRefOfId
  have hfun : (fun c : CohortRow => (semKeyOfId dbA c.semesterId, c.code)) =
      (fun c : CohortRow => (semKeyOfId dbB c.semesterId, c.code)) := by
    funext c
    rw [semKeyOfId_congr dbA dbB hs]
  rw [hc, hfun]

theorem eraseGroup_congr (dbA dbB : Db) (hs : dbA.semesters = dbB.semesters)
    (hc : dbA.cohorts = dbB.cohorts) (g : ClassGroupRow) :
    eraseGroup dbA g = eraseGroup dbB g := by
  unfold eraseGroup
  rw [cohortRefOfId_congr dbA dbB hs hc]

/-- Two stores agreeing on semesters, cohorts and courses erase an
entry identically when both resolve its class group to the same row. -/
theorem eraseEntry_agree (dbA dbB : Db) (hs : dbA.semesters = dbB.semesters)
    (hc : dbA.cohorts = dbB.cohorts) (hco : dbA.courses = dbB.courses)
    (e : ScheduleEntryRow) (g0 : ClassGroupRow)
    (hfA : dbA.classGroups.find? (fun g => g.id == e.classGroupId) = some g0)
    (hfB : dbB.classGroups.find? (fun g => g.id == e.classGroupId) = some g0) :
    eraseEntry dbA e = eraseEntry dbB e := by
  unfold eraseEntry
  rw [hfA, hfB, Option.map_some', Option.map_some', hco,
    semKeyOfId_congr dbA dbB hs e.semesterId, eraseGroup_congr dbA dbB hs hc g0]

theorem filter_eq_self_of_forall {α : Type} (p : α → Bool) (l : List α)
    (h : ∀ a ∈ l, p a = true) : l.filter p = l := by
  induction l with
  | nil => rfl
  | cons x xs ih =>
    rw [List.filter_cons_of_pos (h x (List.mem_cons_self _ _)),
      ih (fun a ha => h a (List.mem_cons_of_mem _ ha))]

theorem filter_eq_nil_of_forall {α : Type} (p : α → Bool) (l : List α)
    (h : ∀ a ∈ l, p a = false) : l.filter p = [] := by
  induction l with
  | nil => rfl
  | cons x xs ih =>
    rw [List.filter_cons_of_neg
      (by rw [h x (List.mem_cons_self _ _)]; exact Bool.false_ne_true),
      ih (fun a ha => h a (List.mem_cons_of_mem _ ha))]

theorem not_of_bnot_contains {α : Type} [BEq α] [LawfulBEq α] (l : List α) (x : α)
    (h : (!(l.contains x)) = true) : x ∉ l := by
  cases hc : l.contains x with
  | false => exact (contains_eq_false_iff l x).mp hc
  | true =>
    rw [hc] at h
    exact absurd h (by decide)

/-- **C6.** Importing the same unchanged workbook twice in succession
(with no interleaved writes) returns an identical import summary — in
particular identical entry, course and class-group counts — and leaves
the stored semester, cohort, class-group, course and schedule-entry
state identical up to timestamps and generated ids: the `eraseDb` view,
which forgets generated ids by resolving them to the natural keys they
reference, is unchanged by the second run. -/
theorem double_import_idempotent (db : Db) (first : ParsedSheetData)
    (rest : List ParsedSheetData) (src : String) (hwf : WellFormed db) :
    (writeImportModel (writeImportModel db (first :: rest) src).1 (first :: rest) src).2 =
      (writeImportModel db (first :: rest) src).2 ∧
    eraseDb (writeImportModel (writeImportModel db (first :: rest) src).1
        (first :: rest) src).1 =
      eraseDb (writeImportModel db (first :: rest) src).1 := by
  obtain ⟨hinv1, hdb1, hsum1⟩ := writeImport_run db first rest src hwf
  obtain ⟨_, _, _, _, _, hwfb1, hrow1⟩ := upsertSemester_shape db first.semesterKey
    first.semesterLabel src (listMin ((first :: rest).filterMap (fun s => s.startDate)))
    (listMax ((first :: rest).filterMap (fun s => s.endDate))) hwf
  set mn := listMin ((first :: rest).filterMap (fun s => s.startDate)) with hmn
  set mx := listMax ((first :: rest).filterMap (fun s => s.endDate)) with hmx
  set u1 := upsertSemester db first.semesterKey first.semesterLabel src mn mx with hu1
  set acc1 := (first :: rest).foldl (processSheet u1.2)
    (⟨u1.1, 0, 0, []⟩ : ImportAcc) with hacc1
  have hnoop : upsertSemester acc1.db first.semesterKey first.semesterLabel src mn mx =
      (acc1.db, u1.2) :=
    upsertSemester_noop acc1.db u1.2 first.semesterKey first.semesterLabel src mn mx
      hinv1.wf.semKeysNodup (by rw [hinv1.semesters_eq]; exact hrow1)
  obtain ⟨hinv2, hdb2, hsum2⟩ := writeImport_run acc1.db first rest src hinv1.wf
  rw [← hmn, ← hmx] at hinv2 hdb2 hsum2
  rw [hnoop] at hinv2 hdb2 hsum2
  have hinv2v : LoopInv acc1.db u1.2 (first :: rest)
      ((first :: rest).foldl (processSheet u1.2) (⟨acc1.db, 0, 0, []⟩ : ImportAcc)) :=
    hinv2
  have hdb2v : (writeImportModel acc1.db (first :: rest) src).1 =
      ((first :: rest).foldl (processSheet u1.2) (⟨acc1.db, 0, 0, []⟩ : ImportAcc)).db :=
    hdb2
  have hsum2v : (writeImportModel acc1.db (first :: rest) src).2 =
      ⟨src, first.semesterKey, first.semesterLabel,
        (first :: rest).map (fun s => s.cohortCode),
        ((first :: rest).foldl (processSheet u1.2)
          (⟨acc1.db, 0, 0, []⟩ : ImportAcc)).totalClassGroups,
        ((first :: rest).foldl (processSheet u1.2)
          (⟨acc1.db, 0, 0, []⟩ : ImportAcc)).allCourseCodes.length,
        ((first :: rest).foldl (processSheet u1.2)
          (⟨acc1.db, 0, 0, []⟩ : ImportAcc)).totalEntries⟩ :=
    hsum2
  clear hinv2 hdb2 hsum2
  set acc2 := (first :: rest).foldl (processSheet u1.2)
    (⟨acc1.db, 0, 0, []⟩ : ImportAcc) with hacc2
  -- Cohorts of the second run: nothing new can be created.
  obtain ⟨ctail1, h1cohorts, h1ct⟩ := hinv1.cohorts_ext
  obtain ⟨ctail2, h2cohorts, h2ct⟩ := hinv2v.cohorts_ext
  have hct2nil : ctail2 = [] := by
    cases hc : ctail2 with
    | nil => rfl
    | cons c cs =>
      exfalso
      have hcmem : c ∈ ctail2 := by
        rw [hc]
        exact List.mem_cons_self _ _
      obtain ⟨_, _, hany, hnomatch⟩ := h2ct c hcmem
      obtain ⟨s, hs, hcode⟩ := List.any_eq_true.mp hany
      obtain ⟨c0, hc0, hc0sem, hc0code⟩ := hinv1.cohorts_present s hs
      refine hnomatch c0 hc0 ⟨hc0sem, ?_⟩
      rw [hc0code]
      exact eq_of_beq hcode
  have h2cohD : acc2.db.cohorts = acc1.db.cohorts := by
    rw [h2cohorts, hct2nil, List.append_nil]
  -- Courses of the second run: every code already has a row carrying
  -- the full metadata fold, so the replay is the identity.
  obtain ⟨created1, h1co, h1cc, h1cr⟩ := hinv1.courses_char
  obtain ⟨created2, h2co, h2cc, h2cr⟩ := hinv2v.courses_char
  have h1codes : acc1.db.courses.map (fun c => c.code) =
      u1.1.courses.map (fun c => c.code) ++
        newCourseCodes u1.1.courses (first :: rest) := by
    rw [h1co, List.map_append, List.map_map, ← h1cc]
    refine congrArg₂ _ ?_ rfl
    refine List.map_congr_left ?_
    intro c _
    exact courseRowFold_code _ _
  have hnew2 : newCourseCodes acc1.db.courses (first :: rest) = [] := by
    unfold newCourseCodes
    refine filter_eq_nil_of_forall _ _ ?_
    intro x hx
    have hxmem : x ∈ acc1.db.courses.map (fun c => c.code) := by
      rw [h1codes]
      cases hb : (u1.1.courses.map (fun c => c.code)).contains x with
      | true => exact List.mem_append_left _ ((contains_iff_mem _ _).mp hb)
      | false =>
        refine List.mem_append_right _ ?_
        unfold newCourseCodes
        refine List.mem_filter.mpr ⟨hx, ?_⟩
        show (!((u1.1.courses.map (fun c => c.code)).contains x)) = true
        rw [hb]
        rfl
    show (!((acc1.db.courses.map (fun c => c.code)).contains x)) = false
    rw [(contains_iff_mem _ _).mpr hxmem]
    rfl
  have hc2nil : created2 = [] := by
    cases hc : created2 with
    | nil => rfl
    | cons a as =>
      rw [hc, hnew2] at h2cc
      simp at h2cc
  have hfold1 : ∀ c ∈ acc1.db.courses,
      courseRowFold c (rowUpdatesFor c.code (first :: rest)) = c := by
    intro c hc
    rw [h1co] at hc
    rcases List.mem_append.mp hc with h | h
    · obtain ⟨c0, hc0, rfl⟩ := List.mem_map.mp h
      rw [courseRowFold_code]
      exact courseRowFold_idem c0 _
    · obtain ⟨hr, _⟩ := h1cr c h
      calc courseRowFold c (rowUpdatesFor c.code (first :: rest))
          = courseRowFold (courseRowFold (blankCourse c.id c.code)
              (rowUpdatesFor c.code (first :: rest)))
              (rowUpdatesFor c.code (first :: rest)) := by rw [← hr]
        _ = courseRowFold (blankCourse c.id c.code)
              (rowUpdatesFor c.code (first :: rest)) := courseRowFold_idem _ _
        _ = c := hr.symm
  have h2coeq : acc2.db.courses = acc1.db.courses := by
    rw [h2co, hc2nil, List.append_nil]
    have hmapid : acc1.db.courses.map
        (fun c => courseRowFold c (rowUpdatesFor c.code (first :: rest))) =
        acc1.db.courses.map (fun c => c) := List.map_congr_left hfold1
    rw [hmapid, List.map_id']
  -- Class groups and entries of the second run.
  obtain ⟨pairs1, h1g, h1e, h1rel⟩ := hinv1.blocks
  obtain ⟨pairs2, h2g, h2e, h2rel⟩ := hinv2v.blocks
  have hdead2split : ∀ y, y ∈ deadCohortIds acc1.db u1.2 (first :: rest) →
      y ∈ deadCohortIds u1.1 u1.2 (first :: rest) ∨ u1.1.nextId ≤ y := by
    intro y hy
    obtain ⟨c, hc, hcidy, hcsem, hany⟩ := (mem_deadCohortIds _ _ _ y).mp hy
    rw [h1cohorts] at hc
    rcases List.mem_append.mp hc with h | h
    · exact Or.inl ((mem_deadCohortIds _ _ _ y).mpr ⟨c, h, hcidy, hcsem, hany⟩)
    · obtain ⟨_, hge, _, _⟩ := h1ct c h
      exact Or.inr (by omega)
  have hF1facts : ∀ p ∈ pairs1, ∃ cid,
      (∀ g ∈ p.1, g.cohortId = cid) ∧
      cid ∈ deadCohortIds acc1.db u1.2 (first :: rest) ∧
      (∀ g ∈ p.1, u1.1.nextId ≤ g.id) ∧
      (∀ e ∈ p.2, ∃ g ∈ p.1, g.id = e.classGroupId) := by
    intro p hp
    obtain ⟨t, ht, hrel⟩ := forall₂_mem_left h1rel p hp
    obtain ⟨cid, ⟨c, hc, hcid, hcsem, hccode⟩, hmap, hglow, helow, hf₂⟩ := hrel
    refine ⟨cid, ?_, ?_, hglow, ?_⟩
    · intro g hg
      have hmm : (g.cohortId, g.name) ∈ p.1.map (fun g => (g.cohortId, g.name)) :=
        List.mem_map_of_mem _ hg
      rw [hmap] at hmm
      obtain ⟨n, _, hpair⟩ := List.mem_map.mp hmm
      exact congrArg Prod.fst hpair.symm
    · refine (mem_deadCohortIds acc1.db u1.2 (first :: rest) cid).mpr
        ⟨c, hc, hcid, hcsem, ?_⟩
      refine List.any_eq_true.mpr ⟨t, mem_of_mem_lastOccSheets _ _ ht, ?_⟩
      show (t.cohortCode == c.code) = true
      rw [hccode]
      exact beq_self_eq_true _
    · intro e hel
      obtain ⟨ev, hev, hrelE⟩ := forall₂_mem_left hf₂ e hel
      obtain ⟨_, ⟨g, hg, hgid, _⟩, _⟩ := hrelE
      exact ⟨g, hg, hgid⟩
  have hF1sub : ∀ p ∈ pairs1, ∀ g ∈ p.1, g ∈ acc1.db.classGroups := by
    intro p hp g hg
    rw [h1g]
    exact List.mem_append_right _
      (List.mem_flatten.mpr ⟨p.1, List.mem_map_of_mem _ hp, hg⟩)
  have hF2sub : ∀ p ∈ pairs2, ∀ g ∈ p.1, g ∈ acc2.db.classGroups := by
    intro p hp g hg
    rw [h2g]
    exact List.mem_append_right _
      (List.mem_flatten.mpr ⟨p.1, List.mem_map_of_mem _ hp, hg⟩)
  have hKA : acc1.db.classGroups.filter
        (fun g => !((deadCohortIds acc1.db u1.2 (first :: rest)).contains g.cohortId)) =
      u1.1.classGroups.filter
        (fun g => !((deadCohortIds u1.1 u1.2 (first :: rest)).contains g.cohortId)) := by
    rw [h1g, List.filter_append]
    have hKeep : (u1.1.classGroups.filter (fun g =>
          !((deadCohortIds u1.1 u1.2 (first :: rest)).contains g.cohortId))).filter
          (fun g =>
            !((deadCohortIds acc1.db u1.2 (first :: rest)).contains g.cohortId)) =
        u1.1.classGroups.filter (fun g =>
          !((deadCohortIds u1.1 u1.2 (first :: rest)).contains g.cohortId)) := by
      refine filter_eq_self_of_forall _ _ ?_
      intro g hg
      obtain ⟨hgbase, hgpred⟩ := List.mem_filter.mp hg
      have hnotd1 : g.cohortId ∉ deadCohortIds u1.1 u1.2 (first :: rest) :=
        not_of_bnot_contains _ _ hgpred
      show (!((deadCohortIds acc1.db u1.2 (first :: rest)).contains g.cohortId)) = true
      have hcf : (deadCohortIds acc1.db u1.2 (first :: rest)).contains g.cohortId =
          false := by
        refine (contains_eq_false_iff _ _).mpr ?_
        intro hmem2
        rcases hdead2split g.cohortId hmem2 with h | h
        · exact hnotd1 h
        · have hb := hwfb1.groupCohortIdBound g hgbase
          omega
      rw [hcf]
      rfl
    have hDrop : ((pairs1.map (fun p => p.1)).flatten).filter
        (fun g =>
          !((deadCohortIds acc1.db u1.2 (first :: rest)).contains g.cohortId)) = [] := by
      refine filter_eq_nil_of_forall _ _ ?_
      intro g hg
      obtain ⟨l, hl, hgl⟩ := List.mem_flatten.mp hg
      obtain ⟨p, hp, rfl⟩ := List.mem_map.mp hl
      obtain ⟨cid, hcideq, hciddead, _, _⟩ := hF1facts p hp
      show (!((deadCohortIds acc1.db u1.2 (first :: rest)).contains g.cohortId)) = false
      have hmem2 : g.cohortId ∈ deadCohortIds acc1.db u1.2 (first :: rest) := by
        rw [hcideq g hgl]
        exact hciddead
      rw [(contains_iff_mem _ _).mpr hmem2]
      rfl
    rw [hKeep, hDrop, List.append_nil]
  rw [hKA] at h2g
  have hEA : acc1.db.entries.filter
        (fun e => !((deadGroupIds acc1.db u1.2 (first :: rest)).contains e.classGroupId)) =
      u1.1.entries.filter
        (fun e =>
          !((deadGroupIds u1.1 u1.2 (first :: rest)).contains e.classGroupId)) := by
    rw [h1e, List.filter_append]
    have hKeep : (u1.1.entries.filter (fun e =>
          !((deadGroupIds u1.1 u1.2 (first :: rest)).contains e.classGroupId))).filter
          (fun e =>
            !((deadGroupIds acc1.db u1.2 (first :: rest)).contains e.classGroupId)) =
        u1.1.entries.filter (fun e =>
          !((deadGroupIds u1.1 u1.2 (first :: rest)).contains e.classGroupId)) := by
      refine filter_eq_self_of_forall _ _ ?_
      intro e he
      obtain ⟨hebase, hepred⟩ := List.mem_filter.mp he
      have hnot1 : e.classGroupId ∉ deadGroupIds u1.1 u1.2 (first :: rest) :=
        not_of_bnot_contains _ _ hepred
      show (!((deadGroupIds acc1.db u1.2 (first :: rest)).contains e.classGroupId)) = true
      have hcf : (deadGroupIds acc1.db u1.2 (first :: rest)).contains e.classGroupId =
          false := by
        refine (contains_eq_false_iff _ _).mpr ?_
        intro hmem2
        obtain ⟨g, hgmem, hgid, hgdead⟩ :=
          (mem_deadGroupIds acc1.db u1.2 (first :: rest) _).mp hmem2
        rw [h1g] at hgmem
        rcases List.mem_append.mp hgmem with hK | hF
        · obtain ⟨hgbase, hgpred⟩ := List.mem_filter.mp hK
          rcases hdead2split g.cohortId hgdead with h | h
          · exact not_of_bnot_contains _ _ hgpred h
          · have hb := hwfb1.groupCohortIdBound g hgbase
            omega
        · obtain ⟨l, hl, hgl⟩ := List.mem_flatten.mp hF
          obtain ⟨p, hp, rfl⟩ := List.mem_map.mp hl
          obtain ⟨_, _, _, hglow, _⟩ := hF1facts p hp
          have hge := hglow g hgl
          obtain ⟨g0, hg0, hg0id⟩ := hwfb1.entryGroupRef e hebase
          have hb := hwfb1.groupIdBound g0 hg0
          omega
      rw [hcf]
      rfl
    have hDrop : ((pairs1.map (fun p => p.2)).flatten).filter
        (fun e =>
          !((deadGroupIds acc1.db u1.2 (first :: rest)).contains e.classGroupId)) =
        [] := by
      refine filter_eq_nil_of_forall _ _ ?_
      intro e he
      obtain ⟨l, hl, hel⟩ := List.mem_flatten.mp he
      obtain ⟨p, hp, rfl⟩ := List.mem_map.mp hl
      obtain ⟨cid, hcideq, hciddead, _, hent⟩ := hF1facts p hp
      obtain ⟨g, hg, hgid⟩ := hent e hel
      show (!((deadGroupIds acc1.db u1.2 (first :: rest)).contains e.classGroupId)) = false
      have hmem2 : e.classGroupId ∈ deadGroupIds acc1.db u1.2 (first :: rest) := by
        refine (mem_deadGroupIds _ _ _ _).mpr
          ⟨g, hF1sub p hp g hg, hgid, ?_⟩
        rw [hcideq g hg]
        exact hciddead
      rw [(contains_iff_mem _ _).mpr hmem2]
      rfl
    rw [hKeep, hDrop, List.append_nil]
  rw [hEA] at h2e
  -- The erased views.
  have hsemrow1 : ∃ r ∈ acc1.db.semesters, r.id = u1.2 ∧ r.key = first.semesterKey :=
    ⟨⟨u1.2, first.semesterKey, first.semesterLabel, src, mn, mx⟩,
      by rw [hinv1.semesters_eq]; exact hrow1, rfl, rfl⟩
  have hsemrow2 : ∃ r ∈ acc2.db.semesters, r.id = u1.2 ∧ r.key = first.semesterKey :=
    ⟨⟨u1.2, first.semesterKey, first.semesterLabel, src, mn, mx⟩,
      by rw [hinv2v.semesters_eq, hinv1.semesters_eq]; exact hrow1, rfl, rfl⟩
  have hF1g := blocks_erase_groups acc1.db u1.2 u1.1.nextId first.semesterKey pairs1
    (lastOccSheets (first :: rest)) h1rel hinv1.wf.cohortIdsNodup hsemrow1
    hinv1.wf.semIdsNodup
  have hF2g := blocks_erase_groups acc2.db u1.2 acc1.db.nextId first.semesterKey pairs2
    (lastOccSheets (first :: rest)) h2rel hinv2v.wf.cohortIdsNodup hsemrow2
    hinv2v.wf.semIdsNodup
  have hF1e := blocks_erase_entries acc1.db u1.2 u1.1.nextId first.semesterKey pairs1
    (lastOccSheets (first :: rest)) h1rel hF1sub hinv1.wf.cohortIdsNodup
    hinv1.wf.groupIdsNodup hinv1.wf.courseIdsNodup hsemrow1 hinv1.wf.semIdsNodup
  have hF2e := blocks_erase_entries acc2.db u1.2 acc1.db.nextId first.semesterKey pairs2
    (lastOccSheets (first :: rest)) h2rel hF2sub hinv2v.wf.cohortIdsNodup
    hinv2v.wf.groupIdsNodup hinv2v.wf.courseIdsNodup hsemrow2 hinv2v.wf.semIdsNodup
  have hCG : acc2.db.classGroups.map (eraseGroup acc2.db) =
      acc1.db.classGroups.map (eraseGroup acc1.db) := by
    rw [h2g, h1g, List.map_append, List.map_append, hF2g, hF1g]
    refine congrArg₂ _ ?_ rfl
    exact List.map_congr_left
      (fun g _ => eraseGroup_congr acc2.db acc1.db hinv2v.semesters_eq h2cohD g)
  have hE1pt : ∀ e ∈ u1.1.entries.filter (fun e =>
        !((deadGroupIds u1.1 u1.2 (first :: rest)).contains e.classGroupId)),
      eraseEntry acc2.db e = eraseEntry acc1.db e := by
    intro e he
    obtain ⟨hebase, hepred⟩ := List.mem_filter.mp he
    obtain ⟨g0, hg0, hg0id⟩ := hwfb1.entryGroupRef e hebase
    have hg0K : g0 ∈ u1.1.classGroups.filter (fun g =>
        !((deadCohortIds u1.1 u1.2 (first :: rest)).contains g.cohortId)) := by
      refine List.mem_filter.mpr ⟨hg0, ?_⟩
      show (!((deadCohortIds u1.1 u1.2 (first :: rest)).contains g0.cohortId)) = true
      have hcf : (deadCohortIds u1.1 u1.2 (first :: rest)).contains g0.cohortId =
          false := by
        refine (contains_eq_false_iff _ _).mpr ?_
        intro hdead
        have hmem1 : e.classGroupId ∈ deadGroupIds u1.1 u1.2 (first :: rest) :=
          (mem_deadGroupIds _ _ _ _).mpr ⟨g0, hg0, hg0id, hdead⟩
        exact not_of_bnot_contains _ _ hepred hmem1
      rw [hcf]
      rfl
    have hg0d1 : g0 ∈ acc1.db.classGroups := by
      rw [h1g]
      exact List.mem_append_left _ hg0K
    have hg0d2 : g0 ∈ acc2.db.classGroups := by
      rw [h2g]
      exact List.mem_append_left _ hg0K
    have hf1 : acc1.db.classGroups.find? (fun g => g.id == e.classGroupId) = some g0 := by
      have hfnd := find?_key_of_mem (fun g : ClassGroupRow => g.id) acc1.db.classGroups
        g0 hg0d1 hinv1.wf.groupIdsNodup
      rw [← hg0id]
      exact hfnd
    have hf2 : acc2.db.classGroups.find? (fun g => g.id == e.classGroupId) = some g0 := by
      have hfnd := find?_key_of_mem (fun g : ClassGroupRow => g.id) acc2.db.classGroups
        g0 hg0d2 hinv2v.wf.groupIdsNodup
      rw [← hg0id]
      exact hfnd
    exact eraseEntry_agree acc2.db acc1.db hinv2v.semesters_eq h2cohD h2coeq e g0 hf2 hf1
  have hEN : acc2.db.entries.map (eraseEntry acc2.db) =
      acc1.db.entries.map (eraseEntry acc1.db) := by
    rw [h2e, h1e, List.map_append, List.map_append, hF2e, hF1e]
    refine congrArg₂ _ ?_ rfl
    exact List.map_congr_left hE1pt
  have hCoh : acc2.db.cohorts.map (fun c => (semKeyOfId acc2.db c.semesterId, c.code)) =
      acc1.db.cohorts.map (fun c => (semKeyOfId acc1.db c.semesterId, c.code)) := by
    rw [h2cohD]
    refine List.map_congr_left ?_
    intro c _
    rw [semKeyOfId_congr acc2.db acc1.db hinv2v.semesters_eq c.semesterId]
  refine ⟨?_, ?_⟩
  · rw [hdb1, hsum2v, hsum1]
    obtain ⟨ht1g, ht1e, ht1c⟩ := hinv1.totals
    obtain ⟨ht2g, ht2e, ht2c⟩ := hinv2v.totals
    rw [ht1g, ht2g, ht1e, ht2e, ht1c, ht2c]
  · rw [hdb1, hdb2v]
    show eraseDb acc2.db = eraseDb acc1.db
    unfold eraseDb
    rw [hinv2v.semesters_eq, hCoh, hCG, h2coeq, hEN]

/-- Witness for `double_import_idempotent`: a concrete empty store and a
one-sheet workbook satisfy the hypothesis and the conclusion. -/
theorem double_import_idempotent_witness :
    WellFormed ⟨[], [], [], [], [], 0⟩ ∧
    ((writeImportModel (writeImportModel (⟨[], [], [], [], [], 0⟩ : Db)
          [⟨"Sheet1", "K47", "Fall 2025", "2025A", none, none, [], []⟩] "f.xlsx").1
        [⟨"Sheet1", "K47", "Fall 2025", "2025A", none, none, [], []⟩] "f.xlsx").2 =
        (writeImportModel (⟨[], [], [], [], [], 0⟩ : Db)
          [⟨"Sheet1", "K47", "Fall 2025", "2025A", none, none, [], []⟩] "f.xlsx").2 ∧
      eraseDb (writeImportModel (writeImportModel (⟨[], [], [], [], [], 0⟩ : Db)
          [⟨"Sheet1", "K47", "Fall 2025", "2025A", none, none, [], []⟩] "f.xlsx").1
        [⟨"Sheet1", "K47", "Fall 2025", "2025A", none, none, [], []⟩] "f.xlsx").1 =
        eraseDb (writeImportModel (⟨[], [], [], [], [], 0⟩ : Db)
          [⟨"Sheet1", "K47", "Fall 2025", "2025A", none, none, [], []⟩] "f.xlsx").1) := by
  have hwf0 : WellFormed ⟨[], [], [], [], [], 0⟩ :=
    ⟨by decide, by decide, by decide, by decide, by decide, by decide, by decide,
      by decide, by decide, by decide, by decide, by decide, by decide, by decide⟩
  exact ⟨hwf0, double_import_idempotent ⟨[], [], [], [], [], 0⟩
    ⟨"Sheet1", "K47", "Fall 2025", "2025A", none, none, [], []⟩ [] "f.xlsx" hwf0⟩
